import Mathlib

/-!
# ComplianceCheckerRaG: the analysis pipeline of the server

A shallow embedding of `src/server/controllers/complianceController.js`,
`src/server/services/ioIntelligenceService.js` and the parts of the other
modules they rely on, followed by the properties proved about them.

Conventions of the embedding.

* A JavaScript string whose characters are inspected (document text, raw model
  output) is a list of UTF-16 code units, `JsString`.  Identifiers, file names
  and fixed messages, which the code only copies and compares, are `String`.
* A JavaScript function that may throw returns `Except JsError _`; `try/catch`
  is `tryCatch`.
* The two module-level `Map`s of the controller are the two fields of `Store`;
  every handler takes the store and returns the new one.
* What the outside world supplies (the uuid generator, the clock, the language
  model, `JSON.parse`) is an explicit argument.
-/

namespace ComplianceChecker

/-! ## JavaScript values -/

/-- A JavaScript string as its sequence of UTF-16 code units. -/
abbrev JsString := List Nat

/-- The code units of a literal of the source (all literals used are ASCII). -/
def js (s : String) : JsString := s.toList.map Char.toNat

/-- A thrown JavaScript `Error`: its `name` and its `message`. -/
structure JsError where
  name : String
  message : String
deriving DecidableEq, Repr

/-- The value of `JSON.parse`, or an object literal of the source.  `num` holds the
integral numbers, the only ones the literals of the source use. -/
inductive Json where
  | null : Json
  | bool (b : Bool) : Json
  | num (n : Int) : Json
  | str (s : JsString) : Json
  | arr (items : List Json) : Json
  | obj (fields : List (String × Json)) : Json
deriving Repr

/-- Property read `o.key` on a JSON value: `none` stands for `undefined`. -/
def Json.field (key : String) : Json → Option Json
  | Json.obj fields => (fields.find? (fun kv => kv.1 == key)).map (fun kv => kv.2)
  | _ => none

/-- The statement `try { body } catch (error) { handler }`. -/
def tryCatch {α : Type} (body : Except JsError α) (handler : JsError → Except JsError α) :
    Except JsError α :=
  match body with
  | Except.ok v => Except.ok v
  | Except.error e => handler e

/-! ## The JavaScript `Map` -/

/-- A `Map` with string keys: its entries in insertion order, keys distinct. -/
structure JsMap (V : Type) where
  entries : List (String × V)

namespace JsMap

/-- The value of `new Map()`. -/
def empty {V : Type} : JsMap V := ⟨[]⟩

/-- Lookup in the entry list. -/
def getEntries {V : Type} (k : String) : List (String × V) → Option V
  | [] => none
  | (k', v) :: rest => if k' = k then some v else getEntries k rest

/-- Update of the entry list: an existing key keeps its place, a new one goes last. -/
def setEntries {V : Type} (k : String) (v : V) : List (String × V) → List (String × V)
  | [] => [(k, v)]
  | (k', v') :: rest => if k' = k then (k, v) :: rest else (k', v') :: setEntries k v rest

/-- The method `map.get(k)`: `none` stands for `undefined`. -/
def get {V : Type} (m : JsMap V) (k : String) : Option V := getEntries k m.entries

/-- The method `map.set(k, v)`. -/
def set {V : Type} (m : JsMap V) (k : String) (v : V) : JsMap V := ⟨setEntries k v m.entries⟩

/-- The property `map.size`. -/
def size {V : Type} (m : JsMap V) : Nat := m.entries.length

end JsMap

/-! ## Records of the controller -/

/-- The object built by `getDocumentMetadata`. -/
structure Metadata where
  filename : String
  mimeType : String
  sizeBytes : Nat
  sizeKB : Nat
  wordCount : Nat
  characterCount : Nat
  uploadedAt : String
  type : String
deriving Repr

/-- A value of the `documents` map (controller, lines 48-53). -/
structure Document where
  id : String
  content : JsString
  metadata : Metadata
  uploadedAt : String
deriving Repr

/-- A value of the `reports` map.  The two object literals of the controller
(lines 113-122 and 128-134) have different key sets; a key that a literal does
not have is `none`. -/
structure Report where
  id : String
  documentId : String
  documentName : Option String
  analysis : Option Json
  improvements : Option Json
  status : String
  error : Option String
  createdAt : String
  completedAt : Option String
deriving Repr

/-- The module-level state of the controller (lines 8-9). -/
structure Store where
  reports : JsMap Report
  documents : JsMap Document

/-- The state when the module has just been loaded. -/
def Store.initial : Store := ⟨JsMap.empty, JsMap.empty⟩

/-- The object `req.file` that multer attaches to an upload request. -/
structure UploadedFile where
  originalname : String
  mimetype : String
  size : Nat
  buffer : List Nat
deriving Repr

/-- The value found under a key of `req.body` or `req.params`. -/
inductive ReqValue where
  | absent : ReqValue
  | str (s : String) : ReqValue
  | other (truthy : Bool) : ReqValue
deriving Repr

/-- JavaScript truthiness, as tested by `!documentId` and `!id`. -/
def ReqValue.truthy : ReqValue → Bool
  | ReqValue.absent => false
  | ReqValue.str s => s ≠ ""
  | ReqValue.other t => t

/-- The method `map.get(v)` for a request value: the keys of both maps are strings, so
only a string can be found. -/
def JsMap.getValue {V : Type} (m : JsMap V) : ReqValue → Option V
  | ReqValue.str s => m.get s
  | _ => none

/-- What `process.uptime()`, `process.memoryUsage()` and the clock give `getSystemStats`. -/
structure ProcessInfo where
  uptime : Nat
  memory : Nat
  timestamp : String
deriving Repr

/-- The bodies the handlers send, with the HTTP status set by `res.status` (200 when the
handler calls `res.json` directly). -/
inductive Response where
  | error (status : Nat) (error : String) (message : Option String) : Response
  | uploaded (documentId : String) (metadata : Metadata) (message : String) : Response
  | analysisStarted (reportId : String) (status : String) (message : String) : Response
  | report (report : Report) : Response
  | models (models : List String) (defaultModel : String) : Response
  | stats (documentsProcessed reportsGenerated : Nat) (info : ProcessInfo) : Response
deriving Repr

/-- The HTTP status of a response. -/
def Response.status : Response → Nat
  | Response.error status _ _ => status
  | _ => 200

/-! ## String operations used by `ioIntelligenceService.js` -/

/-- The code units that `String.prototype.trim` strips and that `\s` matches: the
WhiteSpace and LineTerminator code points of ECMAScript. -/
def isWhiteSpace (c : Nat) : Bool :=
  c = 9 || c = 10 || c = 11 || c = 12 || c = 13 || c = 32 || c = 160 || c = 5760 ||
  (8192 ≤ c && c ≤ 8202) || c = 8232 || c = 8233 || c = 8239 || c = 8287 || c = 12288 ||
  c = 65279

/-- The method `s.trim()`. -/
def trim (s : JsString) : JsString := (s.dropWhile isWhiteSpace).rdropWhile isWhiteSpace

/-- The method `s.startsWith(p)`. -/
def startsWith (s p : JsString) : Bool := s.take p.length = p

/-- The method `s.endsWith(p)`. -/
def endsWith (s p : JsString) : Bool := s.drop (s.length - p.length) = p

/-- The call `s.replace(/^OPEN\s*/, '')` for a literal `OPEN`: an opening fence at the very
start goes, with the white space after it. -/
def replaceOpeningFence (fence s : JsString) : JsString :=
  if startsWith s fence then (s.drop fence.length).dropWhile isWhiteSpace else s

/-- The call `s.replace(/\s*CLOSE$/, '')` for the literal closing fence: the leftmost match
starts at the longest run of white space that precedes a fence ending the string. -/
def replaceClosingFence (fence s : JsString) : JsString :=
  if endsWith s fence then (s.take (s.length - fence.length)).rdropWhile isWhiteSpace else s

/-- The literal of three backticks. -/
def fence : JsString := [96, 96, 96]

/-- The literal of three backticks followed by `json`. -/
def fenceJson : JsString := [96, 96, 96, 106, 115, 111, 110]

/-- The clean-up of markdown formatting, lines 120-124 (and 210-214). -/
def cleanMarkdown (content : JsString) : JsString :=
  if startsWith content fenceJson then
    replaceClosingFence fence (replaceOpeningFence fenceJson content)
  else if startsWith content fence then
    replaceClosingFence fence (replaceOpeningFence fence content)
  else content

/-- The value `content.match(/\{[\s\S]*\}/)`, reduced to element 0 of the match: the
leftmost match starts at the first opening brace and, the star being greedy, ends at the
last closing brace; `none` stands for `null`. -/
def matchBraces (content : JsString) : Option JsString :=
  let fromOpen := content.dropWhile (fun c => c != 123)
  let toClose := fromOpen.rdropWhile (fun c => c != 125)
  if toClose = [] then none else some toClose

/-! ## `IOIntelligenceService` (ioIntelligenceService.js) -/

/-- The outcome of `await this.client.chat.completions.create(...)` followed by the read of
`response.choices[0].message.content`: a throw, or the content, `none` for `null`. -/
abbrev ModelReply := Except JsError (Option JsString)

/-- The value of the key `rawResponse: response`. -/
def rawResponseOf : Option JsString → Json
  | none => Json.null
  | some s => Json.str s

/-- The object returned at lines 133-141, when the response holds no JSON. -/
def formatPlaceholder (response : Option JsString) : Json :=
  Json.obj
    [("overallScore", Json.num 50),
     ("complianceLevel", Json.str (js "Partially Compliant")),
     ("summary", Json.str (js "Analysis completed but response format needs adjustment")),
     ("strengths", Json.arr [Json.str (js "Document was successfully analyzed")]),
     ("weaknesses", Json.arr [Json.str (js "Response format could not be parsed as JSON")]),
     ("recommendations", Json.arr
        [Json.str (js "Please review the document manually for detailed compliance assessment")]),
     ("rawResponse", rawResponseOf response)]

/-- The object returned at lines 144-153, in the `catch` block. -/
def errorPlaceholder (error : JsError) (response : Option JsString) : Json :=
  Json.obj
    [("overallScore", Json.num 0),
     ("complianceLevel", Json.str (js "Analysis Error")),
     ("summary", Json.str (js "Failed to parse compliance analysis")),
     ("strengths", Json.arr []),
     ("weaknesses", Json.arr [Json.str (js "Analysis could not be completed")]),
     ("recommendations", Json.arr [Json.str (js "Please try uploading the document again")]),
     ("error", Json.str (js error.message)),
     ("rawResponse", rawResponseOf response)]

/-- The method `parseAnalysisResponse` (lines 115-155).  `jsonParse` is `JSON.parse`. -/
def parseAnalysisResponse (jsonParse : JsString → Except JsError Json)
    (response : Option JsString) : Except JsError Json :=
  tryCatch
    (match response with
     | none => Except.error ⟨"TypeError", "Cannot read properties of null (reading trim)"⟩
     | some text =>
       let content := cleanMarkdown (trim text)
       match matchBraces content with
       | some jsonMatch => jsonParse jsonMatch
       | none => Except.ok (formatPlaceholder response))
    (fun error => Except.ok (errorPlaceholder error response))

/-- The method `analyzeGDPRCompliance` (lines 36-62).  `assess` is the language model,
asked with the prompt built from the two arguments. -/
def analyzeGDPRCompliance (jsonParse : JsString → Except JsError Json)
    (assess : JsString → String → ModelReply) (documentContent : JsString)
    (documentName : String) : Except JsError Json :=
  tryCatch
    (match assess documentContent documentName with
     | Except.error e => Except.error e
     | Except.ok analysis => parseAnalysisResponse jsonParse analysis)
    (fun _ => Except.error ⟨"Error", "Failed to analyze document for GDPR compliance"⟩)

/-- The evaluation of the template literal of lines 162-188: the property reads throw on
`null`, and `weaknesses?.join(', ')` throws when `weaknesses` is neither nullish nor an
array. -/
def suggestionPrompt (analysisResult : Json) : Except JsError Unit :=
  match analysisResult with
  | Json.null => Except.error ⟨"TypeError", "Cannot read properties of null (reading summary)"⟩
  | _ =>
    match analysisResult.field "weaknesses" with
    | none => Except.ok ()
    | some Json.null => Except.ok ()
    | some (Json.arr _) => Except.ok ()
    | some _ => Except.error ⟨"TypeError", "analysisResult.weaknesses?.join is not a function"⟩

/-- The object returned at lines 219-230, in the `catch` block. -/
def fallbackImprovements : Json :=
  Json.obj
    [("prioritizedImprovements", Json.arr
      [Json.obj
        [("priority", Json.str (js "High")),
         ("area", Json.str (js "General Compliance")),
         ("description",
            Json.str (js "Review and update privacy policy based on analysis results")),
         ("implementation",
            Json.str (js "Consult with legal team and update documentation")),
         ("templateText",
            Json.str (js "Contact legal counsel for specific language recommendations")),
         ("timeline", Json.str (js "30-60 days"))]])]

/-- The method `generateImprovementSuggestions` (lines 160-232).  `suggest` is the language
model, asked with the prompt built from the analysis result. -/
def generateImprovementSuggestions (jsonParse : JsString → Except JsError Json)
    (suggest : Json → ModelReply) (analysisResult : Json) : Except JsError Json :=
  tryCatch
    (match suggestionPrompt analysisResult with
     | Except.error e => Except.error e
     | Except.ok _ =>
       match suggest analysisResult with
       | Except.error e => Except.error e
       | Except.ok none =>
         Except.error ⟨"TypeError", "Cannot read properties of null (reading trim)"⟩
       | Except.ok (some text) => jsonParse (cleanMarkdown (trim text)))
    (fun _ => Except.ok fallbackImprovements)

/-- The method `getAvailableModels` (lines 20-28); `list` is the outcome of
`this.client.models.list()`. -/
def listAvailableModels (list : Except JsError (List String)) : Except JsError (List String) :=
  tryCatch list (fun _ => Except.error ⟨"Error", "Failed to fetch available models"⟩)

/-! ## The services, as the controller sees them -/

/-- The methods of `ioService` that the controller calls.  A call of an `async` method
either yields a value or rejects; the outcome may depend on the arguments. -/
structure IoService where
  analyzeGDPRCompliance : JsString → String → Except JsError Json
  generateImprovementSuggestions : Json → Except JsError Json
  getAvailableModels : Except JsError (List String)
  defaultModel : String

/-- The object returned by `validateDocumentContent`. -/
structure Validation where
  valid : Bool
  error : Option String
  wordCount : Option Nat
  characterCount : Option Nat
deriving Repr

/-- The methods of `documentService` that the controller calls; the last argument of
`getDocumentMetadata` is the clock value it reads. -/
structure DocumentService where
  extractTextFromDocument : List Nat → String → String → Except JsError JsString
  validateDocumentContent : JsString → Validation
  preprocessContent : JsString → JsString
  getDocumentMetadata : String → String → Nat → JsString → String → Metadata

/-- The object `ioService` of the controller (line 11): the class of
`ioIntelligenceService.js` over a given `JSON.parse` and language model. -/
def ioService (jsonParse : JsString → Except JsError Json)
    (assess : JsString → String → ModelReply) (suggest : Json → ModelReply)
    (list : Except JsError (List String)) : IoService where
  analyzeGDPRCompliance := analyzeGDPRCompliance jsonParse assess
  generateImprovementSuggestions := generateImprovementSuggestions jsonParse suggest
  getAvailableModels := listAvailableModels list
  defaultModel := "meta-llama/Llama-3.3-70B-Instruct"

/-! ## Observable events of a handler run -/

/-- What a handler does besides computing, in the order it does it. -/
inductive Event where
  | respond (r : Response) : Event
  | assessCalled (content : JsString) (documentName : String) : Event
  | suggestCalled (analysis : Json) : Event
  | reportsSet (id : String) (status : String) : Event
  | documentsSet (id : String) : Event
  | rejected (e : JsError) : Event
deriving Repr

/-- The event is a call of the language-model service. -/
def Event.isCapabilityCall : Event → Bool
  | Event.assessCalled _ _ => true
  | Event.suggestCalled _ => true
  | _ => false

/-- The event is a write of the report store under the given key. -/
def Event.isReportsSet (id : String) : Event → Bool
  | Event.reportsSet id' _ => id' = id
  | _ => false

/-- The result of running a handler (or a part of one): the store it leaves and the
events it produced. -/
structure Outcome where
  store : Store
  trace : List Event

/-- The first response in a trace: what the HTTP client receives. -/
def responseOf : List Event → Option Response
  | [] => none
  | Event.respond r :: _ => some r
  | _ :: rest => responseOf rest

/-! ## `uploadDocument` (controller, lines 17-69) -/

/-- The handler `uploadDocument`.  `uuid` is the value of `uuidv4()` at line 26, `now1` the
clock read inside `getDocumentMetadata`, `now2` the clock read at line 52. -/
def uploadDocument (ds : DocumentService) (uuid now1 now2 : String) (st : Store)
    (file : Option UploadedFile) : Outcome :=
  match file with
  | none =>
    ⟨st, [Event.respond (Response.error 400 "No file uploaded"
      (some "Please select a document to upload"))]⟩
  | some f =>
    match ds.extractTextFromDocument f.buffer f.mimetype f.originalname with
    | Except.error e =>
      ⟨st, [Event.respond (Response.error 500 "Document processing failed" (some e.message))]⟩
    | Except.ok content =>
      let validation := ds.validateDocumentContent content
      if validation.valid = false then
        ⟨st, [Event.respond (Response.error 400 "Invalid document content" validation.error)]⟩
      else
        let processedContent := ds.preprocessContent content
        let metadata := ds.getDocumentMetadata f.originalname f.mimetype f.size processedContent now1
        let document : Document :=
          { id := uuid, content := processedContent, metadata := metadata, uploadedAt := now2 }
        ⟨{ st with documents := st.documents.set uuid document },
         [Event.documentsSet uuid,
          Event.respond (Response.uploaded uuid metadata
            "Document uploaded and processed successfully")]⟩

/-! ## `analyzeCompliance` (controller, lines 74-136) -/

/-- What the outside world supplies to one run of `analyzeCompliance`: the value of
`uuidv4()` at line 93 and the clock reads of lines 120, 121 and 133. -/
structure AnalyzeEnv where
  uuid : String
  createdAt : String
  completedAt : String
  failedAt : String

/-- The continuation suspended at the first `await` (line 104) with the bindings it
closes over. -/
structure Pending where
  documentId : String
  document : Document
  reportId : String

/-- The identifiers declared in the function body outside the `try` block (line 75, line 84
and the parameters). -/
def functionScope : List String := ["req", "res", "documentId", "document"]

/-- The identifiers declared by `const` inside the `try` block (lines 93, 104, 110): they
are block-scoped, visible in lines 93-122 only. -/
def tryBlockScope : List String := ["reportId", "analysisResult", "improvements"]

/-- The module-level identifiers of the controller (lines 1-12 and the handlers). -/
def moduleScope : List String :=
  ["uuidv4", "IOIntelligenceService", "DocumentService", "asyncHandler", "reports", "documents",
   "ioService", "documentService", "uploadDocument", "analyzeCompliance", "getReport",
   "getAvailableModels", "getSystemStats"]

/-- The identifiers visible in the `catch` block (lines 124-135): its parameter, the
enclosing function's bindings and the module's. -/
def catchBlockScope : List String := "error" :: (functionScope ++ moduleScope)

/-- Evaluation of an identifier reference: an identifier with no visible binding throws
a `ReferenceError`. -/
def resolveIdentifier (scope : List String) (name : String) (value : String) :
    Except JsError String :=
  if name ∈ scope then Except.ok value
  else Except.error ⟨"ReferenceError", name ++ " is not defined"⟩

/-- The synchronous part of `analyzeCompliance`, lines 75-101: the response it sends and,
when the analysis was started, the continuation left pending. -/
def analyzeStart (st : Store) (documentId : ReqValue) (uuid : String) :
    Response × Option Pending :=
  if documentId.truthy = false then
    (Response.error 400 "Missing document ID" (some "Please provide a document ID for analysis"),
     none)
  else
    match documentId, st.documents.getValue documentId with
    | ReqValue.str s, some document =>
      (Response.analysisStarted uuid "processing"
        "Analysis started. Use the report ID to check progress.",
       some ⟨s, document, uuid⟩)
    | _, _ =>
      (Response.error 404 "Document not found" (some "The specified document could not be found"),
       none)

/-- The object literal of lines 113-122, the completed report. -/
def completedReport (env : AnalyzeEnv) (p : Pending) (analysisResult improvements : Json) :
    Report :=
  { id := p.reportId, documentId := p.documentId,
    documentName := some p.document.metadata.filename,
    analysis := some analysisResult, improvements := some improvements,
    status := "completed", error := none,
    createdAt := env.createdAt, completedAt := some env.completedAt }

/-- The object literal of lines 128-134, the error report. -/
def failedReport (env : AnalyzeEnv) (p : Pending) (reportId : String) (error : JsError) :
    Report :=
  { id := reportId, documentId := p.documentId, documentName := none, analysis := none,
    improvements := none, status := "failed", error := some error.message,
    createdAt := env.failedAt, completedAt := none }

/-- The `catch` block of `analyzeCompliance`, lines 124-135, entered with the thrown
`error` after the events `done`.  The argument `reportId` of `reports.set` is evaluated in
the scope of the `catch` block. -/
def analyzeCatch (env : AnalyzeEnv) (st : Store) (p : Pending) (error : JsError)
    (done : List Event) : Outcome :=
  match resolveIdentifier catchBlockScope "reportId" p.reportId with
  | Except.error referenceError => ⟨st, done ++ [Event.rejected referenceError]⟩
  | Except.ok reportId =>
    ⟨{ st with reports := st.reports.set reportId (failedReport env p reportId error) },
     done ++ [Event.reportsSet reportId "failed"]⟩

/-- The part of `analyzeCompliance` that runs after the response was sent, lines 104-135,
on the store as it is when the continuation writes. -/
def analyzeBackground (io : IoService) (env : AnalyzeEnv) (st : Store) (p : Pending) : Outcome :=
  let called := Event.assessCalled p.document.content p.document.metadata.filename
  match io.analyzeGDPRCompliance p.document.content p.document.metadata.filename with
  | Except.error e => analyzeCatch env st p e [called]
  | Except.ok analysisResult =>
    match io.generateImprovementSuggestions analysisResult with
    | Except.error e => analyzeCatch env st p e [called, Event.suggestCalled analysisResult]
    | Except.ok improvements =>
      ⟨{ st with reports :=
            st.reports.set p.reportId (completedReport env p analysisResult improvements) },
       [called, Event.suggestCalled analysisResult, Event.reportsSet p.reportId "completed"]⟩

/-- One whole run of the handler `analyzeCompliance`, with no other handler in between. -/
def analyzeCompliance (io : IoService) (env : AnalyzeEnv) (st : Store) (documentId : ReqValue) :
    Outcome :=
  match analyzeStart st documentId env.uuid with
  | (r, none) => ⟨st, [Event.respond r]⟩
  | (r, some p) =>
    let background := analyzeBackground io env st p
    ⟨background.store, Event.respond r :: background.trace⟩

/-! ## `getReport`, `getAvailableModels`, `getSystemStats` (controller, lines 141-200) -/

/-- The handler `getReport`. -/
def getReport (st : Store) (id : ReqValue) : Outcome :=
  if id.truthy = false then
    ⟨st, [Event.respond (Response.error 400 "Missing report ID" (some "Please provide a report ID"))]⟩
  else
    match st.reports.getValue id with
    | none =>
      ⟨st, [Event.respond (Response.error 404 "Report not found"
        (some "The specified report could not be found"))]⟩
    | some report => ⟨st, [Event.respond (Response.report report)]⟩

/-- The handler `getAvailableModels`. -/
def getAvailableModels (io : IoService) (st : Store) : Outcome :=
  match io.getAvailableModels with
  | Except.ok models => ⟨st, [Event.respond (Response.models models io.defaultModel)]⟩
  | Except.error e =>
    ⟨st, [Event.respond (Response.error 500 "Failed to fetch models" (some e.message))]⟩

/-- The handler `getSystemStats`. -/
def getSystemStats (info : ProcessInfo) (st : Store) : Outcome :=
  ⟨st, [Event.respond (Response.stats st.documents.size st.reports.size info)]⟩

/-! ## Controller operations as one step function -/

/-- An operation of the controller.  `analyzeCompliance` appears as its two parts, since
other handlers may run between them. -/
inductive Op where
  | uploadDocument (ds : DocumentService) (uuid now1 now2 : String) (file : Option UploadedFile)
  | analyzeStart (documentId : ReqValue) (uuid : String)
  | analyzeBackground (io : IoService) (env : AnalyzeEnv) (p : Pending)
  | getReport (id : ReqValue)
  | getAvailableModels (io : IoService)
  | getSystemStats (info : ProcessInfo)

/-- The store after an operation. -/
def step (st : Store) : Op → Store
  | Op.uploadDocument ds uuid now1 now2 file => (uploadDocument ds uuid now1 now2 st file).store
  | Op.analyzeStart _ _ => st
  | Op.analyzeBackground io env p => (analyzeBackground io env st p).store
  | Op.getReport id => (getReport st id).store
  | Op.getAvailableModels io => (getAvailableModels io st).store
  | Op.getSystemStats info => (getSystemStats info st).store

/-- The report identifier an operation was allocated, if it has one. -/
def Op.reportId : Op → Option String
  | Op.analyzeStart _ uuid => some uuid
  | Op.analyzeBackground _ _ p => some p.reportId
  | _ => none

/-- The store after a sequence of operations, starting from the freshly loaded module. -/
def runOps (ops : List Op) : Store := ops.foldl step Store.initial

/-! ## The report invariant -/

/-- The invariant of a report record: the status is one of the three, the result keys
come with `completed` only and the error key with `failed` only. -/
def ReportInvariant (r : Report) : Prop :=
  (r.status = "processing" ∨ r.status = "completed" ∨ r.status = "failed") ∧
  (r.analysis.isSome = true ↔ r.status = "completed") ∧
  (r.improvements.isSome = true ↔ r.status = "completed") ∧
  (r.completedAt.isSome = true ↔ r.status = "completed") ∧
  (r.error.isSome = true ↔ r.status = "failed")

/-- Every record of the report store satisfies the report invariant. -/
def StoreInvariant (st : Store) : Prop :=
  ∀ id r, st.reports.get id = some r → ReportInvariant r

/-! ## Concrete data used in the examples -/

/-- A stored document: a plain-text policy. -/
def sampleDocument : Document :=
  { id := "d1", content := js "We process personal data lawfully.",
    metadata :=
      { filename := "policy.txt", mimeType := "text/plain", sizeBytes := 34, sizeKB := 0,
        wordCount := 5, characterCount := 34, uploadedAt := "2024-01-01T00:00:00.000Z",
        type := "Text Document" },
    uploadedAt := "2024-01-01T00:00:00.000Z" }

/-- A store that holds the sample document and no report. -/
def sampleStore : Store := ⟨JsMap.empty, JsMap.empty.set "d1" sampleDocument⟩

/-- The environment of a sample run: the report identifier is `r1`. -/
def sampleEnv : AnalyzeEnv :=
  { uuid := "r1", createdAt := "2024-01-01T00:01:00.000Z",
    completedAt := "2024-01-01T00:01:00.001Z", failedAt := "2024-01-01T00:01:00.002Z" }

/-- A fixed analysis result, as a mock of the assessment would return it. -/
def sampleAnalysis : Json :=
  Json.obj [("overallScore", Json.num 80), ("complianceLevel", Json.str (js "Mostly Compliant"))]

/-- A fixed list of suggestions, as a mock would return it. -/
def sampleImprovements : Json := Json.obj [("prioritizedImprovements", Json.arr [])]

/-- A mock service whose two calls succeed with the fixed results. -/
def mockIo : IoService :=
  { analyzeGDPRCompliance := fun _ _ => Except.ok sampleAnalysis,
    generateImprovementSuggestions := fun _ => Except.ok sampleImprovements,
    getAvailableModels := Except.ok [],
    defaultModel := "meta-llama/Llama-3.3-70B-Instruct" }

/-- A mock service whose assessment call throws. -/
def throwingIo : IoService :=
  { analyzeGDPRCompliance := fun _ _ =>
      Except.error ⟨"Error", "Failed to analyze document for GDPR compliance"⟩,
    generateImprovementSuggestions := fun _ => Except.ok sampleImprovements,
    getAvailableModels := Except.ok [],
    defaultModel := "meta-llama/Llama-3.3-70B-Instruct" }

/-- The completed report of the sample run. -/
def sampleReport : Report :=
  { id := "r1", documentId := "d1", documentName := some "policy.txt",
    analysis := some sampleAnalysis, improvements := some sampleImprovements,
    status := "completed", error := none, createdAt := "2024-01-01T00:01:00.000Z",
    completedAt := some "2024-01-01T00:01:00.001Z" }

/-- The pending continuation of the sample run. -/
def samplePending : Pending := ⟨"d1", sampleDocument, "r1"⟩

/-- The text holds neither an opening nor a closing brace. -/
def NoBrace (l : JsString) : Prop := ∀ c ∈ l, c ≠ 123 ∧ c ≠ 125

/-- A `JSON.parse` for the examples, in which no text handed to it is JSON: it throws a
`SyntaxError`. -/
def rejectingParse : JsString → Except JsError Json :=
  fun _ => Except.error ⟨"SyntaxError", "Unexpected token"⟩

/-- A language model that answers the assessment prompt with prose. -/
def proseAssess : JsString → String → ModelReply :=
  fun _ _ => Except.ok (some (js "The policy looks fine."))

/-- A language model whose suggestion call throws. -/
def throwingSuggest : Json → ModelReply :=
  fun _ => Except.error ⟨"Error", "Connection error."⟩

/-- A language model that answers the suggestion prompt with prose. -/
def proseSuggest : Json → ModelReply :=
  fun _ => Except.ok (some (js "Sorry, I cannot help."))

/-! ## `DocumentService` (documentService.js) -/

/-- The code units that `\d` matches. -/
def isDigit (c : Nat) : Bool := 48 ≤ c && c ≤ 57

/-- The LineTerminator code points, at which `^` and `$` of a regular expression with the
flag `m` match. -/
def isLineTerminator (c : Nat) : Bool := c = 10 || c = 13 || c = 8232 || c = 8233

/-- The external parsers: `pdfParse(buffer)` followed by the read of `.text`,
`mammoth.extractRawText({ buffer })` followed by the read of `.value`, and the decoder
`buffer.toString('utf-8')` of Node. -/
structure Parsers where
  pdfParse : List Nat → Except JsError JsString
  extractRawText : List Nat → Except JsError JsString
  utf8 : List Nat → JsString

/-- The method `extractFromPDF` (lines 42-49). -/
def extractFromPDF (ps : Parsers) (buffer : List Nat) : Except JsError JsString :=
  tryCatch (ps.pdfParse buffer) (fun _ => Except.error ⟨"Error", "Failed to parse PDF document"⟩)

/-- The method `extractFromDocx` (lines 54-61). -/
def extractFromDocx (ps : Parsers) (buffer : List Nat) : Except JsError JsString :=
  tryCatch (ps.extractRawText buffer)
    (fun _ => Except.error ⟨"Error", "Failed to parse DOCX document"⟩)

/-- The method `extractFromDoc` (lines 66-73). -/
def extractFromDoc (ps : Parsers) (buffer : List Nat) : Except JsError JsString :=
  tryCatch (ps.extractRawText buffer)
    (fun _ => Except.error ⟨"Error", "Failed to parse DOC document"⟩)

/-- The method `extractTextFromDocument` (lines 15-37): the `switch` on the declared media
type inside the outer `try`, and the outer `catch` that wraps the message. -/
def extractTextFromDocument (ps : Parsers) (fileBuffer : List Nat) (mimeType : String)
    (_originalName : String) : Except JsError JsString :=
  tryCatch
    (if mimeType = "application/pdf" then extractFromPDF ps fileBuffer
     else if mimeType = "application/vnd.openxmlformats-officedocument.wordprocessingml.document"
       then extractFromDocx ps fileBuffer
     else if mimeType = "application/msword" then extractFromDoc ps fileBuffer
     else if mimeType = "text/plain" then Except.ok (ps.utf8 fileBuffer)
     else Except.error ⟨"Error", "Unsupported file type: " ++ mimeType⟩)
    (fun error =>
      Except.error ⟨"Error", "Failed to extract text from document: " ++ error.message⟩)

/-- The constant `minLength` (line 81). -/
def minLength : Nat := 100

/-- The constant `maxLength` (line 82). -/
def maxLength : Nat := 50000

/-- The pieces of `s.split(/\s+/)`, read from the left: `current` holds the code units of
the piece being read, last one first, and `inRun` tells that the previous code unit was
white space (the separator is being skipped). -/
def splitFrom : JsString → Bool → JsString → List JsString
  | current, _, [] => [current.reverse]
  | current, inRun, c :: rest =>
    if isWhiteSpace c then
      if inRun then splitFrom current true rest
      else current.reverse :: splitFrom [] true rest
    else splitFrom (c :: current) false rest

/-- The value `s.split(/\s+/)`: the pieces between the maximal runs of white space, the
empty piece before a leading run and after a trailing run included. -/
def splitWhiteSpace (s : JsString) : List JsString := splitFrom [] false s

/-- The method `validateDocumentContent` (lines 80-110).  The test `!content` holds of the
empty string only. -/
def validateDocumentContent (content : JsString) : Validation :=
  if content = [] ∨ (trim content).length = 0 then
    { valid := false, error := some "Document appears to be empty or unreadable",
      wordCount := none, characterCount := none }
  else if content.length < minLength then
    { valid := false,
      error := some "Document too short for meaningful analysis (minimum 100 characters)",
      wordCount := none, characterCount := none }
  else if content.length > maxLength then
    { valid := false,
      error := some
        "Document too long for analysis (maximum 50000 characters). Please split into smaller sections.",
      wordCount := none, characterCount := none }
  else
    { valid := true, error := none, wordCount := some (splitWhiteSpace content).length,
      characterCount := some content.length }

/-- The call `s.replace(/\s+/g, ' ')` (line 119), read from the left: every maximal run of
white space becomes one space; `inRun` tells that the previous code unit was white
space. -/
def collapseFrom : Bool → JsString → JsString
  | _, [] => []
  | inRun, c :: rest =>
    if isWhiteSpace c then
      if inRun then collapseFrom true rest else 32 :: collapseFrom true rest
    else c :: collapseFrom false rest

/-- The call `s.replace(/\s+/g, ' ')`. -/
def collapseWhiteSpace (s : JsString) : JsString := collapseFrom false s

/-- The call `s.replace(/\f/g, ' ')` (line 122). -/
def replaceFormFeeds (s : JsString) : JsString := s.map (fun c => if c = 12 then 32 else c)

/-- The call `s.replace(/\r\n/g, '\n')` (line 123). -/
def replaceCrLf : JsString → JsString
  | [] => []
  | [c] => [c]
  | c :: d :: rest =>
    if c = 13 ∧ d = 10 then 10 :: replaceCrLf rest else c :: replaceCrLf (d :: rest)

/-- The call `s.replace(/\r/g, '\n')` (line 124). -/
def replaceCr (s : JsString) : JsString := s.map (fun c => if c = 13 then 10 else c)

/-- The code unit is the letter `upper` or its lower-case form: how a letter of a regular
expression with the flag `i` matches. -/
def isLetter (upper c : Nat) : Bool := c = upper || c = upper + 32

/-- The length of the match of `/Page \d+ of \d+/i` that starts at the head of `s`, if
there is one.  Each `\d+` is greedy, and giving back a digit never helps, since a digit is
neither a space nor the end of the pattern. -/
def pageMarkerLength (s : JsString) : Option Nat :=
  match s with
  | p :: a :: g :: e :: sp :: rest =>
    if isLetter 80 p && isLetter 65 a && isLetter 71 g && isLetter 69 e && sp = 32 then
      let first := rest.takeWhile isDigit
      match rest.dropWhile isDigit with
      | sp₁ :: o :: f :: sp₂ :: tail =>
        let second := tail.takeWhile isDigit
        if first ≠ [] && sp₁ = 32 && isLetter 79 o && isLetter 70 f && sp₂ = 32 &&
            second ≠ [] then
          some (5 + first.length + 4 + second.length)
        else none
      | _ => none
    else none
  | _ => none

/-- The call `s.replace(/Page \d+ of \d+/gi, '')` (line 127), read from the left: `skip` is
the number of code units of the current match that are still to be dropped. -/
def removePageMarkersFrom : Nat → JsString → JsString
  | _, [] => []
  | skip + 1, _ :: rest => removePageMarkersFrom skip rest
  | 0, c :: rest =>
    match pageMarkerLength (c :: rest) with
    | some n => removePageMarkersFrom (n - 1) rest
    | none => c :: removePageMarkersFrom 0 rest

/-- The call `s.replace(/Page \d+ of \d+/gi, '')`. -/
def removePageMarkers (s : JsString) : JsString := removePageMarkersFrom 0 s

/-- The length of the match of `\d+\s*$` (flag `m`) that starts at the head of `s`, if there
is one: the digits, then the longest stretch of the white space after them that ends at the
end of the text or right before a line terminator. -/
def numberLineLength (s : JsString) : Option Nat :=
  let digits := s.takeWhile isDigit
  let afterDigits := s.dropWhile isDigit
  let space := afterDigits.takeWhile isWhiteSpace
  if digits = [] then none
  else if afterDigits.dropWhile isWhiteSpace = [] then some (digits.length + space.length)
  else
    match space.rdropWhile (fun c => !isLineTerminator c) with
    | [] => none
    | _ :: upTo => some (digits.length + upTo.length)

/-- The call `s.replace(/^\d+\s*$/gm, '')` (line 128), read from the left: `atLineStart`
tells that `^` matches here (the start of the text, or right after a line terminator of
the text), `skip` is the number of code units of the current match still to be dropped. -/
def removeNumberLinesFrom : Bool → Nat → JsString → JsString
  | _, _, [] => []
  | _, skip + 1, c :: rest => removeNumberLinesFrom (isLineTerminator c) skip rest
  | atLineStart, 0, c :: rest =>
    match (if atLineStart then numberLineLength (c :: rest) else none) with
    | some n => removeNumberLinesFrom (isLineTerminator c) (n - 1) rest
    | none => c :: removeNumberLinesFrom (isLineTerminator c) 0 rest

/-- The call `s.replace(/^\d+\s*$/gm, '')`. -/
def removeNumberLines (s : JsString) : JsString := removeNumberLinesFrom true 0 s

/-- The method `preprocessContent` (lines 117-131). -/
def preprocessContent (content : JsString) : JsString :=
  let processed := collapseWhiteSpace content
  let processed := replaceFormFeeds processed
  let processed := replaceCrLf processed
  let processed := replaceCr processed
  let processed := removePageMarkers processed
  let processed := removeNumberLines processed
  trim processed

/-- The method `getDocumentType` (lines 157-166), on the media types the controller can
pass it. -/
def getDocumentType (mimeType : String) : String :=
  if mimeType = "application/pdf" then "PDF"
  else if mimeType = "application/vnd.openxmlformats-officedocument.wordprocessingml.document"
    then "Word Document (DOCX)"
  else if mimeType = "application/msword" then "Word Document (DOC)"
  else if mimeType = "text/plain" then "Text Document"
  else "Unknown"

/-- The method `getDocumentMetadata` (lines 141-152); `now` is the clock value it reads, and
`Math.round(size / 1024)` rounds a half upwards. -/
def getDocumentMetadata (originalName mimeType : String) (size : Nat) (content : JsString)
    (now : String) : Metadata :=
  { filename := originalName, mimeType := mimeType, sizeBytes := size,
    sizeKB := (size + 512) / 1024, wordCount := (splitWhiteSpace content).length,
    characterCount := content.length, uploadedAt := now, type := getDocumentType mimeType }

/-- The object `documentService` of the controller (line 12): the class of
`documentService.js` over the given parsers. -/
def documentService (ps : Parsers) : DocumentService where
  extractTextFromDocument := extractTextFromDocument ps
  validateDocumentContent := validateDocumentContent
  preprocessContent := preprocessContent
  getDocumentMetadata := getDocumentMetadata

/-- The number of white-space-delimited tokens of a text, its maximal runs of code units
that are not white space; `inToken` tells that the previous code unit belonged to a
token. -/
def countTokensFrom : Bool → JsString → Nat
  | _, [] => 0
  | inToken, c :: rest =>
    if isWhiteSpace c then countTokensFrom false rest
    else (if inToken then 0 else 1) + countTokensFrom true rest

/-- The number of white-space-delimited tokens of a text. -/
def countTokens (s : JsString) : Nat := countTokensFrom false s

/-- No page marker occurs in the text: `/Page \d+ of \d+/i` matches at no position. -/
def NoPageMarker (s : JsString) : Prop :=
  ∀ before rest : JsString, s = before ++ rest → pageMarkerLength rest = none

/-- The steps of `preprocessContent` between the collapse of white space and the final
`trim` (lines 122-128). -/
def removeArtifacts (s : JsString) : JsString :=
  removeNumberLines (removePageMarkers (replaceCr (replaceCrLf (replaceFormFeeds s))))

/-- The white space of the text is made of single spaces: what `collapseWhiteSpace`
produces.  `afterSpace` tells that the previous code unit was a space. -/
def singleSpacedFrom : Bool → JsString → Bool
  | _, [] => true
  | afterSpace, c :: rest =>
    if isWhiteSpace c then c = 32 && !afterSpace && singleSpacedFrom true rest
    else singleSpacedFrom false rest

/-! ## The upload route (index.js, errorHandler.js) -/

/-- The array `allowedTypes` of the file filter (index.js, lines 30-35). -/
def allowedTypes : List String :=
  ["application/pdf",
   "application/vnd.openxmlformats-officedocument.wordprocessingml.document",
   "application/msword",
   "text/plain"]

/-- The option `fileFilter` of multer (index.js, lines 29-42): `cb(null, true)` is `ok`,
`cb(new Error(...), false)` is the error. -/
def fileFilter (file : UploadedFile) : Except JsError Unit :=
  if file.mimetype ∈ allowedTypes then Except.ok ()
  else Except.error
    ⟨"Error", "Invalid file type. Only PDF, DOC, DOCX, and TXT files are allowed."⟩

/-- The option `limits.fileSize` of multer (index.js, line 27). -/
def fileSizeLimit : Nat := 10 * 1024 * 1024

/-- What the error-handling middleware reads of the error it is given: `err.code`,
`err.message` (empty when absent) and `err.status`. -/
structure ExpressError where
  code : Option String
  message : String
  status : Option Nat
deriving Repr

/-- The method `s.includes(t)`, on the characters of the two strings. -/
def includesChars : List Char → List Char → Bool
  | [], t => t = []
  | c :: rest, t => (c :: rest).take t.length = t || includesChars rest t

/-- The method `s.includes(t)`. -/
def includes (s t : String) : Bool := includesChars s.toList t.toList

/-- The middleware `errorHandler` (errorHandler.js, lines 5-37); the key `stack`, added in
development only, is left out. -/
def errorHandler (err : ExpressError) : Response :=
  if err.code = some "LIMIT_FILE_SIZE" then
    Response.error 400 "File too large" (some "File size must be less than 10MB")
  else if err.message ≠ "" ∧ includes err.message "Invalid file type" = true then
    Response.error 400 "Invalid file type"
      (some "Only PDF, DOC, DOCX, and TXT files are allowed")
  else
    match err.status with
    | some (status + 1) =>
      Response.error (status + 1) (if err.message ≠ "" then err.message else "API Error") none
    | _ =>
      Response.error 500 "Internal Server Error" (some "Something went wrong on the server")

/-- The route `POST /api/upload` (index.js, line 55): multer's `upload.single('document')`
with the file filter and the size limit, then `uploadDocument`; an error of multer goes to
`errorHandler` (line 61) and the handler is not run.  `file` is the file part of the
request, if it has one. -/
def uploadRoute (ds : DocumentService) (uuid now1 now2 : String) (st : Store)
    (file : Option UploadedFile) : Outcome :=
  match file with
  | none => uploadDocument ds uuid now1 now2 st none
  | some f =>
    match fileFilter f with
    | Except.error e => ⟨st, [Event.respond (errorHandler ⟨none, e.message, none⟩)]⟩
    | Except.ok _ =>
      if f.size > fileSizeLimit then
        ⟨st, [Event.respond (errorHandler ⟨some "LIMIT_FILE_SIZE", "File too large", none⟩)]⟩
      else uploadDocument ds uuid now1 now2 st (some f)

/-- The response is the success body of `uploadDocument`. -/
def Response.isUploaded : Response → Bool
  | Response.uploaded _ _ _ => true
  | _ => false

/-- The event is a write of the document store. -/
def Event.isDocumentsSet : Event → Bool
  | Event.documentsSet _ => true
  | _ => false

/-! ## The client poller (client/utils/api.js) -/

/-- The outcome of one `await getReport(reportId)` of the poller: the request throws (a
network error, a status outside 2xx), or it yields the body, of which the poller reads
`success` and `report`. -/
inductive ReadOutcome where
  | threw (e : JsError) : ReadOutcome
  | body (success : Bool) (report : Option Report) : ReadOutcome
deriving Repr

/-- How the promise of `pollForAnalysis` settles. -/
inductive PollOutcome where
  | resolved (report : Report) : PollOutcome
  | rejected (e : JsError) : PollOutcome
deriving Repr

/-- A finished run of the poller: the number of reads it made and how it settled. -/
structure PollRun where
  reads : Nat
  outcome : PollOutcome
deriving Repr

/-- The value `report.error || 'Analysis failed'` (api.js, line 130). -/
def failureMessage (report : Report) : String :=
  match report.error with
  | some message => if message ≠ "" then message else "Analysis failed"
  | none => "Analysis failed"

/-- One run of `poll` up to the increment of `attempts` (api.js, lines 120-135 and
141-142): either the promise settles, or the run goes on to the test of the counter with
the error it would reject with. -/
def pollStep : ReadOutcome → PollOutcome ⊕ JsError
  | ReadOutcome.threw e => Sum.inr e
  | ReadOutcome.body true (some report) =>
    if report.status = "completed" then Sum.inl (PollOutcome.resolved report)
    else if report.status = "failed" then
      Sum.inl (PollOutcome.rejected ⟨"Error", failureMessage report⟩)
    else Sum.inr ⟨"Error", "Analysis timed out"⟩
  | ReadOutcome.body true none =>
    Sum.inr ⟨"TypeError", "Cannot read properties of undefined (reading status)"⟩
  | ReadOutcome.body false _ => Sum.inr ⟨"Error", "Analysis timed out"⟩

/-- The function `poll` (api.js, lines 119-149) and the runs it schedules with
`setTimeout`.  `attempts` is the counter of the source; every earlier run made one read and
incremented the counter once, so this run makes read number `attempts` of the sequence
`reads`.  The first argument bounds the number of runs.  Here `maxAttempts` is an integer
and the counter is exact, as both are for the default 30 and for every integer cap up to
`2 ^ 53`; `pollNumber` is the same function for an arbitrary value of the type number. -/
def poll (maxAttempts : Int) (reads : Nat → ReadOutcome) : Nat → Nat → Option PollRun
  | 0, _ => none
  | fuel + 1, attempts =>
    match pollStep (reads attempts) with
    | Sum.inl outcome => some ⟨attempts + 1, outcome⟩
    | Sum.inr giveUp =>
      if ((attempts + 1 : Nat) : Int) < maxAttempts then
        poll maxAttempts reads fuel (attempts + 1)
      else some ⟨attempts + 1, PollOutcome.rejected giveUp⟩

/-- The default value of the parameter `maxAttempts` (api.js, line 115). -/
def defaultMaxAttempts : Int := 30

/-- The function `pollForAnalysis` (api.js, lines 115-153) for a given sequence of read
outcomes and an integer `maxAttempts`; `none` would be a run that never settles.  For any
other number passed as `maxAttempts` see `pollForAnalysisWithin`. -/
def pollForAnalysis (reads : Nat → ReadOutcome) (maxAttempts : Int) : Option PollRun :=
  poll maxAttempts reads (maxAttempts.toNat + 1) 0

/-- The read is terminal for the poller: a body with `success` and a report whose status
is `completed` or `failed`. -/
def ReadOutcome.isTerminal : ReadOutcome → Bool
  | ReadOutcome.body true (some report) =>
    report.status = "completed" || report.status = "failed"
  | _ => false

/-! ## More concrete data for the examples -/

/-- Parsers for the examples: the buffers are no PDF and no Word files, and the bytes of a
plain text are ASCII, which `utf-8` decodes to themselves. -/
def sampleParsers : Parsers :=
  { pdfParse := fun _ => Except.error ⟨"Error", "Invalid PDF structure"⟩,
    extractRawText := fun _ => Except.error ⟨"Error", "Could not find file in options"⟩,
    utf8 := fun bytes => bytes }

/-- A plain-text file of 100 bytes: the letter `a` followed by 99 spaces. -/
def paddedFile : UploadedFile :=
  { originalname := "policy.txt", mimetype := "text/plain", size := 100,
    buffer := 97 :: List.replicate 99 32 }

/-- A file whose declared media type is `image/png`. -/
def pngFile : UploadedFile :=
  { originalname := "scan.png", mimetype := "image/png", size := 4, buffer := [137, 80, 78, 71] }

/-- A plain text of 103 characters, 17 words, that ends with a line feed. -/
def policyText : JsString :=
  js ("We process personal data lawfully, fairly and transparently, " ++
      "and we keep it only as long as necessary.") ++ [10]

/-- A report with status `processing`, as the poller may read it. -/
def processingReport : Report :=
  { id := "r1", documentId := "d1", documentName := none, analysis := none,
    improvements := none, status := "processing", error := none,
    createdAt := "2024-01-01T00:01:00.000Z", completedAt := none }

/-- A report with status `failed` whose error message is `Analysis timed out`. -/
def timedOutReport : Report :=
  { id := "r1", documentId := "d1", documentName := none, analysis := none,
    improvements := none, status := "failed", error := some "Analysis timed out",
    createdAt := "2024-01-01T00:01:00.000Z", completedAt := none }

/-- The last code unit of the text is white space; `otherwise` is the answer for the empty
text. -/
def endsInWhiteSpace (otherwise : Bool) : JsString → Bool
  | [] => otherwise
  | c :: rest => endsInWhiteSpace (isWhiteSpace c) rest

/-- The first code unit of the text is white space. -/
def startsInWhiteSpace : JsString → Bool
  | [] => false
  | c :: _ => isWhiteSpace c

/-! ## The poll loop of the report view (client/components/ComplianceReport.js) -/

/-- What `pollForResults` leaves in the state of the component when it stops:
`setReport(reportData)` or `setError(message)`. -/
inductive UiOutcome where
  | shown (report : Report) : UiOutcome
  | error (message : String) : UiOutcome
deriving Repr

/-- A finished run of `pollForResults`: the number of reads it made and how it ended. -/
structure UiRun where
  reads : Nat
  outcome : UiOutcome
deriving Repr

/-- The constant `maxAttempts` of `pollForResults` (ComplianceReport.js, line 88). -/
def resultsMaxAttempts : Nat := 30

/-- One run of `poll` of `pollForResults` up to the increment of `attempts`
(ComplianceReport.js, lines 92-110 and 117-119): either the loop ends, or the run goes on
to the test of the counter with the message it would set.  The callback
`onAnalysisComplete` only sets state (pages/index.js, lines 53-57) and does not throw. -/
def resultsStep : ReadOutcome → UiOutcome ⊕ String
  | ReadOutcome.threw _ => Sum.inr "Failed to get analysis results"
  | ReadOutcome.body true (some report) =>
    if report.status = "completed" then Sum.inl (UiOutcome.shown report)
    else if report.status = "failed" then Sum.inl (UiOutcome.error (failureMessage report))
    else Sum.inr "Analysis timed out. Please try again."
  | ReadOutcome.body true none => Sum.inr "Failed to get analysis results"
  | ReadOutcome.body false _ => Sum.inr "Analysis timed out. Please try again."

/-- The function `poll` of `pollForResults` (ComplianceReport.js, lines 91-127) and the
runs it schedules with `setTimeout`; this run makes read number `attempts` of the sequence.
The first argument bounds the number of runs. -/
def pollResults (reads : Nat → ReadOutcome) : Nat → Nat → Option UiRun
  | 0, _ => none
  | fuel + 1, attempts =>
    match resultsStep (reads attempts) with
    | Sum.inl outcome => some ⟨attempts + 1, outcome⟩
    | Sum.inr giveUp =>
      if attempts + 1 < resultsMaxAttempts then pollResults reads fuel (attempts + 1)
      else some ⟨attempts + 1, UiOutcome.error giveUp⟩

/-- The function `pollForResults` (ComplianceReport.js, lines 87-130) for a given sequence
of read outcomes; `none` would be a run that never ends. -/
def pollForResults (reads : Nat → ReadOutcome) : Option UiRun :=
  pollResults reads resultsMaxAttempts 0

/-- The kinds of ending of a poll loop: completed with a report, failed with a message,
timed out, or exhausted on a read error. -/
inductive PollKind where
  | completed (report : Report) : PollKind
  | failed (message : String) : PollKind
  | timedOut : PollKind
  | readError (e : JsError) : PollKind
deriving Repr

/-- The kind of ending of a loop that stops on the given read: a completed or failed
report ends it as such; a read that threw, or a body without the report it announces,
is a read error; any other body lets the time run out. -/
def kindOf : ReadOutcome → PollKind
  | ReadOutcome.threw e => PollKind.readError e
  | ReadOutcome.body true (some report) =>
    if report.status = "completed" then PollKind.completed report
    else if report.status = "failed" then PollKind.failed (failureMessage report)
    else PollKind.timedOut
  | ReadOutcome.body true none =>
    PollKind.readError ⟨"TypeError", "Cannot read properties of undefined (reading status)"⟩
  | ReadOutcome.body false _ => PollKind.timedOut

/-- How `pollForAnalysis` settles its promise for each kind of ending. -/
def analysisOutcomeOf : PollKind → PollOutcome
  | PollKind.completed report => PollOutcome.resolved report
  | PollKind.failed message => PollOutcome.rejected ⟨"Error", message⟩
  | PollKind.timedOut => PollOutcome.rejected ⟨"Error", "Analysis timed out"⟩
  | PollKind.readError e => PollOutcome.rejected e

/-- What `pollForResults` sets for each kind of ending. -/
def resultsOutcomeOf : PollKind → UiOutcome
  | PollKind.completed report => UiOutcome.shown report
  | PollKind.failed message => UiOutcome.error message
  | PollKind.timedOut => UiOutcome.error "Analysis timed out. Please try again."
  | PollKind.readError _ => UiOutcome.error "Failed to get analysis results"

/-! ## `startAnalysis` of the report view (client/components/ComplianceReport.js) -/

/-- What `startAnalysis` reads of a thrown error: `err.code`, `err.response?.status` and
`err.response?.data?.message`. -/
structure AxiosError where
  code : Option String
  status : Option Nat
  message : Option String
deriving Repr

/-- The outcome of one `await api.post('/analyze', ...)`: the request throws, or it yields
a body, of which `startAnalysis` reads `success`, `reportId` and `message`. -/
inductive PostOutcome where
  | threw (err : AxiosError) : PostOutcome
  | response (success : Bool) (reportId : String) (message : Option String) : PostOutcome
deriving Repr

/-- What `startAnalysis` does, in order: the wait before the first attempt, a request, the
scheduling of a retry after a delay, the error it shows, the start of the poll loop. -/
inductive StartEvent where
  | wait (ms : Nat) : StartEvent
  | post : StartEvent
  | retryIn (ms : Nat) : StartEvent
  | setError (message : String) : StartEvent
  | startPolling (reportId : String) : StartEvent
deriving Repr, DecidableEq

/-- The constant `maxRetries` (ComplianceReport.js, line 34). -/
def maxRetries : Nat := 3

/-- The second operand of the retry test (ComplianceReport.js, lines 64-66). -/
def isTransient (err : AxiosError) : Bool :=
  err.code = some "ERR_NETWORK" || err.code = some "ECONNABORTED" ||
  (match err.status with
   | some status => 500 ≤ status
   | none => false)

/-- The message computed at lines 73-80 of ComplianceReport.js. -/
def startErrorMessage (err : AxiosError) : String :=
  if err.code = some "ERR_NETWORK" then
    "Cannot connect to server. Please make sure the backend is running."
  else if err.code = some "ECONNABORTED" then "Request timed out. Please try again."
  else
    match err.message with
    | some message => if message ≠ "" then message else "Failed to start analysis"
    | none => "Failed to start analysis"

/-- The value `response.data.message || 'Analysis failed to start'` (line 56). -/
def startRefusedMessage : Option String → String
  | some message => if message ≠ "" then message else "Analysis failed to start"
  | none => "Analysis failed to start"

/-- The function `startAnalysis` (ComplianceReport.js, lines 33-85) called with
`retryCount`, and the calls it schedules; the request of this call is number `retryCount`
of the sequence `posts`.  The first argument bounds the number of calls. -/
def startAnalysisFrom (posts : Nat → PostOutcome) : Nat → Nat → Option (List StartEvent)
  | 0, _ => none
  | fuel + 1, retryCount =>
    let before := if retryCount = 0 then [StartEvent.wait 1000] else []
    match posts retryCount with
    | PostOutcome.response true reportId _ =>
      some (before ++ [StartEvent.post, StartEvent.startPolling reportId])
    | PostOutcome.response false _ message =>
      some (before ++ [StartEvent.post, StartEvent.setError (startRefusedMessage message)])
    | PostOutcome.threw err =>
      if retryCount < maxRetries ∧ isTransient err = true then
        (startAnalysisFrom posts fuel (retryCount + 1)).map
          (fun rest => before ++ [StartEvent.post, StartEvent.retryIn (2000 * (retryCount + 1))]
            ++ rest)
      else some (before ++ [StartEvent.post, StartEvent.setError (startErrorMessage err)])

/-- The call `startAnalysis()` of the effect (ComplianceReport.js, line 29), with
`retryCount` at its default 0; `none` would be a run that never ends. -/
def startAnalysis (posts : Nat → PostOutcome) : Option (List StartEvent) :=
  startAnalysisFrom posts (maxRetries + 1) 0

/-- The number of requests in a run of `startAnalysis`. -/
def attemptsOf (trace : List StartEvent) : Nat :=
  trace.countP (fun e => e = StartEvent.post)

/-- The delays of the retries scheduled in a run of `startAnalysis`, in order. -/
def delaysOf : List StartEvent → List Nat
  | [] => []
  | StartEvent.retryIn ms :: rest => ms :: delaysOf rest
  | _ :: rest => delaysOf rest

/-- The error that ends a run of `startAnalysis`, if it ends with one. -/
def shownError (trace : List StartEvent) : Option String :=
  match trace.getLast? with
  | some (StartEvent.setError message) => some message
  | _ => none

/-- What a call of `startAnalysis` that schedules no retry does last after its request:
it starts polling, or it sets the error of the component. -/
def finalEvent : PostOutcome → StartEvent
  | PostOutcome.response true reportId _ => StartEvent.startPolling reportId
  | PostOutcome.response false _ message => StartEvent.setError (startRefusedMessage message)
  | PostOutcome.threw err => StartEvent.setError (startErrorMessage err)

/-! ## Concrete data for the examples on the client -/

/-- An error of axios for a request that did not reach the server. -/
def networkError : AxiosError := ⟨some "ERR_NETWORK", none, none⟩

/-- An error of axios for a response with status 404. -/
def notFoundError : AxiosError :=
  ⟨some "ERR_BAD_REQUEST", some 404, some "The specified document could not be found"⟩

/-- A multi-line text whose second line is the number 42. -/
def numberLineText : JsString := js "Intro\n42\nMore text"

/-- A text in which one page marker sits inside another. -/
def nestedMarkerText : JsString := js "Page 1Page 2 of 3 of 4"

/-- The four labels that the prompt asks for as `complianceLevel` (ioIntelligenceService.js,
line 88). -/
def complianceLabels : List JsString :=
  [js "Non-Compliant", js "Partially Compliant", js "Mostly Compliant", js "Fully Compliant"]

/-- The analysis result has an `overallScore` that is an integer from 0 to 100 and a
`complianceLevel` that is one of the four labels. -/
def WithinContract (result : Json) : Prop :=
  (∃ n : Int, result.field "overallScore" = some (Json.num n) ∧ 0 ≤ n ∧ n ≤ 100) ∧
  (∃ label ∈ complianceLabels, result.field "complianceLevel" = some (Json.str label))

/-- A sequence of reads in which every request fails with a network error. -/
def failingReads : Nat → ReadOutcome :=
  fun _ => ReadOutcome.threw ⟨"AxiosError", "Network Error"⟩

/-- A sequence of reads in which every request returns a report still in `processing`. -/
def pendingReads : Nat → ReadOutcome :=
  fun _ => ReadOutcome.body true (some processingReport)

/-- A sequence of requests that fails twice on the network and then is answered 404. -/
def flakyPosts : Nat → PostOutcome :=
  fun i => if i < 2 then PostOutcome.threw networkError else PostOutcome.threw notFoundError

/-- The part of `/Page \d+ of \d+/i` after the first number, matched at the head of the
text that follows the digits `first`: the length of the whole match, if there is one. -/
def markerTailLength (first : JsString) : JsString → Option Nat
  | sp₁ :: o :: f :: sp₂ :: tail =>
    let second := tail.takeWhile isDigit
    if first ≠ [] && sp₁ = 32 && isLetter 79 o && isLetter 70 f && sp₂ = 32 &&
        second ≠ [] then
      some (5 + first.length + 4 + second.length)
    else none
  | _ => none

/-- Every page marker of the text stands apart: it follows a space or starts the text, and
a space or the end of the text follows it.  `afterSpace` tells that the text read so far is
empty or ends with a space. -/
def markersApartFrom : Bool → JsString → Bool
  | _, [] => true
  | afterSpace, c :: rest =>
    (match pageMarkerLength (c :: rest) with
     | some n =>
       afterSpace &&
       (match (c :: rest).drop n with
        | [] => true
        | d :: _ => d = 32)
     | none => true) && markersApartFrom (c = 32) rest

/-- Every page marker of the text stands apart. -/
def markersApart (s : JsString) : Bool := markersApartFrom true s

/-- A text with a footer line between two lines of prose. -/
def footerText : JsString := js "Our policy\nPage 1 of 2\ncontinues here"

/-! ## The poller with any number as `maxAttempts` -/

/-- A value of the type number of JavaScript: a finite double is `mantissa * 2 ^ exponent`
for two integers (2.5 is `5 * 2 ^ (-1)`), and there are the two infinities and `NaN`. -/
inductive JsNumber where
  | finite (mantissa exponent : Int) : JsNumber
  | posInfinity : JsNumber
  | negInfinity : JsNumber
  | nan : JsNumber
deriving Repr, DecidableEq

/-- The comparison `n < x` of JavaScript between a counter `n` and a number `x`: false for
`NaN`. -/
def counterLess (n : Nat) : JsNumber → Bool
  | JsNumber.finite m e =>
    if 0 ≤ e then (n : Int) < m * ((2 ^ e.toNat : Nat) : Int)
    else (n : Int) * ((2 ^ (-e).toNat : Nat) : Int) < m
  | JsNumber.posInfinity => true
  | JsNumber.negInfinity => false
  | JsNumber.nan => false

/-- The comparison `n <= x` of JavaScript between a counter `n` and a number `x`. -/
def counterAtMost (n : Nat) : JsNumber → Bool
  | JsNumber.finite m e =>
    if 0 ≤ e then (n : Int) ≤ m * ((2 ^ e.toNat : Nat) : Int)
    else (n : Int) * ((2 ^ (-e).toNat : Nat) : Int) ≤ m
  | JsNumber.posInfinity => true
  | JsNumber.negInfinity => false
  | JsNumber.nan => false

/-- The counter value `2 ^ 53`, the first at which `attempts++` adds nothing. -/
def maxSafeCounter : Nat := 2 ^ 53

/-- The statement `attempts++` (api.js, lines 135 and 142) on a counter that started at 0:
the sum is exact up to `2 ^ 53`, and `2 ^ 53 + 1` is rounded back to `2 ^ 53`. -/
def increment (attempts : Nat) : Nat :=
  if attempts < maxSafeCounter then attempts + 1 else attempts

/-- The function `poll` (api.js, lines 119-149) and the runs it schedules with `setTimeout`,
for any number as `maxAttempts`.  `made` is the number of reads made so far, `attempts` the
value of the counter of the source; the first argument bounds the number of runs. -/
def pollNumber (maxAttempts : JsNumber) (reads : Nat → ReadOutcome) :
    Nat → Nat → Nat → Option PollRun
  | 0, _, _ => none
  | fuel + 1, made, attempts =>
    match pollStep (reads made) with
    | Sum.inl outcome => some ⟨made + 1, outcome⟩
    | Sum.inr giveUp =>
      if counterLess (increment attempts) maxAttempts then
        pollNumber maxAttempts reads fuel (made + 1) (increment attempts)
      else some ⟨made + 1, PollOutcome.rejected giveUp⟩

/-- The function `pollForAnalysis` (api.js, lines 115-153) for a given sequence of read
outcomes and any number as `maxAttempts`, watched for `ticks` runs of `poll`: `none` when
the promise has not settled within them. -/
def pollForAnalysisWithin (ticks : Nat) (reads : Nat → ReadOutcome) (maxAttempts : JsNumber) :
    Option PollRun :=
  pollNumber maxAttempts reads ticks 0 0

/-! ## Lemmas on the map -/

theorem JsMap.getEntries_setEntries_self {V : Type} (k : String) (v : V)
    (l : List (String × V)) : JsMap.getEntries k (JsMap.setEntries k v l) = some v := by
  induction l with
  | nil => simp [JsMap.setEntries, JsMap.getEntries]
  | cons hd tl ih =>
    obtain ⟨k', v'⟩ := hd
    by_cases h : k' = k
    · simp [JsMap.setEntries, JsMap.getEntries, h]
    · simp [JsMap.setEntries, JsMap.getEntries, h, ih]

theorem JsMap.getEntries_setEntries_of_ne {V : Type} (k k₀ : String) (v : V)
    (l : List (String × V)) (hne : k ≠ k₀) :
    JsMap.getEntries k₀ (JsMap.setEntries k v l) = JsMap.getEntries k₀ l := by
  induction l with
  | nil => simp [JsMap.setEntries, JsMap.getEntries, hne]
  | cons hd tl ih =>
    obtain ⟨k', v'⟩ := hd
    by_cases h : k' = k
    · subst h
      simp [JsMap.setEntries, JsMap.getEntries, hne]
    · by_cases h₀ : k' = k₀
      · subst h₀
        simp [JsMap.setEntries, JsMap.getEntries, h]
      · simp [JsMap.setEntries, JsMap.getEntries, h, h₀, ih]

theorem JsMap.get_set_self {V : Type} (m : JsMap V) (k : String) (v : V) :
    (m.set k v).get k = some v :=
  JsMap.getEntries_setEntries_self k v m.entries

theorem JsMap.get_set_of_ne {V : Type} (m : JsMap V) (k k₀ : String) (v : V) (hne : k ≠ k₀) :
    (m.set k v).get k₀ = m.get k₀ :=
  JsMap.getEntries_setEntries_of_ne k k₀ v m.entries hne

theorem JsMap.get_empty {V : Type} (k : String) : (JsMap.empty : JsMap V).get k = none := rfl

/-! ## Lemmas on the handlers -/

theorem truthy_str {s : String} (h : s ≠ "") : (ReqValue.str s).truthy = true := by
  simp [ReqValue.truthy, h]

/-- The identifier `reportId` has no binding in the `catch` block. -/
theorem resolve_reportId_in_catch (value : String) :
    resolveIdentifier catchBlockScope "reportId" value
      = Except.error ⟨"ReferenceError", "reportId is not defined"⟩ := by
  rfl

/-- The `catch` block of `analyzeCompliance` leaves the store as it is and rejects. -/
theorem analyzeCatch_eq (env : AnalyzeEnv) (st : Store) (p : Pending) (e : JsError)
    (done : List Event) :
    analyzeCatch env st p e done
      = ⟨st, done ++ [Event.rejected ⟨"ReferenceError", "reportId is not defined"⟩]⟩ := by
  unfold analyzeCatch
  rw [resolve_reportId_in_catch]

/-- The synchronous part on a stored document. -/
theorem analyzeStart_stored (st : Store) (documentId uuid : String) (document : Document)
    (hid : documentId ≠ "") (hdoc : st.documents.get documentId = some document) :
    analyzeStart st (ReqValue.str documentId) uuid
      = (Response.analysisStarted uuid "processing"
          "Analysis started. Use the report ID to check progress.",
         some ⟨documentId, document, uuid⟩) := by
  simp [analyzeStart, truthy_str hid, JsMap.getValue, hdoc]

/-- The background part, when both service calls succeed. -/
theorem analyzeBackground_success (io : IoService) (env : AnalyzeEnv) (st : Store) (p : Pending)
    (R S : Json)
    (hR : io.analyzeGDPRCompliance p.document.content p.document.metadata.filename = Except.ok R)
    (hS : io.generateImprovementSuggestions R = Except.ok S) :
    analyzeBackground io env st p
      = ⟨{ st with reports := st.reports.set p.reportId (completedReport env p R S) },
         [Event.assessCalled p.document.content p.document.metadata.filename,
          Event.suggestCalled R, Event.reportsSet p.reportId "completed"]⟩ := by
  simp [analyzeBackground, hR, hS]

/-- The background part, when the assessment call throws. -/
theorem analyzeBackground_assess_throws (io : IoService) (env : AnalyzeEnv) (st : Store)
    (p : Pending) (e : JsError)
    (hR : io.analyzeGDPRCompliance p.document.content p.document.metadata.filename
      = Except.error e) :
    analyzeBackground io env st p
      = ⟨st, [Event.assessCalled p.document.content p.document.metadata.filename,
              Event.rejected ⟨"ReferenceError", "reportId is not defined"⟩]⟩ := by
  simp [analyzeBackground, hR, analyzeCatch_eq]

/-- The background part either leaves the report store as it is or sets the completed
record under the pending identifier; the document store is never touched. -/
theorem analyzeBackground_store (io : IoService) (env : AnalyzeEnv) (st : Store) (p : Pending) :
    (analyzeBackground io env st p).store = st ∨
    ∃ R S, (analyzeBackground io env st p).store
      = { st with reports := st.reports.set p.reportId (completedReport env p R S) } := by
  cases hR : io.analyzeGDPRCompliance p.document.content p.document.metadata.filename with
  | error e => left; simp [analyzeBackground, hR, analyzeCatch_eq]
  | ok R =>
    cases hS : io.generateImprovementSuggestions R with
    | error e => left; simp [analyzeBackground, hR, hS, analyzeCatch_eq]
    | ok S => right; exact ⟨R, S, by simp [analyzeBackground, hR, hS]⟩

/-- The handler `uploadDocument` does not touch the report store. -/
theorem uploadDocument_reports (ds : DocumentService) (uuid now1 now2 : String) (st : Store)
    (file : Option UploadedFile) :
    (uploadDocument ds uuid now1 now2 st file).store.reports = st.reports := by
  unfold uploadDocument
  cases file with
  | none => rfl
  | some f =>
    simp only
    cases ds.extractTextFromDocument f.buffer f.mimetype f.originalname with
    | error e => rfl
    | ok content =>
      simp only
      split <;> rfl

theorem getReport_store (st : Store) (id : ReqValue) : (getReport st id).store = st := by
  unfold getReport
  split
  · rfl
  · split <;> rfl

theorem getAvailableModels_store (io : IoService) (st : Store) :
    (getAvailableModels io st).store = st := by
  unfold getAvailableModels
  split <;> rfl

/-- The report store after an operation: unchanged at every key the operation was not
allocated. -/
theorem step_reports_get (st : Store) (op : Op) (r : String) (hne : op.reportId ≠ some r) :
    (step st op).reports.get r = st.reports.get r := by
  cases op with
  | uploadDocument ds uuid now1 now2 file =>
    simp [step, uploadDocument_reports]
  | analyzeStart documentId uuid => rfl
  | analyzeBackground io env p =>
    have hp : p.reportId ≠ r := fun h => hne (by simp [Op.reportId, h])
    rcases analyzeBackground_store io env st p with h | ⟨R, S, h⟩
    · simp [step, h]
    · simp [step, h, JsMap.get_set_of_ne _ _ _ _ hp]
  | getReport id => simp [step, getReport_store]
  | getAvailableModels io => simp [step, getAvailableModels_store]
  | getSystemStats info => rfl

theorem storeInvariant_initial : StoreInvariant Store.initial := by
  intro id r h
  simp [Store.initial, JsMap.get_empty] at h

theorem storeInvariant_step (st : Store) (op : Op) (h : StoreInvariant st) :
    StoreInvariant (step st op) := by
  intro id r hr
  by_cases hid : op.reportId = some id
  · cases op with
    | analyzeBackground io env p =>
      have hp : p.reportId = id := by simpa [Op.reportId] using hid
      rcases analyzeBackground_store io env st p with hs | ⟨R, S, hs⟩
      · simp only [step, hs] at hr
        exact h id r hr
      · simp only [step, hs] at hr
        rw [hp, JsMap.get_set_self] at hr
        cases hr
        simp [ReportInvariant, completedReport]
    | analyzeStart documentId uuid => exact h id r hr
    | uploadDocument ds uuid now1 now2 file => simp [Op.reportId] at hid
    | getReport id' => simp [Op.reportId] at hid
    | getAvailableModels io => simp [Op.reportId] at hid
    | getSystemStats info => simp [Op.reportId] at hid
  · rw [step_reports_get st op id hid] at hr
    exact h id r hr

theorem storeInvariant_foldl (ops : List Op) (st : Store) (h : StoreInvariant st) :
    StoreInvariant (ops.foldl step st) := by
  induction ops generalizing st with
  | nil => exact h
  | cons op rest ih => exact ih (step st op) (storeInvariant_step st op h)

/-- What the synchronous part leaves pending, when it leaves something. -/
theorem analyzeStart_pending (st : Store) (documentId : ReqValue) (uuid : String) (r : Response)
    (p : Pending) (h : analyzeStart st documentId uuid = (r, some p)) :
    p.reportId = uuid ∧
    r = Response.analysisStarted uuid "processing"
          "Analysis started. Use the report ID to check progress." ∧
    documentId = ReqValue.str p.documentId ∧ st.documents.get p.documentId = some p.document := by
  unfold analyzeStart at h
  split at h
  · simp at h
  · split at h
    · rename_i s document hget
      simp only [Prod.mk.injEq, Option.some.injEq] at h
      obtain ⟨hr, hp⟩ := h
      subst hp
      exact ⟨rfl, hr.symm, rfl, hget⟩
    · simp at h

/-- When the synchronous part leaves nothing pending it answered with an error. -/
theorem analyzeStart_none (st : Store) (documentId : ReqValue) (uuid : String) (r : Response)
    (h : analyzeStart st documentId uuid = (r, none)) :
    (documentId.truthy = false ∧
      r = Response.error 400 "Missing document ID"
            (some "Please provide a document ID for analysis")) ∨
    (documentId.truthy = true ∧ st.documents.getValue documentId = none ∧
      r = Response.error 404 "Document not found"
            (some "The specified document could not be found")) := by
  cases documentId with
  | absent =>
    left
    simp [analyzeStart, ReqValue.truthy] at h
    exact ⟨rfl, h.symm⟩
  | other t =>
    cases t with
    | false =>
      left
      simp [analyzeStart, ReqValue.truthy] at h
      exact ⟨rfl, h.symm⟩
    | true =>
      right
      simp [analyzeStart, ReqValue.truthy, JsMap.getValue] at h
      exact ⟨rfl, rfl, h.symm⟩
  | str s =>
    by_cases hs : s = ""
    · left
      subst hs
      simp [analyzeStart, ReqValue.truthy] at h
      exact ⟨by simp [ReqValue.truthy], h.symm⟩
    · right
      cases hget : st.documents.get s with
      | none =>
        simp [analyzeStart, ReqValue.truthy, hs, JsMap.getValue, hget] at h
        exact ⟨by simp [ReqValue.truthy, hs], by simp [JsMap.getValue, hget], h.symm⟩
      | some d =>
        simp [analyzeStart, ReqValue.truthy, hs, JsMap.getValue, hget] at h

/-- The three shapes of the trace of the background part. -/
theorem analyzeBackground_trace (io : IoService) (env : AnalyzeEnv) (st : Store) (p : Pending) :
    (∃ e, (analyzeBackground io env st p).trace
      = [Event.assessCalled p.document.content p.document.metadata.filename, Event.rejected e]) ∨
    (∃ R e, (analyzeBackground io env st p).trace
      = [Event.assessCalled p.document.content p.document.metadata.filename,
         Event.suggestCalled R, Event.rejected e]) ∨
    (∃ R, (analyzeBackground io env st p).trace
      = [Event.assessCalled p.document.content p.document.metadata.filename,
         Event.suggestCalled R, Event.reportsSet p.reportId "completed"]) := by
  cases hR : io.analyzeGDPRCompliance p.document.content p.document.metadata.filename with
  | error e =>
    left
    exact ⟨⟨"ReferenceError", "reportId is not defined"⟩,
      by simp [analyzeBackground, hR, analyzeCatch_eq]⟩
  | ok R =>
    cases hS : io.generateImprovementSuggestions R with
    | error e =>
      right; left
      exact ⟨R, ⟨"ReferenceError", "reportId is not defined"⟩,
        by simp [analyzeBackground, hR, hS, analyzeCatch_eq]⟩
    | ok S => right; right; exact ⟨R, by simp [analyzeBackground, hR, hS]⟩

/-- The whole run on a stored document is the response followed by the background part. -/
theorem analyzeCompliance_stored (io : IoService) (env : AnalyzeEnv) (st : Store)
    (documentId : String) (document : Document)
    (hid : documentId ≠ "") (hdoc : st.documents.get documentId = some document) :
    analyzeCompliance io env st (ReqValue.str documentId)
      = ⟨(analyzeBackground io env st ⟨documentId, document, env.uuid⟩).store,
         Event.respond (Response.analysisStarted env.uuid "processing"
            "Analysis started. Use the report ID to check progress.")
          :: (analyzeBackground io env st ⟨documentId, document, env.uuid⟩).trace⟩ := by
  simp [analyzeCompliance, analyzeStart_stored st documentId env.uuid document hid hdoc]

/-- The handler `getReport` on an identifier of the route. -/
theorem getReport_trace (st : Store) (id : String) (hid : id ≠ "") :
    (getReport st (ReqValue.str id)).trace
      = match st.reports.get id with
        | none => [Event.respond (Response.error 404 "Report not found"
                    (some "The specified report could not be found"))]
        | some report => [Event.respond (Response.report report)] := by
  unfold getReport
  rw [if_neg (by simp [truthy_str hid])]
  simp only [JsMap.getValue]
  cases st.reports.get id <;> rfl

/-! ## The claims on the controller -/

/-- C1: for a stored document, when the assessment returns `R` and the suggestion step
returns `S`, the analyze response carries the allocated report identifier and, once the
background part has written (on whatever store `later` the other handlers have left, or in
a run with nothing in between), `getReport` on that identifier answers with the completed
report: analysis `R`, improvements `S`, the requested document identifier and the file
name of the document. -/
theorem analyzeCompliance_then_getReport_completed
    (io : IoService) (env : AnalyzeEnv) (st later : Store) (documentId : String)
    (document : Document) (R S : Json)
    (hid : documentId ≠ "") (huuid : env.uuid ≠ "")
    (hdoc : st.documents.get documentId = some document)
    (hR : io.analyzeGDPRCompliance document.content document.metadata.filename = Except.ok R)
    (hS : io.generateImprovementSuggestions R = Except.ok S) :
    ∃ p : Pending,
      analyzeStart st (ReqValue.str documentId) env.uuid
        = (Response.analysisStarted env.uuid "processing"
            "Analysis started. Use the report ID to check progress.", some p) ∧
      (getReport (analyzeBackground io env later p).store (ReqValue.str env.uuid)).trace
        = [Event.respond (Response.report
            { id := env.uuid, documentId := documentId,
              documentName := some document.metadata.filename,
              analysis := some R, improvements := some S, status := "completed",
              error := none, createdAt := env.createdAt,
              completedAt := some env.completedAt })] ∧
      (getReport (analyzeCompliance io env st (ReqValue.str documentId)).store
          (ReqValue.str env.uuid)).trace
        = [Event.respond (Response.report
            { id := env.uuid, documentId := documentId,
              documentName := some document.metadata.filename,
              analysis := some R, improvements := some S, status := "completed",
              error := none, createdAt := env.createdAt,
              completedAt := some env.completedAt })] := by
  refine ⟨⟨documentId, document, env.uuid⟩, analyzeStart_stored st documentId env.uuid document
    hid hdoc, ?_, ?_⟩
  · rw [getReport_trace _ _ huuid,
      analyzeBackground_success io env later ⟨documentId, document, env.uuid⟩ R S hR hS]
    simp [JsMap.get_set_self, completedReport]
  · rw [getReport_trace _ _ huuid, analyzeCompliance_stored io env st documentId document hid hdoc,
      analyzeBackground_success io env st ⟨documentId, document, env.uuid⟩ R S hR hS]
    simp [JsMap.get_set_self, completedReport]

/-- C1, at the sample run: the mock returns the fixed analysis and suggestions. -/
theorem analyzeCompliance_then_getReport_completed_witness :
    ∃ p : Pending,
      analyzeStart sampleStore (ReqValue.str "d1") "r1"
        = (Response.analysisStarted "r1" "processing"
            "Analysis started. Use the report ID to check progress.", some p) ∧
      (getReport (analyzeBackground mockIo sampleEnv sampleStore p).store
          (ReqValue.str "r1")).trace
        = [Event.respond (Response.report sampleReport)] ∧
      (getReport (analyzeCompliance mockIo sampleEnv sampleStore (ReqValue.str "d1")).store
          (ReqValue.str "r1")).trace
        = [Event.respond (Response.report sampleReport)] :=
  analyzeCompliance_then_getReport_completed mockIo sampleEnv sampleStore sampleStore "d1"
    sampleDocument sampleAnalysis sampleImprovements (by decide) (by decide) rfl rfl rfl

/-- C2, the code at the failing input: the assessment call throws; the run sends the
response, calls the assessment and then rejects with a `ReferenceError` raised in the
`catch` block, the report store holds nothing under the returned identifier and `getReport`
on it answers 404. -/
theorem analyzeCompliance_assess_throws_stores_nothing :
    (analyzeCompliance throwingIo sampleEnv sampleStore (ReqValue.str "d1")).trace
      = [Event.respond (Response.analysisStarted "r1" "processing"
            "Analysis started. Use the report ID to check progress."),
         Event.assessCalled sampleDocument.content "policy.txt",
         Event.rejected ⟨"ReferenceError", "reportId is not defined"⟩] ∧
    (analyzeCompliance throwingIo sampleEnv sampleStore (ReqValue.str "d1")).store.reports.get
      "r1" = none ∧
    (getReport (analyzeCompliance throwingIo sampleEnv sampleStore (ReqValue.str "d1")).store
        (ReqValue.str "r1")).trace
      = [Event.respond (Response.error 404 "Report not found"
          (some "The specified report could not be found"))] :=
  ⟨rfl, rfl, rfl⟩

/-- C3 as stated fails: right after the response for the stored sample document, with the
background part not yet finished, `getReport` on the returned identifier answers 404
`Report not found`; no record with status `processing` is found. -/
theorem getReport_before_background_not_found :
    (analyzeStart sampleStore (ReqValue.str "d1") "r1").1
      = Response.analysisStarted "r1" "processing"
          "Analysis started. Use the report ID to check progress." ∧
    (getReport (step sampleStore (Op.analyzeStart (ReqValue.str "d1") "r1"))
        (ReqValue.str "r1")).trace
      = [Event.respond (Response.error 404 "Report not found"
          (some "The specified report could not be found"))] ∧
    (step sampleStore (Op.analyzeStart (ReqValue.str "d1") "r1")).reports.get "r1" = none :=
  ⟨rfl, rfl, rfl⟩

/-- C3 as amended: for a stored document and a fresh report identifier, the response of
`analyzeCompliance` carries status `processing`, the synchronous part leaves both stores
as they were, and in that state `getReport` on the returned identifier answers 404
`Report not found`. -/
theorem getReport_before_background (st : Store) (documentId uuid : String)
    (document : Document) (hid : documentId ≠ "") (huuid : uuid ≠ "")
    (hdoc : st.documents.get documentId = some document)
    (hfresh : st.reports.get uuid = none) :
    (analyzeStart st (ReqValue.str documentId) uuid).1
      = Response.analysisStarted uuid "processing"
          "Analysis started. Use the report ID to check progress." ∧
    step st (Op.analyzeStart (ReqValue.str documentId) uuid) = st ∧
    (getReport (step st (Op.analyzeStart (ReqValue.str documentId) uuid))
        (ReqValue.str uuid)).trace
      = [Event.respond (Response.error 404 "Report not found"
          (some "The specified report could not be found"))] := by
  refine ⟨by rw [analyzeStart_stored st documentId uuid document hid hdoc], rfl, ?_⟩
  rw [getReport_trace _ _ huuid]
  simp [step, hfresh]

/-- C3 as amended, at the sample store. -/
theorem getReport_before_background_witness :
    (analyzeStart sampleStore (ReqValue.str "d1") "r1").1
      = Response.analysisStarted "r1" "processing"
          "Analysis started. Use the report ID to check progress." ∧
    step sampleStore (Op.analyzeStart (ReqValue.str "d1") "r1") = sampleStore ∧
    (getReport (step sampleStore (Op.analyzeStart (ReqValue.str "d1") "r1"))
        (ReqValue.str "r1")).trace
      = [Event.respond (Response.error 404 "Report not found"
          (some "The specified report could not be found"))] :=
  getReport_before_background sampleStore "d1" "r1" sampleDocument (by decide) (by decide)
    rfl rfl

/-- C4: a run of `analyzeCompliance` writes the report store at most once under the
allocated identifier and never under another one; and a record with status `completed` or
`failed` is left as it is by every operation of the controller that was not allocated the
identifier of that record (an upload, the analysis of another request, a read of a report,
the models, the statistics). -/
theorem report_written_once_and_final :
    (∀ (io : IoService) (env : AnalyzeEnv) (st : Store) (documentId : ReqValue),
      (analyzeCompliance io env st documentId).trace.countP (Event.isReportsSet env.uuid) ≤ 1 ∧
      ∀ id, id ≠ env.uuid →
        (analyzeCompliance io env st documentId).trace.countP (Event.isReportsSet id) = 0) ∧
    (∀ (st : Store) (op : Op) (r : String) (record : Report),
      st.reports.get r = some record →
      (record.status = "completed" ∨ record.status = "failed") →
      op.reportId ≠ some r → (step st op).reports.get r = some record) := by
  refine ⟨?_, ?_⟩
  · intro io env st documentId
    cases h : analyzeStart st documentId env.uuid with
    | mk r o =>
      cases o with
      | none =>
        simp [analyzeCompliance, h, List.countP_cons, Event.isReportsSet]
      | some p =>
        have hp := (analyzeStart_pending st documentId env.uuid r p h).1
        have htrace : (analyzeCompliance io env st documentId).trace
            = Event.respond r :: (analyzeBackground io env st p).trace := by
          simp [analyzeCompliance, h]
        rw [htrace]
        rcases analyzeBackground_trace io env st p with ⟨e, ht⟩ | ⟨R, e, ht⟩ | ⟨R, ht⟩
        · simp [ht, List.countP_cons, Event.isReportsSet]
        · simp [ht, List.countP_cons, Event.isReportsSet]
        · rw [ht, hp]
          refine ⟨by simp [List.countP_cons, Event.isReportsSet], ?_⟩
          intro id hne
          have hne' : ¬ env.uuid = id := fun h => hne h.symm
          simp [List.countP_cons, Event.isReportsSet, hne']
  · intro st op r record hget _ hne
    rw [step_reports_get st op r hne, hget]

/-- C4, at a concrete store: the completed report `r1` survives the background part of
another run, which was allocated `r2`. -/
theorem report_written_once_and_final_witness :
    (step (step Store.initial (Op.analyzeBackground mockIo sampleEnv samplePending))
        (Op.analyzeBackground mockIo sampleEnv ⟨"d1", sampleDocument, "r2"⟩)).reports.get "r1"
      = some sampleReport :=
  report_written_once_and_final.2
    (step Store.initial (Op.analyzeBackground mockIo sampleEnv samplePending))
    (Op.analyzeBackground mockIo sampleEnv ⟨"d1", sampleDocument, "r2"⟩) "r1" sampleReport
    rfl (Or.inl rfl) (by decide)

/-- C5: the report invariant (status among `processing`, `completed`, `failed`; analysis,
improvements and completion time present exactly with `completed`; error present exactly
with `failed`) holds of every record of the empty store, is preserved by every operation
of the controller, by a whole run of `analyzeCompliance` too, and so holds of every record
of every store the controller can reach. -/
theorem report_invariant_holds :
    StoreInvariant Store.initial ∧
    (∀ (st : Store) (op : Op), StoreInvariant st → StoreInvariant (step st op)) ∧
    (∀ (io : IoService) (env : AnalyzeEnv) (st : Store) (documentId : ReqValue),
      StoreInvariant st → StoreInvariant (analyzeCompliance io env st documentId).store) ∧
    (∀ ops : List Op, StoreInvariant (runOps ops)) := by
  refine ⟨storeInvariant_initial, storeInvariant_step, ?_, ?_⟩
  · intro io env st documentId hst
    cases h : analyzeStart st documentId env.uuid with
    | mk r o =>
      cases o with
      | none =>
        have hs : (analyzeCompliance io env st documentId).store = st := by
          simp [analyzeCompliance, h]
        rw [hs]
        exact hst
      | some p =>
        have hs : (analyzeCompliance io env st documentId).store
            = step st (Op.analyzeBackground io env p) := by
          simp [analyzeCompliance, h, step]
        rw [hs]
        exact storeInvariant_step st _ hst
  · intro ops
    exact storeInvariant_foldl ops Store.initial storeInvariant_initial

/-- C5, at a concrete store: the record written by the sample run satisfies the
invariant. -/
theorem report_invariant_holds_witness : ReportInvariant sampleReport :=
  report_invariant_holds.2.1 Store.initial (Op.analyzeBackground mockIo sampleEnv samplePending)
    report_invariant_holds.1 "r1" sampleReport rfl

/-- C6: when the requested document identifier is not a key of the document store,
`analyzeCompliance` answers 404 `Document not found`, calls no method of the language-model
service and leaves the store as it was; when the request carries no identifier (or a falsy
one) it answers 400, and again nothing else happens. -/
theorem analyzeCompliance_unknown_document (io : IoService) (env : AnalyzeEnv) (st : Store)
    (documentId : ReqValue) :
    (documentId.truthy = true → st.documents.getValue documentId = none →
      (analyzeCompliance io env st documentId).trace
        = [Event.respond (Response.error 404 "Document not found"
            (some "The specified document could not be found"))] ∧
      (analyzeCompliance io env st documentId).trace.any Event.isCapabilityCall = false ∧
      (analyzeCompliance io env st documentId).store = st) ∧
    (documentId.truthy = false →
      (analyzeCompliance io env st documentId).trace
        = [Event.respond (Response.error 400 "Missing document ID"
            (some "Please provide a document ID for analysis"))] ∧
      (analyzeCompliance io env st documentId).trace.any Event.isCapabilityCall = false ∧
      (analyzeCompliance io env st documentId).store = st) := by
  refine ⟨?_, ?_⟩
  · intro ht hnone
    have hstart : analyzeStart st documentId env.uuid
        = (Response.error 404 "Document not found"
            (some "The specified document could not be found"), none) := by
      unfold analyzeStart
      rw [if_neg (by simp [ht])]
      rw [hnone]
      cases documentId <;> rfl
    simp [analyzeCompliance, hstart, Event.isCapabilityCall]
  · intro hf
    have hstart : analyzeStart st documentId env.uuid
        = (Response.error 400 "Missing document ID"
            (some "Please provide a document ID for analysis"), none) := by
      unfold analyzeStart
      rw [if_pos hf]
    simp [analyzeCompliance, hstart, Event.isCapabilityCall]

/-- C6, at the sample store: the identifier `d2` was never uploaded. -/
theorem analyzeCompliance_unknown_document_witness :
    (analyzeCompliance mockIo sampleEnv sampleStore (ReqValue.str "d2")).trace
      = [Event.respond (Response.error 404 "Document not found"
          (some "The specified document could not be found"))] ∧
    (analyzeCompliance mockIo sampleEnv sampleStore (ReqValue.str "d2")).trace.any
      Event.isCapabilityCall = false ∧
    (analyzeCompliance mockIo sampleEnv sampleStore (ReqValue.str "d2")).store = sampleStore :=
  (analyzeCompliance_unknown_document mockIo sampleEnv sampleStore (ReqValue.str "d2")).1
    (by decide) rfl

/-- C7: for a stored document the run of `analyzeCompliance` begins with the response
`success`, the allocated report identifier and status `processing`, and the call of the
assessment comes right after it; whatever the language-model service returns or throws
(two services `io` and `io'`), the response the caller receives is that same one. -/
theorem analyzeCompliance_response_first (io io' : IoService) (env : AnalyzeEnv) (st : Store)
    (documentId : String) (document : Document)
    (hid : documentId ≠ "") (hdoc : st.documents.get documentId = some document) :
    (∃ rest, (analyzeCompliance io env st (ReqValue.str documentId)).trace
      = Event.respond (Response.analysisStarted env.uuid "processing"
          "Analysis started. Use the report ID to check progress.")
        :: Event.assessCalled document.content document.metadata.filename :: rest) ∧
    responseOf (analyzeCompliance io env st (ReqValue.str documentId)).trace
      = some (Response.analysisStarted env.uuid "processing"
          "Analysis started. Use the report ID to check progress.") ∧
    responseOf (analyzeCompliance io' env st (ReqValue.str documentId)).trace
      = responseOf (analyzeCompliance io env st (ReqValue.str documentId)).trace := by
  rw [analyzeCompliance_stored io env st documentId document hid hdoc,
    analyzeCompliance_stored io' env st documentId document hid hdoc]
  refine ⟨?_, rfl, rfl⟩
  rcases analyzeBackground_trace io env st ⟨documentId, document, env.uuid⟩ with
    ⟨e, ht⟩ | ⟨R, e, ht⟩ | ⟨R, ht⟩
  · exact ⟨_, by rw [ht]⟩
  · exact ⟨_, by rw [ht]⟩
  · exact ⟨_, by rw [ht]⟩

/-- C7, at the sample store: a service that succeeds and one that throws. -/
theorem analyzeCompliance_response_first_witness :
    responseOf (analyzeCompliance throwingIo sampleEnv sampleStore (ReqValue.str "d1")).trace
      = responseOf (analyzeCompliance mockIo sampleEnv sampleStore (ReqValue.str "d1")).trace :=
  (analyzeCompliance_response_first mockIo throwingIo sampleEnv sampleStore "d1" sampleDocument
    (by decide) rfl).2.2

/-- C10: `getReport` leaves the report store and the document store as they were, whatever
the identifier; on an identifier as the route delivers it (a non-empty string, or any
truthy value) it answers 404 `Report not found` exactly when the identifier is not a key of
the report store and answers with the stored record itself otherwise. -/
theorem getReport_pure_read (st : Store) (id : ReqValue) :
    (getReport st id).store = st ∧
    (id.truthy = true →
      (st.reports.getValue id = none ↔
        (getReport st id).trace
          = [Event.respond (Response.error 404 "Report not found"
              (some "The specified report could not be found"))]) ∧
      (∀ report, st.reports.getValue id = some report →
        (getReport st id).trace = [Event.respond (Response.report report)])) := by
  refine ⟨getReport_store st id, ?_⟩
  intro ht
  have htrace : (getReport st id).trace
      = match st.reports.getValue id with
        | none => [Event.respond (Response.error 404 "Report not found"
                    (some "The specified report could not be found"))]
        | some report => [Event.respond (Response.report report)] := by
    unfold getReport
    rw [if_neg (by simp [ht])]
    cases st.reports.getValue id <;> rfl
  rw [htrace]
  refine ⟨?_, ?_⟩
  · cases st.reports.getValue id <;> simp
  · intro report hget
    rw [hget]

/-- C10, at a store that holds the completed sample report. -/
theorem getReport_pure_read_witness :
    (getReport (step Store.initial (Op.analyzeBackground mockIo sampleEnv samplePending))
        (ReqValue.str "r1")).trace = [Event.respond (Response.report sampleReport)] :=
  ((getReport_pure_read (step Store.initial (Op.analyzeBackground mockIo sampleEnv samplePending))
    (ReqValue.str "r1")).2 (by decide)).2 sampleReport rfl

/-! ## Lemmas on the string operations -/

/-- A white-space code unit is not a brace. -/
theorem isWhiteSpace_not_brace {c : Nat} (h : isWhiteSpace c = true) : c ≠ 123 ∧ c ≠ 125 := by
  constructor <;> rintro rfl <;> simp [isWhiteSpace] at h

theorem noBrace_of_whiteSpace {l : JsString} (h : ∀ c ∈ l, isWhiteSpace c = true) : NoBrace l :=
  fun c hc => isWhiteSpace_not_brace (h c hc)

theorem noBrace_append {l₁ l₂ : JsString} (h₁ : NoBrace l₁) (h₂ : NoBrace l₂) :
    NoBrace (l₁ ++ l₂) := by
  intro c hc
  rcases List.mem_append.mp hc with h | h
  · exact h₁ c h
  · exact h₂ c h

/-- What `rdropWhile` removes is a suffix whose elements all satisfy the predicate. -/
theorem rdropWhile_decomp (q : Nat → Bool) (l : JsString) :
    ∃ suf, (∀ c ∈ suf, q c = true) ∧ l = l.rdropWhile q ++ suf := by
  refine ⟨(l.reverse.takeWhile q).reverse, ?_, ?_⟩
  · intro c hc
    exact List.mem_takeWhile_imp (List.mem_reverse.mp hc)
  · have h := List.takeWhile_append_dropWhile q l.reverse
    have h' := congrArg List.reverse h
    rw [List.reverse_append, List.reverse_reverse] at h'
    exact h'.symm

/-- What `dropWhile` removes is a prefix whose elements all satisfy the predicate. -/
theorem dropWhile_decomp (q : Nat → Bool) (l : JsString) :
    ∃ pre, (∀ c ∈ pre, q c = true) ∧ l = pre ++ l.dropWhile q :=
  ⟨l.takeWhile q, fun _ hc => List.mem_takeWhile_imp hc,
    (List.takeWhile_append_dropWhile q l).symm⟩

/-- Removing a brace-free prefix does not change the brace match. -/
theorem matchBraces_append_left (pre s : JsString) (h : NoBrace pre) :
    matchBraces (pre ++ s) = matchBraces s := by
  unfold matchBraces
  rw [List.dropWhile_append_of_pos (fun c hc => by simpa using (h c hc).1)]

/-- Removing one trailing code unit that is no brace does not change the brace match. -/
theorem matchBraces_concat (s : JsString) (x : Nat) (h₁ : x ≠ 123) (h₂ : x ≠ 125) :
    matchBraces (s ++ [x]) = matchBraces s := by
  have hx₁ : (x != 123) = true := by simpa using h₁
  have hx₂ : (x != 125) = true := by simpa using h₂
  by_cases hnil : s.dropWhile (fun c => c != 123) = []
  · have hdrop : (s ++ [x]).dropWhile (fun c => c != 123) = [] := by
      rw [List.dropWhile_append, hnil]
      simp [hx₁]
    simp only [matchBraces, hdrop, hnil]
  · have hdrop : (s ++ [x]).dropWhile (fun c => c != 123)
        = s.dropWhile (fun c => c != 123) ++ [x] := by
      rw [List.dropWhile_append]
      cases hd : s.dropWhile (fun c => c != 123) with
      | nil => exact absurd hd hnil
      | cons a t => rfl
    simp only [matchBraces, hdrop]
    rw [List.rdropWhile_concat_pos (fun c => c != 125) _ x hx₂]

/-- Removing a brace-free suffix does not change the brace match. -/
theorem matchBraces_append_right (s suf : JsString) (h : NoBrace suf) :
    matchBraces (s ++ suf) = matchBraces s := by
  induction suf generalizing s with
  | nil => simp
  | cons x rest ih =>
    have hx := h x (List.mem_cons_self x rest)
    have hrest : NoBrace rest := fun c hc => h c (List.mem_cons_of_mem x hc)
    have : s ++ x :: rest = (s ++ [x]) ++ rest := by simp
    rw [this, ih (s ++ [x]) hrest, matchBraces_concat s x hx.1 hx.2]

/-- The brace match of a text with brace-free material around a core is that of the
core. -/
theorem matchBraces_core (pre core suf : JsString) (hp : NoBrace pre) (hs : NoBrace suf) :
    matchBraces (pre ++ core ++ suf) = matchBraces core := by
  rw [matchBraces_append_right _ _ hs, matchBraces_append_left _ _ hp]

/-- The method `trim` removes white space on both sides. -/
theorem trim_decomp (s : JsString) :
    ∃ pre suf, NoBrace pre ∧ NoBrace suf ∧ s = pre ++ trim s ++ suf := by
  obtain ⟨pre, hpre, h₁⟩ := dropWhile_decomp isWhiteSpace s
  obtain ⟨suf, hsuf, h₂⟩ := rdropWhile_decomp isWhiteSpace (s.dropWhile isWhiteSpace)
  refine ⟨pre, suf, noBrace_of_whiteSpace hpre, noBrace_of_whiteSpace hsuf, ?_⟩
  unfold trim
  rw [List.append_assoc, ← h₂, ← h₁]

theorem noBrace_fence : NoBrace fence := by
  intro c hc
  simp [fence] at hc
  subst hc
  decide

theorem noBrace_fenceJson : NoBrace fenceJson := by
  intro c hc
  simp [fenceJson] at hc
  rcases hc with rfl | rfl | rfl | rfl | rfl <;> decide

/-- The removal of an opening fence takes away a brace-free prefix. -/
theorem replaceOpeningFence_decomp (f s : JsString) (hf : NoBrace f) :
    ∃ pre, NoBrace pre ∧ s = pre ++ replaceOpeningFence f s := by
  unfold replaceOpeningFence
  by_cases h : startsWith s f = true
  · rw [if_pos h]
    obtain ⟨ws, hws, hd⟩ := dropWhile_decomp isWhiteSpace (s.drop f.length)
    refine ⟨f ++ ws, noBrace_append hf (noBrace_of_whiteSpace hws), ?_⟩
    have htake : s.take f.length = f := by simpa [startsWith] using h
    rw [List.append_assoc, ← hd]
    conv_lhs => rw [← List.take_append_drop f.length s, htake]
  · rw [if_neg h]
    exact ⟨[], fun _ hc => absurd hc (List.not_mem_nil _), rfl⟩

/-- The removal of a closing fence takes away a brace-free suffix. -/
theorem replaceClosingFence_decomp (f s : JsString) (hf : NoBrace f) :
    ∃ suf, NoBrace suf ∧ s = replaceClosingFence f s ++ suf := by
  unfold replaceClosingFence
  by_cases h : endsWith s f = true
  · rw [if_pos h]
    obtain ⟨ws, hws, hd⟩ := rdropWhile_decomp isWhiteSpace (s.take (s.length - f.length))
    refine ⟨ws ++ f, noBrace_append (noBrace_of_whiteSpace hws) hf, ?_⟩
    have hdrop : s.drop (s.length - f.length) = f := by simpa [endsWith] using h
    rw [← List.append_assoc, ← hd]
    conv_lhs => rw [← List.take_append_drop (s.length - f.length) s, hdrop]
  · rw [if_neg h]
    exact ⟨[], fun _ hc => absurd hc (List.not_mem_nil _), (List.append_nil _).symm⟩

/-- The clean-up of markdown takes away brace-free material on both sides. -/
theorem cleanMarkdown_decomp (s : JsString) :
    ∃ pre suf, NoBrace pre ∧ NoBrace suf ∧ s = pre ++ cleanMarkdown s ++ suf := by
  unfold cleanMarkdown
  split
  · obtain ⟨pre, hpre, h₁⟩ := replaceOpeningFence_decomp fenceJson s noBrace_fenceJson
    obtain ⟨suf, hsuf, h₂⟩ :=
      replaceClosingFence_decomp fence (replaceOpeningFence fenceJson s) noBrace_fence
    exact ⟨pre, suf, hpre, hsuf, by rw [List.append_assoc, ← h₂, ← h₁]⟩
  · split
    · obtain ⟨pre, hpre, h₁⟩ := replaceOpeningFence_decomp fence s noBrace_fence
      obtain ⟨suf, hsuf, h₂⟩ :=
        replaceClosingFence_decomp fence (replaceOpeningFence fence s) noBrace_fence
      exact ⟨pre, suf, hpre, hsuf, by rw [List.append_assoc, ← h₂, ← h₁]⟩
    · exact ⟨[], [], fun _ hc => absurd hc (List.not_mem_nil _),
        fun _ hc => absurd hc (List.not_mem_nil _), by simp⟩

/-- Trimming and the clean-up of markdown do not change the brace match. -/
theorem matchBraces_cleanMarkdown_trim (s : JsString) :
    matchBraces (cleanMarkdown (trim s)) = matchBraces s := by
  obtain ⟨p₁, s₁, hp₁, hs₁, h₁⟩ := trim_decomp s
  obtain ⟨p₂, s₂, hp₂, hs₂, h₂⟩ := cleanMarkdown_decomp (trim s)
  conv_rhs => rw [h₁, matchBraces_core _ _ _ hp₁ hs₁, h₂, matchBraces_core _ _ _ hp₂ hs₂]

/-- The brace match of a text cut at its first opening and its last closing brace. -/
theorem matchBraces_of_decomp (a b c : JsString) (ha : 123 ∉ a) (hc : 125 ∉ c) :
    matchBraces (a ++ [123] ++ b ++ [125] ++ c) = some ([123] ++ b ++ [125]) := by
  have hdrop : (a ++ [123] ++ b ++ [125] ++ c).dropWhile (fun x => x != 123)
      = [123] ++ b ++ [125] ++ c := by
    have : a ++ [123] ++ b ++ [125] ++ c = a ++ (123 :: (b ++ [125] ++ c)) := by simp
    rw [this, List.dropWhile_append_of_pos (fun x hx => by
      have : x ≠ 123 := fun h => ha (h ▸ hx)
      simpa using this)]
    simp
  have hrdrop : ([123] ++ b ++ [125] ++ c).rdropWhile (fun x => x != 125)
      = [123] ++ b ++ [125] := by
    induction c using List.reverseRecOn with
    | nil =>
      rw [List.append_nil]
      exact List.rdropWhile_concat_neg (fun x => x != 125) _ 125 (by simp)
    | append_singleton c' x ih =>
      have hx : x ≠ 125 := fun h => hc (by simp [h])
      have hc' : 125 ∉ c' := fun h => hc (by simp [h])
      rw [← List.append_assoc,
        List.rdropWhile_concat_pos (fun x => x != 125) _ x (by simpa using hx)]
      exact ih hc' (by
        have : a ++ [123] ++ b ++ [125] ++ c' = a ++ (123 :: (b ++ [125] ++ c')) := by simp
        rw [this, List.dropWhile_append_of_pos (fun x hx => by
          have : x ≠ 123 := fun h => ha (h ▸ hx)
          simpa using this)]
        simp)
  simp only [matchBraces, hdrop, hrdrop]
  simp

/-- A brace match is the part of the text from its first opening brace to its last
closing brace. -/
theorem matchBraces_some_decomp (s m : JsString) (h : matchBraces s = some m) :
    ∃ a b c, s = a ++ [123] ++ b ++ [125] ++ c ∧ m = [123] ++ b ++ [125] := by
  unfold matchBraces at h
  simp only at h
  split at h
  · exact absurd h (by simp)
  · rename_i hne
    simp only [Option.some.injEq] at h
    obtain ⟨c, hc⟩ : m <+: s.dropWhile (fun x => x != 123) := h ▸ List.rdropWhile_prefix _ _
    have hm : m ≠ [] := h ▸ hne
    have hlast : ¬ ((fun x => x != 125) (m.getLast hm)) = true := by
      subst h
      exact List.rdropWhile_last_not (fun x => x != 125) _ hne
    have hlast' : m.getLast hm = 125 := by simpa using hlast
    have hfrom : s.dropWhile (fun x => x != 123) ≠ [] := by
      intro hnil
      rw [hnil] at hc
      exact hm (List.append_eq_nil.mp hc).1
    have hhead := List.head_dropWhile_not (fun x => x != 123) s hfrom
    have hhead' : (s.dropWhile (fun x => x != 123)).head hfrom = 123 := by simpa using hhead
    cases m with
    | nil => exact absurd rfl hm
    | cons x t =>
      have hx : x = 123 := by
        have : (s.dropWhile (fun x => x != 123)).head hfrom = x := by
          simp [← hc]
        rw [← this, hhead']
      subst hx
      have ht : t ≠ [] := by
        intro hnil
        subst hnil
        simp at hlast'
      have htlast : t.getLast ht = 125 := by
        rw [← hlast', List.getLast_cons ht]
      refine ⟨s.takeWhile (fun x => x != 123), t.dropLast, c, ?_, ?_⟩
      · have hsplit := (List.takeWhile_append_dropWhile (fun x => x != 123) s).symm
        have ht' : t = t.dropLast ++ [125] := by
          conv_lhs => rw [← List.dropLast_concat_getLast ht, htlast]
        rw [← hc] at hsplit
        conv_lhs => rw [hsplit]
        conv_lhs => rw [ht']
        simp
      · have ht' : t = t.dropLast ++ [125] := by
          conv_lhs => rw [← List.dropLast_concat_getLast ht, htlast]
        conv_lhs => rw [ht']
        simp

/-- A text with no opening brace followed by a closing brace has no brace match. -/
theorem matchBraces_eq_none (s : JsString)
    (h : ¬ ∃ a b c : JsString, s = a ++ [123] ++ b ++ [125] ++ c) : matchBraces s = none := by
  cases hm : matchBraces s with
  | none => rfl
  | some m =>
    obtain ⟨a, b, c, hs, _⟩ := matchBraces_some_decomp s m hm
    exact absurd ⟨a, b, c, hs⟩ h

/-- The method `parseAnalysisResponse` on a string, by the brace match of the string. -/
theorem parseAnalysisResponse_some (jsonParse : JsString → Except JsError Json)
    (text : JsString) :
    parseAnalysisResponse jsonParse (some text)
      = match matchBraces text with
        | none => Except.ok (formatPlaceholder (some text))
        | some jsonMatch =>
          match jsonParse jsonMatch with
          | Except.ok v => Except.ok v
          | Except.error e => Except.ok (errorPlaceholder e (some text)) := by
  unfold parseAnalysisResponse
  simp only [matchBraces_cleanMarkdown_trim]
  cases matchBraces text with
  | none => rfl
  | some jsonMatch =>
    simp only [tryCatch]
    cases jsonParse jsonMatch <;> rfl

/-- The method `generateImprovementSuggestions` never throws. -/
theorem generateImprovementSuggestions_ok (jsonParse : JsString → Except JsError Json)
    (suggest : Json → ModelReply) (R : Json) :
    ∃ S, generateImprovementSuggestions jsonParse suggest R = Except.ok S := by
  unfold generateImprovementSuggestions tryCatch
  split
  · exact ⟨_, rfl⟩
  · exact ⟨_, rfl⟩

/-- The method `generateImprovementSuggestions` when the model call throws or its output
is no JSON: the fallback list. -/
theorem generateImprovementSuggestions_fallback (jsonParse : JsString → Except JsError Json)
    (suggest : Json → ModelReply) (R : Json)
    (hfail : (∃ e, suggest R = Except.error e) ∨
      (∃ text e, suggest R = Except.ok (some text) ∧
        jsonParse (cleanMarkdown (trim text)) = Except.error e)) :
    generateImprovementSuggestions jsonParse suggest R = Except.ok fallbackImprovements := by
  unfold generateImprovementSuggestions
  cases suggestionPrompt R with
  | error e => rfl
  | ok u =>
    rcases hfail with ⟨e, he⟩ | ⟨text, e, ht, he⟩
    · simp [he, tryCatch]
    · simp [ht, he, tryCatch]

/-! ## The claims on the language-model service -/

/-- C8: `parseAnalysisResponse` returns a result for every raw model output, a string or
`null`, and never throws.  On a string with no opening brace followed by a closing brace it
returns the placeholder with `overallScore` 50 and `complianceLevel` `Partially Compliant`;
on a string whose part from the first opening brace to the last closing brace is rejected
by `JSON.parse` it returns the placeholder with `overallScore` 0 and `complianceLevel`
`Analysis Error` (on `null` too); in each case `rawResponse` is the input itself. -/
theorem parseAnalysisResponse_total (jsonParse : JsString → Except JsError Json) :
    (∀ response : Option JsString,
      ∃ result, parseAnalysisResponse jsonParse response = Except.ok result) ∧
    (∀ text : JsString, (¬ ∃ a b c : JsString, text = a ++ [123] ++ b ++ [125] ++ c) →
      parseAnalysisResponse jsonParse (some text)
        = Except.ok (formatPlaceholder (some text))) ∧
    (∀ (a b c : JsString) (e : JsError), 123 ∉ a → 125 ∉ c →
      jsonParse ([123] ++ b ++ [125]) = Except.error e →
      parseAnalysisResponse jsonParse (some (a ++ [123] ++ b ++ [125] ++ c))
        = Except.ok (errorPlaceholder e (some (a ++ [123] ++ b ++ [125] ++ c)))) ∧
    (∃ e, parseAnalysisResponse jsonParse none = Except.ok (errorPlaceholder e none)) ∧
    (∀ text : JsString,
      (formatPlaceholder (some text)).field "overallScore" = some (Json.num 50) ∧
      (formatPlaceholder (some text)).field "complianceLevel"
        = some (Json.str (js "Partially Compliant")) ∧
      (formatPlaceholder (some text)).field "rawResponse" = some (Json.str text)) ∧
    (∀ (e : JsError) (text : JsString),
      (errorPlaceholder e (some text)).field "overallScore" = some (Json.num 0) ∧
      (errorPlaceholder e (some text)).field "complianceLevel"
        = some (Json.str (js "Analysis Error")) ∧
      (errorPlaceholder e (some text)).field "rawResponse" = some (Json.str text)) := by
  refine ⟨?_, ?_, ?_, ⟨_, rfl⟩, fun _ => ⟨rfl, rfl, rfl⟩, fun _ _ => ⟨rfl, rfl, rfl⟩⟩
  · intro response
    cases response with
    | none => exact ⟨_, rfl⟩
    | some text =>
      rw [parseAnalysisResponse_some]
      cases matchBraces text with
      | none => exact ⟨_, rfl⟩
      | some jsonMatch =>
        cases hparse : jsonParse jsonMatch with
        | ok v => exact ⟨v, by simp only [hparse]⟩
        | error e => exact ⟨errorPlaceholder e (some text), by simp only [hparse]⟩
  · intro text hno
    rw [parseAnalysisResponse_some, matchBraces_eq_none text hno]
  · intro a b c e ha hc hparse
    rw [parseAnalysisResponse_some, matchBraces_of_decomp a b c ha hc]
    simp only [hparse]

/-- C8, at a model output made of prose only. -/
theorem parseAnalysisResponse_total_witness :
    parseAnalysisResponse rejectingParse (some (js "The policy looks fine."))
      = Except.ok (formatPlaceholder (some (js "The policy looks fine."))) :=
  (parseAnalysisResponse_total rejectingParse).2.1 (js "The policy looks fine.")
    (by
      rintro ⟨a, b, c, h⟩
      have hmem : 123 ∈ js "The policy looks fine." := by
        rw [h]
        simp
      exact absurd hmem (by decide))

/-- C9 as stated fails: the assessment succeeds and the suggestion step fails, once because
the model call throws and once because its output is no JSON; in both runs the report
written has status `completed`, no error message, and the fallback list as improvements. -/
theorem suggestion_failure_report_completed :
    ((analyzeCompliance (ioService rejectingParse proseAssess throwingSuggest (Except.ok []))
        sampleEnv sampleStore (ReqValue.str "d1")).store.reports.get "r1").map
        (fun r => (r.status, r.error, r.improvements))
      = some ("completed", none, some fallbackImprovements) ∧
    ((analyzeCompliance (ioService rejectingParse proseAssess proseSuggest (Except.ok []))
        sampleEnv sampleStore (ReqValue.str "d1")).store.reports.get "r1").map
        (fun r => (r.status, r.error, r.improvements))
      = some ("completed", none, some fallbackImprovements) :=
  ⟨rfl, rfl⟩

/-- C9 as amended: for a stored document, if the assessment succeeds with `R` and the
suggestion step fails (the model call throws, or `JSON.parse` rejects its cleaned output),
`generateImprovementSuggestions` returns its fallback list and the report written for that
run has status `completed`, with analysis `R`, the fallback list as improvements and no
error message. -/
theorem suggestion_failure_completed_with_fallback
    (jsonParse : JsString → Except JsError Json) (assess : JsString → String → ModelReply)
    (suggest : Json → ModelReply) (list : Except JsError (List String)) (env : AnalyzeEnv)
    (st : Store) (documentId : String) (document : Document) (R : Json)
    (hid : documentId ≠ "") (hdoc : st.documents.get documentId = some document)
    (hR : analyzeGDPRCompliance jsonParse assess document.content document.metadata.filename
      = Except.ok R)
    (hfail : (∃ e, suggest R = Except.error e) ∨
      (∃ text e, suggest R = Except.ok (some text) ∧
        jsonParse (cleanMarkdown (trim text)) = Except.error e)) :
    generateImprovementSuggestions jsonParse suggest R = Except.ok fallbackImprovements ∧
    (analyzeCompliance (ioService jsonParse assess suggest list) env st
        (ReqValue.str documentId)).store.reports.get env.uuid
      = some { id := env.uuid, documentId := documentId,
               documentName := some document.metadata.filename,
               analysis := some R, improvements := some fallbackImprovements,
               status := "completed", error := none, createdAt := env.createdAt,
               completedAt := some env.completedAt } := by
  have hS := generateImprovementSuggestions_fallback jsonParse suggest R hfail
  refine ⟨hS, ?_⟩
  rw [analyzeCompliance_stored _ env st documentId document hid hdoc,
    analyzeBackground_success (ioService jsonParse assess suggest list) env st
      ⟨documentId, document, env.uuid⟩ R fallbackImprovements hR hS]
  simp [JsMap.get_set_self, completedReport]

/-- C9 as amended, at the sample run whose suggestion call throws. -/
theorem suggestion_failure_completed_with_fallback_witness :
    generateImprovementSuggestions rejectingParse throwingSuggest
        (formatPlaceholder (some (js "The policy looks fine.")))
      = Except.ok fallbackImprovements ∧
    (analyzeCompliance (ioService rejectingParse proseAssess throwingSuggest (Except.ok []))
        sampleEnv sampleStore (ReqValue.str "d1")).store.reports.get "r1"
      = some { id := "r1", documentId := "d1", documentName := some "policy.txt",
               analysis := some (formatPlaceholder (some (js "The policy looks fine."))),
               improvements := some fallbackImprovements,
               status := "completed", error := none,
               createdAt := "2024-01-01T00:01:00.000Z",
               completedAt := some "2024-01-01T00:01:00.001Z" } :=
  suggestion_failure_completed_with_fallback rejectingParse proseAssess throwingSuggest
    (Except.ok []) sampleEnv sampleStore "d1" sampleDocument
    (formatPlaceholder (some (js "The policy looks fine."))) (by decide) rfl rfl
    (Or.inl ⟨_, rfl⟩)

/-! ## Lemmas on `validateDocumentContent` -/

/-- The trimmed text is empty exactly when the text is made of white space only. -/
theorem trim_eq_nil_iff (s : JsString) :
    trim s = [] ↔ ∀ c ∈ s, isWhiteSpace c = true := by
  unfold trim
  rw [List.rdropWhile_eq_nil_iff]
  constructor
  · intro h
    by_cases hnil : s.dropWhile isWhiteSpace = []
    · exact List.dropWhile_eq_nil_iff.mp hnil
    · have hhead := List.head_dropWhile_not isWhiteSpace s hnil
      have hmem := h _ (List.head_mem hnil)
      rw [hhead] at hmem
      exact absurd hmem (by simp)
  · intro h c hc
    have hnil : s.dropWhile isWhiteSpace = [] := List.dropWhile_eq_nil_iff.mpr h
    rw [hnil] at hc
    exact absurd hc (List.not_mem_nil c)

/-- The first test of `validateDocumentContent` fails on a text that holds a code unit
which is not white space. -/
theorem not_blank_of_mem {content : JsString}
    (h : ∃ c ∈ content, isWhiteSpace c = false) :
    ¬ (content = [] ∨ (trim content).length = 0) := by
  obtain ⟨c, hc, hws⟩ := h
  rintro (hnil | hlen)
  · rw [hnil] at hc
    exact absurd hc (List.not_mem_nil c)
  · have htrim : trim content = [] := List.length_eq_zero.mp hlen
    have := (trim_eq_nil_iff content).mp htrim c hc
    rw [hws] at this
    exact absurd this (by simp)

/-- The result of `validateDocumentContent` on a text that is not blank. -/
theorem validateDocumentContent_of_not_blank {content : JsString}
    (h : ∃ c ∈ content, isWhiteSpace c = false) :
    validateDocumentContent content
      = if content.length < minLength then
          { valid := false,
            error := some "Document too short for meaningful analysis (minimum 100 characters)",
            wordCount := none, characterCount := none }
        else if content.length > maxLength then
          { valid := false,
            error := some
              "Document too long for analysis (maximum 50000 characters). Please split into smaller sections.",
            wordCount := none, characterCount := none }
        else
          { valid := true, error := none,
            wordCount := some (splitWhiteSpace content).length,
            characterCount := some content.length } := by
  unfold validateDocumentContent
  rw [if_neg (not_blank_of_mem h)]

/-! ## The claims on `validateDocumentContent` -/

/-- C12: `validateDocumentContent` returns `valid = false` for every text of fewer than 100
characters and for every text of more than 50,000 characters. -/
theorem validateDocumentContent_rejects_outside (content : JsString) :
    (content.length < 100 → (validateDocumentContent content).valid = false) ∧
    (content.length > 50000 → (validateDocumentContent content).valid = false) := by
  unfold validateDocumentContent minLength maxLength
  constructor
  · intro h
    split_ifs <;> rfl
  · intro h
    split_ifs <;> rfl

/-- C12, at a text of five characters. -/
theorem validateDocumentContent_rejects_outside_witness :
    (validateDocumentContent (js "short")).valid = false :=
  (validateDocumentContent_rejects_outside (js "short")).1 (by decide)

/-- C13 as stated fails: a text of 101 spaces has a length strictly between 100 and 50,000
and `validateDocumentContent` returns `valid = false` for it, with the error of an empty
document. -/
theorem validateDocumentContent_blank_rejected :
    (List.replicate 101 32).length = 101 ∧
    (validateDocumentContent (List.replicate 101 32)).valid = false ∧
    (validateDocumentContent (List.replicate 101 32)).error
      = some "Document appears to be empty or unreadable" :=
  ⟨by rfl, by rfl, by rfl⟩

/-- C13 as amended: for every text that is not made of white space only and whose length
is between 100 and 50,000 characters (the bounds included, hence also strictly between
them), `validateDocumentContent` returns `valid = true`. -/
theorem validateDocumentContent_accepts (content : JsString)
    (hnot : ∃ c ∈ content, isWhiteSpace c = false)
    (hmin : 100 ≤ content.length) (hmax : content.length ≤ 50000) :
    (validateDocumentContent content).valid = true := by
  rw [validateDocumentContent_of_not_blank hnot]
  unfold minLength maxLength
  rw [if_neg (by omega), if_neg (by omega)]

/-- C13 as amended, at a text of 100 letters `a`. -/
theorem validateDocumentContent_accepts_witness :
    (validateDocumentContent (List.replicate 100 97)).valid = true :=
  validateDocumentContent_accepts (List.replicate 100 97)
    ⟨97, List.mem_replicate.mpr ⟨by decide, rfl⟩, by decide⟩
    (by rw [List.length_replicate]) (by rw [List.length_replicate]; decide)

/-- C14 as stated fails: the letter `a` followed by 120 spaces is not made of white space
only and its trimmed length is 1, yet `validateDocumentContent` accepts it, with no
error. -/
theorem validateDocumentContent_padded_accepted :
    (trim (97 :: List.replicate 120 32)).length = 1 ∧
    (validateDocumentContent (97 :: List.replicate 120 32)).valid = true ∧
    (validateDocumentContent (97 :: List.replicate 120 32)).error = none :=
  ⟨by rfl, by rfl, by rfl⟩

/-- C14 as amended: for every text that is not made of white space only,
`validateDocumentContent` fails with the too-short error exactly when the length of the
text as given, white space around it included, is less than 100. -/
theorem validateDocumentContent_too_short_iff (content : JsString)
    (hnot : ∃ c ∈ content, isWhiteSpace c = false) :
    (validateDocumentContent content).error
        = some "Document too short for meaningful analysis (minimum 100 characters)"
      ↔ content.length < 100 := by
  rw [validateDocumentContent_of_not_blank hnot]
  unfold minLength maxLength
  constructor
  · intro h
    by_contra hlt
    rw [if_neg hlt] at h
    split_ifs at h
    simp at h
  · intro h
    rw [if_pos h]

/-- C14 as amended, at a text of five characters. -/
theorem validateDocumentContent_too_short_iff_witness :
    (validateDocumentContent (js "short")).error
      = some "Document too short for meaningful analysis (minimum 100 characters)" :=
  (validateDocumentContent_too_short_iff (js "short") ⟨115, by decide, by decide⟩).2
    (by decide)

/-- C15, the code at the failing input: the sample policy text, 103 characters that end
with a line feed, is accepted; it has 17 white-space-delimited tokens and the returned
`wordCount` is 18; `characterCount` is its length. -/
theorem validateDocumentContent_wordCount_off_by_one :
    (validateDocumentContent policyText).valid = true ∧
    countTokens policyText = 17 ∧
    (validateDocumentContent policyText).wordCount = some 18 ∧
    (validateDocumentContent policyText).characterCount = some policyText.length :=
  ⟨rfl, rfl, rfl, rfl⟩

/-! ## Lemmas on the lengths of the steps of `preprocessContent` -/

theorem collapseFrom_length_le (inRun : Bool) (s : JsString) :
    (collapseFrom inRun s).length ≤ s.length := by
  induction s generalizing inRun with
  | nil => simp [collapseFrom]
  | cons c rest ih =>
    unfold collapseFrom
    split_ifs
    · exact Nat.le_succ_of_le (ih true)
    · simpa using ih true
    · simpa using ih false

theorem replaceCrLf_length_le (s : JsString) : (replaceCrLf s).length ≤ s.length := by
  induction s using replaceCrLf.induct with
  | case1 => simp [replaceCrLf]
  | case2 c => simp [replaceCrLf]
  | case3 c d rest h ih =>
    rw [replaceCrLf, if_pos h]
    simp only [List.length_cons]
    omega
  | case4 c d rest h ih =>
    rw [replaceCrLf, if_neg h]
    simp only [List.length_cons] at ih ⊢
    omega

theorem removePageMarkersFrom_length_le (skip : Nat) (s : JsString) :
    (removePageMarkersFrom skip s).length ≤ s.length := by
  induction s generalizing skip with
  | nil => simp [removePageMarkersFrom]
  | cons c rest ih =>
    cases skip with
    | succ k =>
      rw [removePageMarkersFrom]
      exact Nat.le_succ_of_le (ih k)
    | zero =>
      rw [removePageMarkersFrom]
      split
      · exact Nat.le_succ_of_le (ih _)
      · simpa using ih 0

theorem removeNumberLinesFrom_length_le (atLineStart : Bool) (skip : Nat) (s : JsString) :
    (removeNumberLinesFrom atLineStart skip s).length ≤ s.length := by
  induction s generalizing atLineStart skip with
  | nil => simp [removeNumberLinesFrom]
  | cons c rest ih =>
    cases skip with
    | succ k =>
      rw [removeNumberLinesFrom]
      exact Nat.le_succ_of_le (ih _ k)
    | zero =>
      rw [removeNumberLinesFrom]
      split
      · exact Nat.le_succ_of_le (ih _ _)
      · simpa using ih _ 0

theorem trim_length_le (s : JsString) : (trim s).length ≤ s.length := by
  unfold trim
  exact Nat.le_trans (List.rdropWhile_prefix _ _).length_le (List.dropWhile_suffix _).length_le

/-- The method `preprocessContent` never lengthens its argument. -/
theorem preprocessContent_length_le (content : JsString) :
    (preprocessContent content).length ≤ content.length := by
  unfold preprocessContent
  simp only
  calc (trim (removeNumberLines (removePageMarkers (replaceCr (replaceCrLf
          (replaceFormFeeds (collapseWhiteSpace content))))))).length
      ≤ (removeNumberLines (removePageMarkers (replaceCr (replaceCrLf
          (replaceFormFeeds (collapseWhiteSpace content)))))).length := trim_length_le _
    _ ≤ (removePageMarkers (replaceCr (replaceCrLf
          (replaceFormFeeds (collapseWhiteSpace content))))).length :=
        removeNumberLinesFrom_length_le _ _ _
    _ ≤ (replaceCr (replaceCrLf (replaceFormFeeds (collapseWhiteSpace content)))).length :=
        removePageMarkersFrom_length_le _ _
    _ = (replaceCrLf (replaceFormFeeds (collapseWhiteSpace content))).length := by
        simp [replaceCr]
    _ ≤ (replaceFormFeeds (collapseWhiteSpace content)).length := replaceCrLf_length_le _
    _ = (collapseWhiteSpace content).length := by simp [replaceFormFeeds]
    _ ≤ content.length := collapseFrom_length_le _ _

/-- A text that `validateDocumentContent` accepts has between 100 and 50,000 characters. -/
theorem validateDocumentContent_valid_bounds (content : JsString)
    (h : (validateDocumentContent content).valid = true) :
    100 ≤ content.length ∧ content.length ≤ 50000 := by
  unfold validateDocumentContent minLength maxLength at h
  split_ifs at h
  omega

/-! ## The claims on the upload -/

/-- The four outcomes of `uploadDocument`. -/
theorem uploadDocument_outcome (ds : DocumentService) (uuid now1 now2 : String) (st : Store)
    (file : Option UploadedFile) :
    uploadDocument ds uuid now1 now2 st file
      = match file with
        | none =>
          ⟨st, [Event.respond (Response.error 400 "No file uploaded"
            (some "Please select a document to upload"))]⟩
        | some f =>
          match ds.extractTextFromDocument f.buffer f.mimetype f.originalname with
          | Except.error e =>
            ⟨st, [Event.respond
              (Response.error 500 "Document processing failed" (some e.message))]⟩
          | Except.ok content =>
            if (ds.validateDocumentContent content).valid = false then
              ⟨st, [Event.respond (Response.error 400 "Invalid document content"
                (ds.validateDocumentContent content).error)]⟩
            else
              ⟨⟨st.reports, st.documents.set uuid
                  ⟨uuid, ds.preprocessContent content,
                    ds.getDocumentMetadata f.originalname f.mimetype f.size
                      (ds.preprocessContent content) now1, now2⟩⟩,
               [Event.documentsSet uuid,
                Event.respond (Response.uploaded uuid
                  (ds.getDocumentMetadata f.originalname f.mimetype f.size
                    (ds.preprocessContent content) now1)
                  "Document uploaded and processed successfully")]⟩ := by
  unfold uploadDocument
  cases file with
  | none => rfl
  | some f =>
    cases ds.extractTextFromDocument f.buffer f.mimetype f.originalname with
    | error e => rfl
    | ok content => rfl

/-- C16 as stated fails: a plain-text file of 100 bytes, the letter `a` and 99 spaces, is
accepted, and the record that `uploadDocument` stores for it has a content of one
character. -/
theorem uploadDocument_stores_short_content :
    ((uploadDocument (documentService sampleParsers) "d2" "2024-01-01T00:00:00.000Z"
        "2024-01-01T00:00:00.001Z" Store.initial (some paddedFile)).store.documents.get
        "d2").map (fun d => d.content) = some [97] ∧
    (validateDocumentContent (sampleParsers.utf8 paddedFile.buffer)).valid = true ∧
    (sampleParsers.utf8 paddedFile.buffer).length = 100 :=
  ⟨by rfl, by rfl, by rfl⟩

/-- C16 as amended: `uploadDocument` either leaves the store as it was or stores, under the
new identifier, a record whose content is the preprocessed form of an extracted text of
at least 100 and at most 50,000 characters; the stored content has at most 50,000
characters. -/
theorem uploadDocument_content_bound (ps : Parsers) (uuid now1 now2 : String) (st : Store)
    (file : Option UploadedFile) :
    (uploadDocument (documentService ps) uuid now1 now2 st file).store = st ∨
    ∃ (text : JsString) (d : Document),
      (uploadDocument (documentService ps) uuid now1 now2 st file).store
        = ⟨st.reports, st.documents.set uuid d⟩ ∧
      d.content = preprocessContent text ∧
      100 ≤ text.length ∧ text.length ≤ 50000 ∧ d.content.length ≤ 50000 := by
  rw [uploadDocument_outcome]
  cases file with
  | none => left; rfl
  | some f =>
    simp only
    cases hx : (documentService ps).extractTextFromDocument f.buffer f.mimetype f.originalname with
    | error e => left; rfl
    | ok content =>
      simp only
      by_cases hv : ((documentService ps).validateDocumentContent content).valid = false
      · left
        rw [if_pos hv]
      · right
        rw [if_neg hv]
        have hvalid : (validateDocumentContent content).valid = true := by
          simpa [documentService] using hv
        have hb := validateDocumentContent_valid_bounds content hvalid
        exact ⟨content, _, rfl, rfl, hb.1, hb.2,
          Nat.le_trans (preprocessContent_length_le content) hb.2⟩

/-- C17: a file whose declared media type is not one of the four allowed ones is rejected
by the file filter; the route answers with what `errorHandler` makes of that error, 400
with error `Invalid file type`; `uploadDocument` is not run, the document store is not
written and the store is as it was. -/
theorem uploadRoute_rejects_unsupported (ds : DocumentService) (uuid now1 now2 : String)
    (st : Store) (f : UploadedFile) (h : f.mimetype ∉ allowedTypes) :
    fileFilter f = Except.error
      ⟨"Error", "Invalid file type. Only PDF, DOC, DOCX, and TXT files are allowed."⟩ ∧
    (uploadRoute ds uuid now1 now2 st (some f)).trace
      = [Event.respond (Response.error 400 "Invalid file type"
          (some "Only PDF, DOC, DOCX, and TXT files are allowed"))] ∧
    (uploadRoute ds uuid now1 now2 st (some f)).trace.any Event.isDocumentsSet = false ∧
    (uploadRoute ds uuid now1 now2 st (some f)).store = st := by
  have hf : fileFilter f = Except.error
      ⟨"Error", "Invalid file type. Only PDF, DOC, DOCX, and TXT files are allowed."⟩ := by
    unfold fileFilter
    rw [if_neg h]
  have hr : uploadRoute ds uuid now1 now2 st (some f)
      = ⟨st, [Event.respond (Response.error 400 "Invalid file type"
          (some "Only PDF, DOC, DOCX, and TXT files are allowed"))]⟩ := by
    unfold uploadRoute
    simp only [hf]
    rfl
  refine ⟨hf, ?_, ?_, ?_⟩
  · rw [hr]
  · rw [hr]
    rfl
  · rw [hr]

/-- C17, at a file declared as `image/png`. -/
theorem uploadRoute_rejects_unsupported_witness :
    (uploadRoute (documentService sampleParsers) "d2" "2024-01-01T00:00:00.000Z"
        "2024-01-01T00:00:00.001Z" sampleStore (some pngFile)).trace
      = [Event.respond (Response.error 400 "Invalid file type"
          (some "Only PDF, DOC, DOCX, and TXT files are allowed"))] :=
  (uploadRoute_rejects_unsupported (documentService sampleParsers) "d2"
    "2024-01-01T00:00:00.000Z" "2024-01-01T00:00:00.001Z" sampleStore pngFile
    (by decide)).2.1

/-- C18: a run of `uploadDocument` writes the document store exactly when its response is
the success body, and then the record is stored under the identifier of the response;
without a file it answers 400 `No file uploaded`, on content that fails validation 400
`Invalid document content` with the message of the validation, on an extraction failure
500 with the message of the error, and in these three cases the store is as it was. -/
theorem uploadDocument_cases (ds : DocumentService) (uuid now1 now2 : String) (st : Store)
    (file : Option UploadedFile) :
    ((responseOf (uploadDocument ds uuid now1 now2 st file).trace).map Response.isUploaded
        = some true
      ↔ (uploadDocument ds uuid now1 now2 st file).trace.any Event.isDocumentsSet = true) ∧
    ((uploadDocument ds uuid now1 now2 st file).trace.any Event.isDocumentsSet = false →
      (uploadDocument ds uuid now1 now2 st file).store = st) ∧
    ((uploadDocument ds uuid now1 now2 st file).trace.any Event.isDocumentsSet = true →
      ∃ metadata message record,
        responseOf (uploadDocument ds uuid now1 now2 st file).trace
          = some (Response.uploaded uuid metadata message) ∧
        record.metadata = metadata ∧
        (uploadDocument ds uuid now1 now2 st file).store.documents.get uuid = some record ∧
        (uploadDocument ds uuid now1 now2 st file).store.reports = st.reports) ∧
    (file = none →
      uploadDocument ds uuid now1 now2 st file
        = ⟨st, [Event.respond (Response.error 400 "No file uploaded"
            (some "Please select a document to upload"))]⟩) ∧
    (∀ f e, file = some f →
      ds.extractTextFromDocument f.buffer f.mimetype f.originalname = Except.error e →
      uploadDocument ds uuid now1 now2 st file
        = ⟨st, [Event.respond
            (Response.error 500 "Document processing failed" (some e.message))]⟩) ∧
    (∀ f content, file = some f →
      ds.extractTextFromDocument f.buffer f.mimetype f.originalname = Except.ok content →
      (ds.validateDocumentContent content).valid = false →
      uploadDocument ds uuid now1 now2 st file
        = ⟨st, [Event.respond (Response.error 400 "Invalid document content"
            (ds.validateDocumentContent content).error)]⟩) := by
  cases file with
  | none =>
    have hcase := uploadDocument_outcome ds uuid now1 now2 st none
    simp only at hcase
    rw [hcase]
    refine ⟨(by simp [responseOf, Response.isUploaded, Event.isDocumentsSet]), (fun _ => rfl),
      (fun h => by simp [Event.isDocumentsSet] at h), fun _ => rfl, ?_, ?_⟩
    · intro f e hf
      cases hf
    · intro f content hf
      cases hf
  | some f =>
    have hout := uploadDocument_outcome ds uuid now1 now2 st (some f)
    simp only at hout
    cases hx : ds.extractTextFromDocument f.buffer f.mimetype f.originalname with
    | error e =>
      rw [hx] at hout
      simp only at hout
      rw [hout]
      refine ⟨(by simp [responseOf, Response.isUploaded, Event.isDocumentsSet]), (fun _ => rfl),
        (fun h => by simp [Event.isDocumentsSet] at h), (fun h => by cases h), ?_, ?_⟩
      · intro f' e' hf he
        cases hf
        rw [hx] at he
        cases he
        rfl
      · intro f' content hf he
        cases hf
        rw [hx] at he
        cases he
    | ok content =>
      rw [hx] at hout
      simp only at hout
      by_cases hv : (ds.validateDocumentContent content).valid = false
      · rw [if_pos hv] at hout
        rw [hout]
        refine ⟨(by simp [responseOf, Response.isUploaded, Event.isDocumentsSet]), (fun _ => rfl),
          (fun h => by simp [Event.isDocumentsSet] at h), (fun h => by cases h), ?_, ?_⟩
        · intro f' e' hf he
          cases hf
          rw [hx] at he
          cases he
        · intro f' content' hf he _
          cases hf
          rw [hx] at he
          cases he
          rfl
      · rw [if_neg hv] at hout
        rw [hout]
        refine ⟨(by simp [responseOf, Response.isUploaded, Event.isDocumentsSet]),
          fun h => by simp [Event.isDocumentsSet] at h,
          fun _ => ⟨_, _, _, rfl, rfl, JsMap.get_set_self _ _ _, rfl⟩,
          (fun h => by cases h), ?_, ?_⟩
        · intro f' e' hf he
          cases hf
          rw [hx] at he
          cases he
        · intro f' content' hf he hv'
          cases hf
          rw [hx] at he
          cases he
          exact absurd hv' hv

/-- C18, at a request that carries no file. -/
theorem uploadDocument_cases_witness :
    uploadDocument (documentService sampleParsers) "d2" "2024-01-01T00:00:00.000Z"
        "2024-01-01T00:00:00.001Z" sampleStore none
      = ⟨sampleStore, [Event.respond (Response.error 400 "No file uploaded"
          (some "Please select a document to upload"))]⟩ :=
  (uploadDocument_cases (documentService sampleParsers) "d2" "2024-01-01T00:00:00.000Z"
    "2024-01-01T00:00:00.001Z" sampleStore none).2.2.2.1 rfl

/-! ## Lemmas on the poller -/

/-- A run of `poll` whose read settles the promise. -/
theorem poll_stop (maxAttempts : Int) (reads : Nat → ReadOutcome) (fuel attempts : Nat)
    (outcome : PollOutcome) (h : pollStep (reads attempts) = Sum.inl outcome) :
    poll maxAttempts reads (fuel + 1) attempts = some ⟨attempts + 1, outcome⟩ := by
  simp [poll, h]

/-- A run of `poll` that schedules the next one. -/
theorem poll_again (maxAttempts : Int) (reads : Nat → ReadOutcome) (fuel attempts : Nat)
    (giveUp : JsError) (h : pollStep (reads attempts) = Sum.inr giveUp)
    (hcap : ((attempts + 1 : Nat) : Int) < maxAttempts) :
    poll maxAttempts reads (fuel + 1) attempts = poll maxAttempts reads fuel (attempts + 1) := by
  simp only [poll, h]
  rw [if_pos hcap]

/-- A run of `poll` that gives up: the counter has reached the cap. -/
theorem poll_giveUp (maxAttempts : Int) (reads : Nat → ReadOutcome) (fuel attempts : Nat)
    (giveUp : JsError) (h : pollStep (reads attempts) = Sum.inr giveUp)
    (hcap : ¬ ((attempts + 1 : Nat) : Int) < maxAttempts) :
    poll maxAttempts reads (fuel + 1) attempts
      = some ⟨attempts + 1, PollOutcome.rejected giveUp⟩ := by
  simp only [poll, h]
  rw [if_neg hcap]

/-- A read that is not terminal does not settle the promise. -/
theorem pollStep_of_not_terminal (r : ReadOutcome) (h : r.isTerminal = false) :
    ∃ giveUp, pollStep r = Sum.inr giveUp := by
  cases r with
  | threw e => exact ⟨e, rfl⟩
  | body success report =>
    cases success with
    | false => exact ⟨_, rfl⟩
    | true =>
      cases report with
      | none => exact ⟨_, rfl⟩
      | some report =>
        simp only [ReadOutcome.isTerminal, Bool.or_eq_false_iff, decide_eq_false_iff_not] at h
        exact ⟨⟨"Error", "Analysis timed out"⟩, by simp [pollStep, h.1, h.2]⟩

/-- A read of a report that is neither completed nor failed leads to the time-out error. -/
theorem pollStep_of_pending (report : Report) (h₁ : report.status ≠ "completed")
    (h₂ : report.status ≠ "failed") :
    pollStep (ReadOutcome.body true (some report)) = Sum.inr ⟨"Error", "Analysis timed out"⟩ := by
  simp [pollStep, h₁, h₂]

/-- Over `n` reads that do not settle the promise, all below the cap, `poll` moves on by
`n` runs. -/
theorem poll_advance (maxAttempts : Int) (reads : Nat → ReadOutcome) (n fuel attempts : Nat)
    (hreads : ∀ i, attempts ≤ i → i < attempts + n → ∃ giveUp, pollStep (reads i) = Sum.inr giveUp)
    (hcap : n = 0 ∨ ((attempts + n : Nat) : Int) < maxAttempts) :
    poll maxAttempts reads (fuel + n) attempts = poll maxAttempts reads fuel (attempts + n) := by
  induction n generalizing attempts with
  | zero => rfl
  | succ m ih =>
    have hcap' : ((attempts + (m + 1) : Nat) : Int) < maxAttempts := by
      rcases hcap with h | h
      · omega
      · exact h
    obtain ⟨giveUp, hstep⟩ := hreads attempts (Nat.le_refl _) (by omega)
    have hfuel : fuel + (m + 1) = (fuel + m) + 1 := by omega
    rw [hfuel, poll_again maxAttempts reads (fuel + m) attempts giveUp hstep (by omega)]
    have hnext := ih (attempts + 1)
      (fun i h₁ h₂ => hreads i (by omega) (by omega))
      (Or.inr (by
        have : attempts + 1 + m = attempts + (m + 1) := by omega
        rw [this]
        exact hcap'))
    rw [hnext]
    have : attempts + 1 + m = attempts + (m + 1) := by omega
    rw [this]

/-- The poller settles at the first read that settles the promise, when that read is within
the cap. -/
theorem pollForAnalysis_first_settling (reads : Nat → ReadOutcome) (maxAttempts : Int)
    (k : Nat) (outcome : PollOutcome)
    (hcap : k = 0 ∨ (k : Int) < maxAttempts)
    (hbefore : ∀ i, i < k → (reads i).isTerminal = false)
    (hread : pollStep (reads k) = Sum.inl outcome) :
    pollForAnalysis reads maxAttempts = some ⟨k + 1, outcome⟩ := by
  unfold pollForAnalysis
  have hk : k ≤ maxAttempts.toNat := by
    rcases hcap with h | h
    · omega
    · omega
  obtain ⟨fuel, hfuel⟩ : ∃ fuel, maxAttempts.toNat + 1 = (fuel + 1) + k := ⟨maxAttempts.toNat - k, by omega⟩
  rw [hfuel, poll_advance maxAttempts reads k (fuel + 1) 0
    (fun i _ h => pollStep_of_not_terminal _ (hbefore i (by omega)))
    (by
      rcases hcap with h | h
      · exact Or.inl h
      · exact Or.inr (by simpa using h))]
  rw [Nat.zero_add]
  exact poll_stop maxAttempts reads fuel k outcome hread

/-- The poller gives up after `n` reads when none of them settles the promise and `n` is
the cap. -/
theorem pollForAnalysis_exhausted (reads : Nat → ReadOutcome) (n : Nat) (giveUp : JsError)
    (hreads : ∀ i, i < n → ∃ e, pollStep (reads i) = Sum.inr e)
    (hlast : pollStep (reads n) = Sum.inr giveUp) :
    pollForAnalysis reads ((n + 1 : Nat) : Int)
      = some ⟨n + 1, PollOutcome.rejected giveUp⟩ := by
  unfold pollForAnalysis
  have htoNat : (((n + 1 : Nat) : Int)).toNat + 1 = (0 + 1) + (n + 1) := by
    simp
    omega
  have hsplit : (0 + 1) + (n + 1) = (1 + 1) + n := by omega
  rw [htoNat, hsplit, poll_advance _ reads n (1 + 1) 0
    (fun i _ h => hreads i (by omega))
    (by
      by_cases hn : n = 0
      · exact Or.inl hn
      · exact Or.inr (by push_cast; omega))]
  rw [Nat.zero_add]
  exact poll_giveUp _ reads 1 n giveUp hlast (by push_cast; omega)

/-! ## The claims on the poller -/

/-- C19 as stated fails: a server-reported `failed` report whose error message is
`Analysis timed out` makes the poller settle exactly as the local time-out does, with a
rejection by an `Error` of that message. -/
theorem pollForAnalysis_timeout_not_distinct :
    timedOutReport.status = "failed" ∧
    pollForAnalysis (fun _ => ReadOutcome.body true (some timedOutReport)) defaultMaxAttempts
      = some ⟨1, PollOutcome.rejected ⟨"Error", "Analysis timed out"⟩⟩ ∧
    pollForAnalysis (fun _ => ReadOutcome.body true (some processingReport)) defaultMaxAttempts
      = some ⟨30, PollOutcome.rejected ⟨"Error", "Analysis timed out"⟩⟩ :=
  ⟨rfl, rfl, rfl⟩

/-- C19 as amended: if every read returns a report with status `processing`,
`pollForAnalysis` with its default arguments makes exactly 30 reads and then rejects with
the `Error` `Analysis timed out`; a run that ends on a server-reported `failed` report
settles otherwise whenever the message it rejects with, the error of the report or
`Analysis failed`, is not itself `Analysis timed out`. -/
theorem pollForAnalysis_times_out (reads : Nat → ReadOutcome)
    (hprocessing : ∀ i, ∃ report, reads i = ReadOutcome.body true (some report) ∧
      report.status = "processing") :
    pollForAnalysis reads defaultMaxAttempts
      = some ⟨30, PollOutcome.rejected ⟨"Error", "Analysis timed out"⟩⟩ ∧
    (∀ (reads' : Nat → ReadOutcome) (k : Nat) (report : Report),
      (k : Int) < defaultMaxAttempts → (∀ i, i < k → (reads' i).isTerminal = false) →
      reads' k = ReadOutcome.body true (some report) → report.status = "failed" →
      failureMessage report ≠ "Analysis timed out" →
      (pollForAnalysis reads' defaultMaxAttempts).map (fun run => run.outcome)
        ≠ (pollForAnalysis reads defaultMaxAttempts).map (fun run => run.outcome)) := by
  have hstep : ∀ i, pollStep (reads i) = Sum.inr ⟨"Error", "Analysis timed out"⟩ := by
    intro i
    obtain ⟨report, hread, hstatus⟩ := hprocessing i
    rw [hread]
    exact pollStep_of_pending report (by rw [hstatus]; decide) (by rw [hstatus]; decide)
  have htimeout : pollForAnalysis reads defaultMaxAttempts
      = some ⟨30, PollOutcome.rejected ⟨"Error", "Analysis timed out"⟩⟩ :=
    pollForAnalysis_exhausted reads 29 ⟨"Error", "Analysis timed out"⟩
      (fun i _ => ⟨_, hstep i⟩) (hstep 29)
  refine ⟨htimeout, ?_⟩
  intro reads' k report hk hbefore hread hfailed hmessage
  have hsettle : pollStep (reads' k)
      = Sum.inl (PollOutcome.rejected ⟨"Error", failureMessage report⟩) := by
    rw [hread]
    simp [pollStep, hfailed]
  rw [pollForAnalysis_first_settling reads' defaultMaxAttempts k _ (Or.inr hk) hbefore hsettle,
    htimeout]
  simp only [Option.map_some', ne_eq, Option.some.injEq, PollOutcome.rejected.injEq,
    JsError.mk.injEq, true_and]
  exact hmessage

/-- C19 as amended, at the sequence of reads that always returns the processing report. -/
theorem pollForAnalysis_times_out_witness :
    pollForAnalysis (fun _ => ReadOutcome.body true (some processingReport)) defaultMaxAttempts
      = some ⟨30, PollOutcome.rejected ⟨"Error", "Analysis timed out"⟩⟩ :=
  (pollForAnalysis_times_out (fun _ => ReadOutcome.body true (some processingReport))
    (fun _ => ⟨processingReport, rfl, rfl⟩)).1

/-- C20: when read number `k` (counted from 0, within the cap: the first read, or
`k < maxAttempts`) is the first that returns a report with status `completed` or `failed`,
`pollForAnalysis` makes `k + 1` reads, none after that one, and settles there: it resolves
with the report when its status is `completed`, and rejects with the error message of the
report, or with `Analysis failed` when that message is absent or empty, when the status is
`failed`. -/
theorem pollForAnalysis_stops_at_first_terminal (reads : Nat → ReadOutcome)
    (maxAttempts : Int) (k : Nat) (report : Report)
    (hcap : k = 0 ∨ (k : Int) < maxAttempts)
    (hbefore : ∀ i, i < k → (reads i).isTerminal = false)
    (hread : reads k = ReadOutcome.body true (some report)) :
    (report.status = "completed" →
      pollForAnalysis reads maxAttempts = some ⟨k + 1, PollOutcome.resolved report⟩) ∧
    (report.status = "failed" →
      pollForAnalysis reads maxAttempts
        = some ⟨k + 1, PollOutcome.rejected ⟨"Error", failureMessage report⟩⟩) ∧
    (report.error = none ∨ report.error = some "" → failureMessage report = "Analysis failed") ∧
    (∀ message, message ≠ "" → report.error = some message →
      failureMessage report = message) := by
  refine ⟨?_, ?_, ?_, ?_⟩
  · intro hstatus
    apply pollForAnalysis_first_settling reads maxAttempts k _ hcap hbefore
    rw [hread]
    simp [pollStep, hstatus]
  · intro hstatus
    apply pollForAnalysis_first_settling reads maxAttempts k _ hcap hbefore
    rw [hread]
    simp [pollStep, hstatus]
  · rintro (h | h) <;> simp [failureMessage, h]
  · intro message hne h
    simp [failureMessage, h, hne]

/-- C20, at a sequence of three failing reads followed by the completed sample report. -/
theorem pollForAnalysis_stops_at_first_terminal_witness :
    pollForAnalysis
        (fun i => if i < 3 then ReadOutcome.threw ⟨"AxiosError", "Request failed with status code 404"⟩
          else ReadOutcome.body true (some sampleReport)) defaultMaxAttempts
      = some ⟨4, PollOutcome.resolved sampleReport⟩ :=
  (pollForAnalysis_stops_at_first_terminal
    (fun i => if i < 3 then ReadOutcome.threw ⟨"AxiosError", "Request failed with status code 404"⟩
      else ReadOutcome.body true (some sampleReport)) defaultMaxAttempts 3 sampleReport
    (Or.inr (by decide))
    (fun i hi => by simp [hi, ReadOutcome.isTerminal])
    (by simp)).1 rfl

/-! ## Lemmas on the steps of `preprocessContent` -/

/-- The collapse of white space leaves single spaces only. -/
theorem singleSpacedFrom_collapseFrom (inRun : Bool) (s : JsString) :
    singleSpacedFrom inRun (collapseFrom inRun s) = true := by
  induction s generalizing inRun with
  | nil => rfl
  | cons c rest ih =>
    by_cases hws : isWhiteSpace c = true
    · cases inRun with
      | true =>
        rw [collapseFrom, if_pos hws, if_pos rfl]
        exact ih true
      | false =>
        rw [collapseFrom, if_pos hws, if_neg (by simp)]
        have h32 : isWhiteSpace 32 = true := by decide
        rw [singleSpacedFrom, if_pos h32]
        simp [ih true]
    · rw [collapseFrom, if_neg hws, singleSpacedFrom, if_neg hws]
      exact ih false

/-- A text whose white space is made of single spaces is left as it is by the collapse. -/
theorem collapseFrom_of_singleSpaced (afterSpace : Bool) (s : JsString)
    (h : singleSpacedFrom afterSpace s = true) : collapseFrom afterSpace s = s := by
  induction s generalizing afterSpace with
  | nil => rfl
  | cons c rest ih =>
    by_cases hws : isWhiteSpace c = true
    · rw [singleSpacedFrom, if_pos hws] at h
      simp only [Bool.and_eq_true, decide_eq_true_eq, Bool.not_eq_true'] at h
      obtain ⟨⟨hc, hafter⟩, hrest⟩ := h
      subst hafter
      rw [collapseFrom, if_pos hws, if_neg (by simp), ih true hrest, hc]
    · rw [singleSpacedFrom, if_neg hws] at h
      rw [collapseFrom, if_neg hws, ih false h]

/-- In a text whose white space is made of single spaces, white space is the space. -/
theorem eq_space_of_singleSpaced (afterSpace : Bool) (s : JsString)
    (h : singleSpacedFrom afterSpace s = true) :
    ∀ c ∈ s, isWhiteSpace c = true → c = 32 := by
  induction s generalizing afterSpace with
  | nil => intro c hc; exact absurd hc (List.not_mem_nil c)
  | cons d rest ih =>
    intro c hc hws
    by_cases hd : isWhiteSpace d = true
    · rw [singleSpacedFrom, if_pos hd] at h
      simp only [Bool.and_eq_true, decide_eq_true_eq, Bool.not_eq_true'] at h
      rcases List.mem_cons.mp hc with rfl | hmem
      · exact h.1.1
      · exact ih true h.2 c hmem hws
    · rw [singleSpacedFrom, if_neg hd] at h
      rcases List.mem_cons.mp hc with rfl | hmem
      · exact absurd hws hd
      · exact ih false h c hmem hws

/-- The flag of `singleSpacedFrom` may be lowered. -/
theorem singleSpacedFrom_false_of (afterSpace : Bool) (s : JsString)
    (h : singleSpacedFrom afterSpace s = true) : singleSpacedFrom false s = true := by
  cases s with
  | nil => rfl
  | cons c rest =>
    by_cases hws : isWhiteSpace c = true
    · rw [singleSpacedFrom, if_pos hws] at h
      simp only [Bool.and_eq_true, decide_eq_true_eq, Bool.not_eq_true'] at h
      rw [singleSpacedFrom, if_pos hws]
      simp [h.1.1, h.2]
    · rw [singleSpacedFrom, if_neg hws] at h
      rw [singleSpacedFrom, if_neg hws]
      exact h

/-- Single spacing passes to the text without its leading white space. -/
theorem singleSpacedFrom_dropWhile (afterSpace : Bool) (s : JsString)
    (h : singleSpacedFrom afterSpace s = true) :
    singleSpacedFrom false (s.dropWhile isWhiteSpace) = true := by
  induction s generalizing afterSpace with
  | nil => rfl
  | cons c rest ih =>
    by_cases hws : isWhiteSpace c = true
    · rw [singleSpacedFrom, if_pos hws] at h
      simp only [Bool.and_eq_true, decide_eq_true_eq, Bool.not_eq_true'] at h
      rw [List.dropWhile_cons_of_pos hws]
      exact ih true h.2
    · rw [List.dropWhile_cons_of_neg hws]
      exact singleSpacedFrom_false_of afterSpace _ h

/-- Single spacing passes to every initial part of the text. -/
theorem singleSpacedFrom_of_append (afterSpace : Bool) (s t : JsString)
    (h : singleSpacedFrom afterSpace (s ++ t) = true) : singleSpacedFrom afterSpace s = true := by
  induction s generalizing afterSpace with
  | nil => rfl
  | cons c rest ih =>
    rw [List.cons_append] at h
    by_cases hws : isWhiteSpace c = true
    · rw [singleSpacedFrom, if_pos hws] at h ⊢
      simp only [Bool.and_eq_true, decide_eq_true_eq, Bool.not_eq_true'] at h ⊢
      exact ⟨h.1, ih true h.2⟩
    · rw [singleSpacedFrom, if_neg hws] at h ⊢
      exact ih false h

/-- Single spacing passes to the trimmed text. -/
theorem singleSpacedFrom_trim (s : JsString) (h : singleSpacedFrom false s = true) :
    singleSpacedFrom false (trim s) = true := by
  unfold trim
  obtain ⟨suf, _, hd⟩ := rdropWhile_decomp isWhiteSpace (s.dropWhile isWhiteSpace)
  have h₁ := singleSpacedFrom_dropWhile false s h
  rw [hd] at h₁
  exact singleSpacedFrom_of_append false _ suf h₁

/-- Trimming twice is trimming once. -/
theorem trim_trim (s : JsString) : trim (trim s) = trim s := by
  have hdrop : (trim s).dropWhile isWhiteSpace = trim s := by
    unfold trim
    cases hd : s.dropWhile isWhiteSpace with
    | nil => simp
    | cons c rest =>
      have hne : s.dropWhile isWhiteSpace ≠ [] := by rw [hd]; exact List.cons_ne_nil c rest
      have hhead := List.head_dropWhile_not isWhiteSpace s hne
      have hc : isWhiteSpace c = false := by
        simpa [hd] using hhead
      obtain ⟨t, ht⟩ := List.rdropWhile_prefix isWhiteSpace (c :: rest)
      cases hr : (c :: rest).rdropWhile isWhiteSpace with
      | nil => rfl
      | cons c' rest' =>
        rw [hr] at ht
        have hcc : c' = c := by
          have := congrArg List.head? ht
          simpa using this
        rw [hcc]
        exact List.dropWhile_cons_of_neg (by simp [hc])
  show ((trim s).dropWhile isWhiteSpace).rdropWhile isWhiteSpace = trim s
  rw [hdrop]
  unfold trim
  exact List.rdropWhile_idempotent _ _

/-- What `trim` removes is white space on both sides. -/
theorem trim_decomp_whiteSpace (s : JsString) :
    ∃ pre suf, (∀ c ∈ pre, isWhiteSpace c = true) ∧ (∀ c ∈ suf, isWhiteSpace c = true) ∧
      s = pre ++ trim s ++ suf := by
  obtain ⟨pre, hpre, h₁⟩ := dropWhile_decomp isWhiteSpace s
  obtain ⟨suf, hsuf, h₂⟩ := rdropWhile_decomp isWhiteSpace (s.dropWhile isWhiteSpace)
  refine ⟨pre, suf, hpre, hsuf, ?_⟩
  unfold trim
  rw [List.append_assoc, ← h₂, ← h₁]

/-- A code unit that is not white space survives the trimming. -/
theorem mem_trim_of_mem (s : JsString) (c : Nat) (hc : c ∈ s) (hws : isWhiteSpace c = false) :
    c ∈ trim s := by
  obtain ⟨pre, suf, hpre, hsuf, hs⟩ := trim_decomp_whiteSpace s
  rw [hs] at hc
  rcases List.mem_append.mp hc with h | h
  · rcases List.mem_append.mp h with h' | h'
    · have := hpre c h'
      rw [hws] at this
      exact absurd this (by simp)
    · exact h'
  · have := hsuf c h
    rw [hws] at this
    exact absurd this (by simp)

/-- A code unit that is not white space survives the collapse of white space. -/
theorem mem_collapseFrom_of_mem (inRun : Bool) (s : JsString) (c : Nat) (hc : c ∈ s)
    (hws : isWhiteSpace c = false) : c ∈ collapseFrom inRun s := by
  induction s generalizing inRun with
  | nil => exact absurd hc (List.not_mem_nil c)
  | cons d rest ih =>
    by_cases hd : isWhiteSpace d = true
    · have hmem : c ∈ rest := by
        rcases List.mem_cons.mp hc with rfl | h
        · rw [hws] at hd
          exact absurd hd (by simp)
        · exact h
      rw [collapseFrom, if_pos hd]
      split
      · exact ih true hmem
      · exact List.mem_cons_of_mem _ (ih true hmem)
    · rw [collapseFrom, if_neg hd]
      rcases List.mem_cons.mp hc with rfl | h
      · exact List.mem_cons_self _ _
      · exact List.mem_cons_of_mem _ (ih false h)

/-- A line terminator is white space. -/
theorem isWhiteSpace_of_isLineTerminator {c : Nat} (h : isLineTerminator c = true) :
    isWhiteSpace c = true := by
  simp only [isLineTerminator, Bool.or_eq_true, decide_eq_true_eq] at h
  rcases h with ((rfl | rfl) | rfl) | rfl <;> decide

/-- A text whose white space is made of single spaces holds no form feed, no carriage
return and no line terminator. -/
theorem no_artifact_of_singleSpaced (afterSpace : Bool) (s : JsString)
    (h : singleSpacedFrom afterSpace s = true) :
    ∀ c ∈ s, c ≠ 12 ∧ c ≠ 13 ∧ isLineTerminator c = false := by
  intro c hc
  have hspace := eq_space_of_singleSpaced afterSpace s h c hc
  refine ⟨?_, ?_, ?_⟩
  · rintro rfl
    exact absurd (hspace (by decide)) (by decide)
  · rintro rfl
    exact absurd (hspace (by decide)) (by decide)
  · cases hlt : isLineTerminator c with
    | false => rfl
    | true =>
      have := hspace (isWhiteSpace_of_isLineTerminator hlt)
      subst this
      exact absurd hlt (by decide)

theorem replaceFormFeeds_of_none (s : JsString) (h : ∀ c ∈ s, c ≠ 12) :
    replaceFormFeeds s = s := by
  unfold replaceFormFeeds
  induction s with
  | nil => rfl
  | cons c rest ih =>
    rw [List.map_cons, if_neg (h c (List.mem_cons_self c rest)),
      ih (fun d hd => h d (List.mem_cons_of_mem c hd))]

theorem replaceCr_of_none (s : JsString) (h : ∀ c ∈ s, c ≠ 13) : replaceCr s = s := by
  unfold replaceCr
  induction s with
  | nil => rfl
  | cons c rest ih =>
    rw [List.map_cons, if_neg (h c (List.mem_cons_self c rest)),
      ih (fun d hd => h d (List.mem_cons_of_mem c hd))]

theorem replaceCrLf_of_none (s : JsString) (h : ∀ c ∈ s, c ≠ 13) : replaceCrLf s = s := by
  induction s using replaceCrLf.induct with
  | case1 => rfl
  | case2 c => rfl
  | case3 c d rest hcd ih =>
    exact absurd hcd.1 (h c (List.mem_cons_self c _))
  | case4 c d rest hcd ih =>
    rw [replaceCrLf, if_neg hcd, ih (fun x hx => h x (List.mem_cons_of_mem c hx))]

/-- Where no page marker occurs, the removal of page markers changes nothing. -/
theorem removePageMarkers_of_none (s : JsString) (h : NoPageMarker s) :
    removePageMarkers s = s := by
  unfold removePageMarkers
  induction s with
  | nil => rfl
  | cons c rest ih =>
    have hhead : pageMarkerLength (c :: rest) = none := h [] (c :: rest) rfl
    have hrest : NoPageMarker rest := fun before t ht =>
      h (c :: before) t (by rw [ht, List.cons_append])
    rw [removePageMarkersFrom, hhead]
    simp only
    rw [ih hrest]

/-- Away from a line start and with no line terminator ahead, the removal of number lines
changes nothing. -/
theorem removeNumberLinesFrom_false (s : JsString)
    (h : ∀ c ∈ s, isLineTerminator c = false) : removeNumberLinesFrom false 0 s = s := by
  induction s with
  | nil => rfl
  | cons c rest ih =>
    rw [removeNumberLinesFrom]
    simp only [Bool.false_eq_true, if_false]
    rw [h c (List.mem_cons_self c rest), ih (fun d hd => h d (List.mem_cons_of_mem c hd))]

/-- The number-line pattern does not match a text without line terminator that holds a
code unit which is neither a digit nor white space. -/
theorem numberLineLength_eq_none (s : JsString)
    (hlt : ∀ c ∈ s, isLineTerminator c = false)
    (hchar : ∃ c ∈ s, isDigit c = false ∧ isWhiteSpace c = false) :
    numberLineLength s = none := by
  obtain ⟨c, hc, hdigit, hws⟩ := hchar
  unfold numberLineLength
  simp only
  split_ifs with h₁ h₂
  · rfl
  · exfalso
    have hs : s = s.takeWhile isDigit ++ ((s.dropWhile isDigit).takeWhile isWhiteSpace ++
        (s.dropWhile isDigit).dropWhile isWhiteSpace) := by
      rw [List.takeWhile_append_dropWhile, List.takeWhile_append_dropWhile]
    rw [h₂, List.append_nil] at hs
    rw [hs] at hc
    rcases List.mem_append.mp hc with h | h
    · have := List.mem_takeWhile_imp h
      rw [hdigit] at this
      exact absurd this (by simp)
    · have := List.mem_takeWhile_imp h
      rw [hws] at this
      exact absurd this (by simp)
  · have hnil : ((s.dropWhile isDigit).takeWhile isWhiteSpace).rdropWhile
        (fun c => !isLineTerminator c) = [] := by
      rw [List.rdropWhile_eq_nil_iff]
      intro x hx
      have hx' : x ∈ s :=
        (List.dropWhile_suffix isDigit).subset
          ((List.takeWhile_prefix isWhiteSpace).subset hx)
      simp [hlt x hx']
    rw [hnil]

/-- The removal of number lines changes nothing in a text without line terminator that
holds a code unit which is neither a digit nor white space. -/
theorem removeNumberLines_of_none (s : JsString)
    (hlt : ∀ c ∈ s, isLineTerminator c = false)
    (hchar : ∃ c ∈ s, isDigit c = false ∧ isWhiteSpace c = false) :
    removeNumberLines s = s := by
  unfold removeNumberLines
  cases s with
  | nil => rfl
  | cons c rest =>
    rw [removeNumberLinesFrom]
    simp only [if_true]
    rw [numberLineLength_eq_none (c :: rest) hlt hchar]
    simp only
    rw [hlt c (List.mem_cons_self c rest),
      removeNumberLinesFrom_false rest (fun d hd => hlt d (List.mem_cons_of_mem c hd))]

/-- The steps between the collapse and the trimming change nothing in a text whose white
space is made of single spaces, in which no page marker occurs and which holds a code
unit that is neither a digit nor white space. -/
theorem removeArtifacts_of_clean (s : JsString) (hspaced : singleSpacedFrom false s = true)
    (hmarker : NoPageMarker s)
    (hchar : ∃ c ∈ s, isDigit c = false ∧ isWhiteSpace c = false) :
    removeArtifacts s = s := by
  have hno := no_artifact_of_singleSpaced false s hspaced
  unfold removeArtifacts
  rw [replaceFormFeeds_of_none s (fun c hc => (hno c hc).1),
    replaceCrLf_of_none s (fun c hc => (hno c hc).2.1),
    replaceCr_of_none s (fun c hc => (hno c hc).2.1),
    removePageMarkers_of_none s hmarker,
    removeNumberLines_of_none s (fun c hc => (hno c hc).2.2) hchar]

/-- Appending a text that does not start with a digit leaves the leading digits as they
are. -/
theorem takeWhile_isDigit_append (t w : JsString)
    (hw : ∀ c, w.head? = some c → isDigit c = false) :
    (t ++ w).takeWhile isDigit = t.takeWhile isDigit := by
  induction t with
  | nil =>
    cases w with
    | nil => rfl
    | cons c rest =>
      rw [List.nil_append, List.takeWhile_cons_of_neg (by simp [hw c rfl])]
      rfl
  | cons d rest ih =>
    rw [List.cons_append]
    by_cases hd : isDigit d = true
    · rw [List.takeWhile_cons_of_pos hd, List.takeWhile_cons_of_pos hd, ih]
    · rw [List.takeWhile_cons_of_neg hd, List.takeWhile_cons_of_neg hd]

/-- Appending a text that does not start with a digit appends it to what follows the
leading digits. -/
theorem dropWhile_isDigit_append (t w : JsString)
    (hw : ∀ c, w.head? = some c → isDigit c = false) :
    (t ++ w).dropWhile isDigit = t.dropWhile isDigit ++ w := by
  induction t with
  | nil =>
    cases w with
    | nil => rfl
    | cons c rest =>
      rw [List.nil_append, List.dropWhile_cons_of_neg (by simp [hw c rfl])]
      rfl
  | cons d rest ih =>
    rw [List.cons_append]
    by_cases hd : isDigit d = true
    · rw [List.dropWhile_cons_of_pos hd, List.dropWhile_cons_of_pos hd, ih]
    · rw [List.dropWhile_cons_of_neg hd, List.dropWhile_cons_of_neg hd, List.cons_append]

/-- A page marker at the head of a text is still one when a text that does not start with
a digit is appended. -/
theorem pageMarkerLength_append (u w : JsString) (n : Nat)
    (hw : ∀ c, w.head? = some c → isDigit c = false)
    (h : pageMarkerLength u = some n) : pageMarkerLength (u ++ w) = some n := by
  rcases u with _ | ⟨p, _ | ⟨a, _ | ⟨g, _ | ⟨e, _ | ⟨sp, rest⟩⟩⟩⟩⟩
  · simp [pageMarkerLength] at h
  · simp [pageMarkerLength] at h
  · simp [pageMarkerLength] at h
  · simp [pageMarkerLength] at h
  · simp [pageMarkerLength] at h
  · rcases hd : rest.dropWhile isDigit with
      _ | ⟨sp₁, _ | ⟨o, _ | ⟨f, _ | ⟨sp₂, tail⟩⟩⟩⟩
    · simp [pageMarkerLength, hd] at h
    · simp [pageMarkerLength, hd] at h
    · simp [pageMarkerLength, hd] at h
    · simp [pageMarkerLength, hd] at h
    · have hd' : (rest ++ w).dropWhile isDigit = sp₁ :: o :: f :: sp₂ :: (tail ++ w) := by
        rw [dropWhile_isDigit_append rest w hw, hd]
        rfl
      simp only [pageMarkerLength, hd] at h
      simp only [List.cons_append, pageMarkerLength, hd', takeWhile_isDigit_append rest w hw,
        takeWhile_isDigit_append tail w hw]
      exact h

/-- Where no page marker occurs, none occurs after trimming. -/
theorem noPageMarker_trim (s : JsString) (h : NoPageMarker s) : NoPageMarker (trim s) := by
  obtain ⟨pre, suf, _, hsuf, hs⟩ := trim_decomp_whiteSpace s
  intro before rest hrest
  cases hm : pageMarkerLength rest with
  | none => rfl
  | some n =>
    have hw : ∀ c, suf.head? = some c → isDigit c = false := by
      intro c hc
      have hmem : c ∈ suf := List.mem_of_mem_head? hc
      have hws := hsuf c hmem
      cases hdig : isDigit c with
      | false => rfl
      | true =>
        exfalso
        simp only [isDigit, Bool.and_eq_true, decide_eq_true_eq] at hdig
        have : isWhiteSpace c = false := by
          simp only [isWhiteSpace, Bool.or_eq_false_iff, Bool.and_eq_false_imp,
            decide_eq_false_iff_not, decide_eq_true_eq]
          omega
        rw [this] at hws
        exact absurd hws (by simp)
    have happ := pageMarkerLength_append rest suf n hw hm
    have hnone := h (pre ++ before) (rest ++ suf) (by
      rw [hs, hrest]
      simp [List.append_assoc])
    rw [hnone] at happ
    exact absurd happ (by simp)

/-- No page marker occurs in a text when the pattern matches at the head of none of its
final parts. -/
theorem noPageMarker_of_tails (s : JsString)
    (h : ∀ t ∈ s.tails, pageMarkerLength t = none) : NoPageMarker s := by
  intro before rest hrest
  exact h rest ((List.mem_tails rest s).mpr ⟨before, hrest.symm⟩)

/-! ## The claim on `preprocessContent` -/

/-- C11 as stated fails: on `a Page 1 of 2 b` the removal of the page marker leaves two
spaces, which a second application collapses; on a number that follows a space the first
application leaves the number and the second removes it. -/
theorem preprocessContent_not_idempotent :
    preprocessContent (js "a Page 1 of 2 b") = js "a  b" ∧
    preprocessContent (preprocessContent (js "a Page 1 of 2 b")) = js "a b" ∧
    preprocessContent (js " 123") = js "123" ∧
    preprocessContent (preprocessContent (js " 123")) = [] := by
  decide

/-- C11 as amended: `preprocessContent` applied twice gives what it gives applied once, on
every text in which, once its white space is collapsed, no page marker `Page N of M`
occurs, and which is not made of digits and white space only. -/
theorem preprocessContent_idempotent_of_clean (x : JsString)
    (hmarker : NoPageMarker (collapseWhiteSpace x))
    (hchar : ∃ c ∈ x, isDigit c = false ∧ isWhiteSpace c = false) :
    preprocessContent (preprocessContent x) = preprocessContent x := by
  have hpre : ∀ y : JsString, preprocessContent y = trim (removeArtifacts (collapseWhiteSpace y)) :=
    fun _ => rfl
  obtain ⟨c, hc, hdigit, hws⟩ := hchar
  have hspaced : singleSpacedFrom false (collapseWhiteSpace x) = true :=
    singleSpacedFrom_collapseFrom false x
  have hcy : c ∈ collapseWhiteSpace x := mem_collapseFrom_of_mem false x c hc hws
  have hfirst : preprocessContent x = trim (collapseWhiteSpace x) := by
    rw [hpre, removeArtifacts_of_clean _ hspaced hmarker ⟨c, hcy, hdigit, hws⟩]
  have hspaced' : singleSpacedFrom false (trim (collapseWhiteSpace x)) = true :=
    singleSpacedFrom_trim _ hspaced
  rw [hfirst, hpre]
  have hcollapse : collapseWhiteSpace (trim (collapseWhiteSpace x))
      = trim (collapseWhiteSpace x) := collapseFrom_of_singleSpaced false _ hspaced'
  rw [hcollapse,
    removeArtifacts_of_clean _ hspaced' (noPageMarker_trim _ hmarker)
      ⟨c, mem_trim_of_mem _ c hcy hws, hdigit, hws⟩,
    trim_trim]

/-- C11 as amended, at a text with a tabulator, a line break and spaces around it. -/
theorem preprocessContent_idempotent_of_clean_witness :
    preprocessContent (preprocessContent (js " Our policy,\tin short:\r\n no page 7 here. "))
      = preprocessContent (js " Our policy,\tin short:\r\n no page 7 here. ") :=
  preprocessContent_idempotent_of_clean (js " Our policy,\tin short:\r\n no page 7 here. ")
    (noPageMarker_of_tails _ (by decide))
    ⟨79, by decide, by decide, by decide⟩

/-! ## The word count of `split` -/

/-- The number of pieces of `split`, from either state of the reading, against the number
of tokens. -/
theorem splitFrom_length (s : JsString) :
    (∀ current, (splitFrom current true s).length
      = countTokensFrom false s + (if endsInWhiteSpace true s then 1 else 0)) ∧
    (∀ current, (splitFrom current false s).length
      = countTokensFrom true s + 1 + (if endsInWhiteSpace false s then 1 else 0)) := by
  induction s with
  | nil => exact ⟨fun _ => rfl, fun _ => rfl⟩
  | cons c rest ih =>
    obtain ⟨ih₁, ih₂⟩ := ih
    by_cases hws : isWhiteSpace c = true
    · refine ⟨fun current => ?_, fun current => ?_⟩
      · rw [splitFrom, if_pos hws, if_pos rfl, ih₁, countTokensFrom, if_pos hws,
          endsInWhiteSpace, hws]
      · rw [splitFrom, if_pos hws, if_neg (by simp), List.length_cons, ih₁, countTokensFrom,
          if_pos hws, endsInWhiteSpace, hws]
        omega
    · have hws' : isWhiteSpace c = false := by simpa using hws
      refine ⟨fun current => ?_, fun current => ?_⟩
      · rw [splitFrom, if_neg hws, ih₂, countTokensFrom, if_neg hws, endsInWhiteSpace, hws']
        simp only [Bool.false_eq_true, if_false]
        omega
      · rw [splitFrom, if_neg hws, ih₂, countTokensFrom, if_neg hws, endsInWhiteSpace, hws']
        simp only [if_true]
        omega

/-- The word count of `split(/\s+/).length` on a text that is not empty: the number of
tokens, plus one when the text starts with white space, plus one when it ends with white
space. -/
theorem splitWhiteSpace_length (s : JsString) (hs : s ≠ []) :
    (splitWhiteSpace s).length
      = countTokens s + (if startsInWhiteSpace s then 1 else 0)
          + (if endsInWhiteSpace false s then 1 else 0) := by
  cases s with
  | nil => exact absurd rfl hs
  | cons c rest =>
    unfold splitWhiteSpace countTokens
    rw [(splitFrom_length (c :: rest)).2 []]
    by_cases hws : isWhiteSpace c = true
    · simp only [countTokensFrom, startsInWhiteSpace, hws, if_true]
    · have hws' : isWhiteSpace c = false := by simpa using hws
      simp only [countTokensFrom, startsInWhiteSpace, hws', Bool.false_eq_true, if_false,
        if_true]
      omega

/-! ## Termination of the poller -/

/-- With enough runs allowed, `poll` settles, after at least one more read and within the
cap. -/
theorem poll_settles (maxAttempts : Int) (reads : Nat → ReadOutcome) (fuel attempts : Nat)
    (hfuel : 1 ≤ fuel) (henough : maxAttempts.toNat ≤ attempts + fuel) :
    ∃ run, poll maxAttempts reads fuel attempts = some run ∧ attempts + 1 ≤ run.reads ∧
      run.reads ≤ max (attempts + 1) maxAttempts.toNat := by
  induction fuel generalizing attempts with
  | zero => omega
  | succ f ih =>
    cases hstep : pollStep (reads attempts) with
    | inl outcome =>
      exact ⟨_, poll_stop maxAttempts reads f attempts outcome hstep, Nat.le_refl _,
        Nat.le_max_left _ _⟩
    | inr giveUp =>
      by_cases hcap : ((attempts + 1 : Nat) : Int) < maxAttempts
      · rw [poll_again maxAttempts reads f attempts giveUp hstep hcap]
        obtain ⟨run, hrun, hlow, hhigh⟩ := ih (attempts + 1) (by omega) (by omega)
        refine ⟨run, hrun, by omega, ?_⟩
        have : max (attempts + 1 + 1) maxAttempts.toNat ≤ max (attempts + 1) maxAttempts.toNat := by
          rw [Nat.max_def, Nat.max_def]
          split <;> split <;> omega
        omega
      · exact ⟨_, poll_giveUp maxAttempts reads f attempts giveUp hstep hcap, Nat.le_refl _,
          Nat.le_max_left _ _⟩

/-! ## The length of the preprocessed text -/

/-- C28: `preprocessContent` never lengthens its argument; hence a text that
`validateDocumentContent` accepts has a preprocessed form of at most 50,000 characters, and
every record that `uploadDocument` stores has a content of at most 50,000 characters. -/
theorem preprocessContent_never_lengthens :
    (∀ x : JsString, (preprocessContent x).length ≤ x.length) ∧
    (∀ x : JsString, (validateDocumentContent x).valid = true →
      (preprocessContent x).length ≤ 50000) ∧
    (∀ (ps : Parsers) (uuid now1 now2 : String) (st : Store) (file : Option UploadedFile)
        (d : Document),
      (uploadDocument (documentService ps) uuid now1 now2 st file).trace.any
          Event.isDocumentsSet = true →
      (uploadDocument (documentService ps) uuid now1 now2 st file).store.documents.get uuid
          = some d →
      d.content.length ≤ 50000) := by
  have hvalid : ∀ x : JsString, (validateDocumentContent x).valid = true →
      (preprocessContent x).length ≤ 50000 := fun x hx =>
    Nat.le_trans (preprocessContent_length_le x) (validateDocumentContent_valid_bounds x hx).2
  refine ⟨preprocessContent_length_le, hvalid, ?_⟩
  intro ps uuid now1 now2 st file d
  rw [uploadDocument_outcome]
  cases file with
  | none => intro h; simp [Event.isDocumentsSet] at h
  | some f =>
    simp only
    cases hx : (documentService ps).extractTextFromDocument f.buffer f.mimetype f.originalname with
    | error e => intro h; simp [Event.isDocumentsSet] at h
    | ok content =>
      simp only
      by_cases hv : ((documentService ps).validateDocumentContent content).valid = false
      · rw [if_pos hv]
        intro h
        simp [Event.isDocumentsSet] at h
      · rw [if_neg hv]
        intro _ hget
        rw [JsMap.get_set_self] at hget
        cases hget
        exact hvalid content (by simpa [documentService] using hv)

/-- C28, at a text of 100 letters `a`. -/
theorem preprocessContent_never_lengthens_witness :
    (preprocessContent (List.replicate 100 97)).length ≤ 50000 :=
  preprocessContent_never_lengthens.2.1 (List.replicate 100 97) (by rfl)

/-! ## The supported media types -/

/-- A text includes every text that occurs inside it. -/
theorem includesChars_append (before t after : List Char) :
    includesChars (before ++ (t ++ after)) t = true := by
  induction before with
  | nil =>
    cases t with
    | nil => cases after <;> simp [includesChars]
    | cons c rest => simp [includesChars]
  | cons b before ih =>
    rw [List.cons_append, includesChars, ih]
    simp

/-- The result of `extractTextFromDocument` on a media type outside the four of the
`switch`. -/
theorem extractTextFromDocument_unsupported (ps : Parsers) (buffer : List Nat)
    (mimeType name : String) (h : mimeType ∉ allowedTypes) :
    extractTextFromDocument ps buffer mimeType name
      = Except.error ⟨"Error", "Failed to extract text from document: " ++
          ("Unsupported file type: " ++ mimeType)⟩ := by
  simp only [allowedTypes, List.mem_cons, List.mem_singleton, List.not_mem_nil, or_false,
    not_or] at h
  obtain ⟨h₁, h₂, h₃, h₄⟩ := h
  simp [extractTextFromDocument, h₁, h₂, h₃, h₄, tryCatch]

/-- The result of `extractTextFromDocument` on each of the four media types of the
`switch`. -/
theorem extractTextFromDocument_supported (ps : Parsers) (buffer : List Nat) (name : String) :
    extractTextFromDocument ps buffer "application/pdf" name
      = (match ps.pdfParse buffer with
         | Except.ok text => Except.ok text
         | Except.error _ => Except.error
            ⟨"Error", "Failed to extract text from document: Failed to parse PDF document"⟩) ∧
    extractTextFromDocument ps buffer
        "application/vnd.openxmlformats-officedocument.wordprocessingml.document" name
      = (match ps.extractRawText buffer with
         | Except.ok text => Except.ok text
         | Except.error _ => Except.error
            ⟨"Error", "Failed to extract text from document: Failed to parse DOCX document"⟩) ∧
    extractTextFromDocument ps buffer "application/msword" name
      = (match ps.extractRawText buffer with
         | Except.ok text => Except.ok text
         | Except.error _ => Except.error
            ⟨"Error", "Failed to extract text from document: Failed to parse DOC document"⟩) ∧
    extractTextFromDocument ps buffer "text/plain" name = Except.ok (ps.utf8 buffer) := by
  refine ⟨?_, ?_, ?_, ?_⟩
  · cases h : ps.pdfParse buffer <;>
      simp [extractTextFromDocument, extractFromPDF, tryCatch, h]
  · cases h : ps.extractRawText buffer <;>
      simp [extractTextFromDocument, extractFromDocx, tryCatch, h]
  · cases h : ps.extractRawText buffer <;>
      simp [extractTextFromDocument, extractFromDoc, tryCatch, h]
  · simp [extractTextFromDocument, tryCatch]

/-- C26 as stated fails: the PDF parser throws `Invalid PDF structure` and the error of
`extractTextFromDocument` has the message `Failed to extract text from document: Failed to
parse PDF document`, which does not contain the message of the parser; likewise for a Word
document. -/
theorem extractTextFromDocument_drops_parser_message :
    sampleParsers.pdfParse [37, 80, 68, 70] = Except.error ⟨"Error", "Invalid PDF structure"⟩ ∧
    extractTextFromDocument sampleParsers [37, 80, 68, 70] "application/pdf" "policy.pdf"
      = Except.error
          ⟨"Error", "Failed to extract text from document: Failed to parse PDF document"⟩ ∧
    includes "Failed to extract text from document: Failed to parse PDF document"
      "Invalid PDF structure" = false ∧
    extractTextFromDocument sampleParsers [80, 75] "application/msword" "policy.doc"
      = Except.error
          ⟨"Error", "Failed to extract text from document: Failed to parse DOC document"⟩ ∧
    includes "Failed to extract text from document: Failed to parse DOC document"
      "Could not find file in options" = false := by
  refine ⟨rfl, rfl, ?_, rfl, ?_⟩ <;> decide

/-- C26 as amended: for each of the PDF, DOCX and DOC media types, when the format-specific
parser throws an error, whatever its message, `extractTextFromDocument` fails with an error
whose message is `Failed to extract text from document: ` followed by the fixed message of
the method for that format. -/
theorem extractTextFromDocument_parser_failure (ps : Parsers) (buffer : List Nat)
    (name : String) (e : JsError) :
    (ps.pdfParse buffer = Except.error e →
      extractTextFromDocument ps buffer "application/pdf" name
        = Except.error
            ⟨"Error", "Failed to extract text from document: Failed to parse PDF document"⟩) ∧
    (ps.extractRawText buffer = Except.error e →
      extractTextFromDocument ps buffer
          "application/vnd.openxmlformats-officedocument.wordprocessingml.document" name
        = Except.error
            ⟨"Error", "Failed to extract text from document: Failed to parse DOCX document"⟩ ∧
      extractTextFromDocument ps buffer "application/msword" name
        = Except.error
            ⟨"Error", "Failed to extract text from document: Failed to parse DOC document"⟩) := by
  obtain ⟨hpdf, hdocx, hdoc, _⟩ := extractTextFromDocument_supported ps buffer name
  refine ⟨fun h => ?_, fun h => ⟨?_, ?_⟩⟩
  · rw [hpdf, h]
  · rw [hdocx, h]
  · rw [hdoc, h]

/-- C26 as amended, at a buffer that the PDF parser rejects. -/
theorem extractTextFromDocument_parser_failure_witness :
    extractTextFromDocument sampleParsers [37, 80, 68, 70] "application/pdf" "policy.pdf"
      = Except.error
          ⟨"Error", "Failed to extract text from document: Failed to parse PDF document"⟩ :=
  (extractTextFromDocument_parser_failure sampleParsers [37, 80, 68, 70] "policy.pdf"
    ⟨"Error", "Invalid PDF structure"⟩).1 rfl

/-- C27: four media types are allowed, all different; for every declared media type,
whatever the parsers and the buffer, the file filter accepts a file of that type exactly
when the type is one of the four, which is exactly when `extractTextFromDocument` does not
fail with a message that names an `Unsupported file type`; and for each accepted type
`getDocumentType` returns the label of that type, `PDF`, `Word Document (DOCX)`,
`Word Document (DOC)` or `Text Document`, which is not `Unknown`. -/
theorem supported_types_agree (ps : Parsers) (buffer : List Nat) (name : String)
    (f : UploadedFile) :
    allowedTypes.length = 4 ∧ allowedTypes.Nodup ∧
    (fileFilter f = Except.ok () ↔ f.mimetype ∈ allowedTypes) ∧
    (fileFilter f = Except.ok () ↔
      ¬ ∃ e, extractTextFromDocument ps buffer f.mimetype name = Except.error e ∧
        includes e.message "Unsupported file type" = true) ∧
    (fileFilter f = Except.ok () → getDocumentType f.mimetype ≠ "Unknown") ∧
    (fileFilter f = Except.ok () →
      (f.mimetype = "application/pdf" ∧ getDocumentType f.mimetype = "PDF") ∨
      (f.mimetype = "application/vnd.openxmlformats-officedocument.wordprocessingml.document" ∧
        getDocumentType f.mimetype = "Word Document (DOCX)") ∨
      (f.mimetype = "application/msword" ∧
        getDocumentType f.mimetype = "Word Document (DOC)") ∨
      (f.mimetype = "text/plain" ∧ getDocumentType f.mimetype = "Text Document")) := by
  have hfilter : fileFilter f = Except.ok () ↔ f.mimetype ∈ allowedTypes := by
    unfold fileFilter
    by_cases h : f.mimetype ∈ allowedTypes
    · simp [h]
    · simp [h]
  obtain ⟨hpdf, hdocx, hdoc, htxt⟩ := extractTextFromDocument_supported ps buffer name
  refine ⟨rfl, by decide, hfilter, ?_, ?_, ?_⟩
  · rw [hfilter]
    constructor
    · intro hmem
      rintro ⟨e, he, hinc⟩
      simp only [allowedTypes, List.mem_cons, List.mem_singleton, List.not_mem_nil,
        or_false] at hmem
      rcases hmem with h | h | h | h
      · rw [h, hpdf] at he
        cases hp : ps.pdfParse buffer with
        | ok text => rw [hp] at he; cases he
        | error e' =>
          rw [hp] at he
          cases he
          exact absurd hinc (by decide)
      · rw [h, hdocx] at he
        cases hp : ps.extractRawText buffer with
        | ok text => rw [hp] at he; cases he
        | error e' =>
          rw [hp] at he
          cases he
          exact absurd hinc (by decide)
      · rw [h, hdoc] at he
        cases hp : ps.extractRawText buffer with
        | ok text => rw [hp] at he; cases he
        | error e' =>
          rw [hp] at he
          cases he
          exact absurd hinc (by decide)
      · rw [h, htxt] at he
        cases he
    · intro hno
      by_contra hmem
      apply hno
      refine ⟨_, extractTextFromDocument_unsupported ps buffer f.mimetype name hmem, ?_⟩
      show includesChars
        ("Failed to extract text from document: " ++ ("Unsupported file type: " ++ f.mimetype)).toList
        "Unsupported file type".toList = true
      have hlist : ("Failed to extract text from document: " ++
            ("Unsupported file type: " ++ f.mimetype)).toList
          = "Failed to extract text from document: ".toList ++
              ("Unsupported file type".toList ++ (": ".toList ++ f.mimetype.toList)) := by
        simp only [String.toList, String.data_append]
        rfl
      rw [hlist]
      exact includesChars_append _ _ _
  · intro hok
    have hmem := hfilter.mp hok
    simp only [allowedTypes, List.mem_cons, List.mem_singleton, List.not_mem_nil,
      or_false] at hmem
    rcases hmem with h | h | h | h <;> rw [h] <;> decide
  · intro hok
    have hmem := hfilter.mp hok
    simp only [allowedTypes, List.mem_cons, List.mem_singleton, List.not_mem_nil,
      or_false] at hmem
    rcases hmem with h | h | h | h
    · exact Or.inl ⟨h, by rw [h]; rfl⟩
    · exact Or.inr (Or.inl ⟨h, by rw [h]; rfl⟩)
    · exact Or.inr (Or.inr (Or.inl ⟨h, by rw [h]; rfl⟩))
    · exact Or.inr (Or.inr (Or.inr ⟨h, by rw [h]; rfl⟩))

/-- C27, at a file declared as plain text: its label is `Text Document`. -/
theorem supported_types_agree_witness :
    getDocumentType paddedFile.mimetype ≠ "Unknown" ∧
    getDocumentType paddedFile.mimetype = "Text Document" :=
  ⟨(supported_types_agree sampleParsers paddedFile.buffer "policy.txt" paddedFile).2.2.2.2.1 rfl,
    match (supported_types_agree sampleParsers paddedFile.buffer "policy.txt"
        paddedFile).2.2.2.2.2 rfl with
    | Or.inl h => absurd h.1 (by decide)
    | Or.inr (Or.inl h) => absurd h.1 (by decide)
    | Or.inr (Or.inr (Or.inl h)) => absurd h.1 (by decide)
    | Or.inr (Or.inr (Or.inr h)) => h.2⟩

/-! ## What `parseAnalysisResponse` can return -/

/-- C25 as stated fails: on a model output whose braces hold no JSON, `parseAnalysisResponse`
returns the placeholder of its `catch` block, whose `complianceLevel` is `Analysis Error`,
none of the four labels. -/
theorem parseAnalysisResponse_error_label :
    parseAnalysisResponse rejectingParse (some (js "\x7bnot json\x7d"))
      = Except.ok (errorPlaceholder ⟨"SyntaxError", "Unexpected token"⟩
          (some (js "\x7bnot json\x7d"))) ∧
    (errorPlaceholder ⟨"SyntaxError", "Unexpected token"⟩
        (some (js "\x7bnot json\x7d"))).field "complianceLevel"
      = some (Json.str (js "Analysis Error")) ∧
    js "Analysis Error" ∉ complianceLabels ∧
    ¬ WithinContract (errorPlaceholder ⟨"SyntaxError", "Unexpected token"⟩
        (some (js "\x7bnot json\x7d"))) := by
  refine ⟨rfl, rfl, by decide, ?_⟩
  rintro ⟨_, label, hmem, hlabel⟩
  have hfield : (errorPlaceholder ⟨"SyntaxError", "Unexpected token"⟩
      (some (js "\x7bnot json\x7d"))).field "complianceLevel"
        = some (Json.str (js "Analysis Error")) := rfl
  rw [hfield] at hlabel
  simp only [Option.some.injEq, Json.str.injEq] at hlabel
  rw [← hlabel] at hmem
  exact absurd hmem (by decide)

/-- C25 as amended: for every raw model output, the result of `parseAnalysisResponse` is
the placeholder with `overallScore` 50 and `complianceLevel` `Partially Compliant`, or the
placeholder with `overallScore` 0 and `complianceLevel` `Analysis Error`, or the value that
`JSON.parse` gives for the part of the output from its first opening to its last closing
brace, returned as parsed; the first placeholder is within the contract, the second has a
score within 0 to 100. -/
theorem parseAnalysisResponse_result (jsonParse : JsString → Except JsError Json)
    (response : Option JsString) (result : Json)
    (h : parseAnalysisResponse jsonParse response = Except.ok result) :
    ((result = formatPlaceholder response ∧ WithinContract result) ∨
     (∃ e, result = errorPlaceholder e response ∧
        result.field "overallScore" = some (Json.num 0) ∧
        result.field "complianceLevel" = some (Json.str (js "Analysis Error"))) ∨
     (∃ text jsonMatch, response = some text ∧ matchBraces text = some jsonMatch ∧
        jsonParse jsonMatch = Except.ok result)) := by
  have hformat : WithinContract (formatPlaceholder response) :=
    ⟨⟨50, rfl, by decide, by decide⟩, ⟨js "Partially Compliant", by decide, rfl⟩⟩
  cases response with
  | none =>
    right; left
    have : parseAnalysisResponse jsonParse none
        = Except.ok (errorPlaceholder
            ⟨"TypeError", "Cannot read properties of null (reading trim)"⟩ none) := rfl
    rw [this] at h
    cases h
    exact ⟨_, rfl, rfl, rfl⟩
  | some text =>
    rw [parseAnalysisResponse_some] at h
    cases hm : matchBraces text with
    | none =>
      rw [hm] at h
      cases h
      exact Or.inl ⟨rfl, hformat⟩
    | some jsonMatch =>
      rw [hm] at h
      simp only at h
      cases hp : jsonParse jsonMatch with
      | ok v =>
        rw [hp] at h
        cases h
        exact Or.inr (Or.inr ⟨text, jsonMatch, rfl, hm, hp⟩)
      | error e =>
        rw [hp] at h
        cases h
        exact Or.inr (Or.inl ⟨e, rfl, rfl, rfl⟩)

/-- C25 as amended, at a model output made of prose only. -/
theorem parseAnalysisResponse_result_witness :
    (formatPlaceholder (some (js "The policy looks fine."))
        = formatPlaceholder (some (js "The policy looks fine.")) ∧
      WithinContract (formatPlaceholder (some (js "The policy looks fine.")))) ∨
    (∃ e, formatPlaceholder (some (js "The policy looks fine."))
        = errorPlaceholder e (some (js "The policy looks fine.")) ∧
      (formatPlaceholder (some (js "The policy looks fine."))).field "overallScore"
        = some (Json.num 0) ∧
      (formatPlaceholder (some (js "The policy looks fine."))).field "complianceLevel"
        = some (Json.str (js "Analysis Error"))) ∨
    (∃ text jsonMatch, some (js "The policy looks fine.") = some text ∧
      matchBraces text = some jsonMatch ∧
      rejectingParse jsonMatch
        = Except.ok (formatPlaceholder (some (js "The policy looks fine.")))) :=
  parseAnalysisResponse_result rejectingParse (some (js "The policy looks fine."))
    (formatPlaceholder (some (js "The policy looks fine."))) rfl

/-! ## Page markers and number lines in the output of `preprocessContent` -/

/-- C23 as stated fails: in `Page 1Page 2 of 3 of 4` the one pass of the replacement
deletes `Page 2 of 3`, a marker that does not stand apart, and the output of
`preprocessContent` is `Page 1 of 4`, a page marker. -/
theorem preprocessContent_leaves_page_marker :
    preprocessContent nestedMarkerText = js "Page 1 of 4" ∧
    pageMarkerLength (preprocessContent nestedMarkerText) = some 11 ∧
    markersApart (collapseWhiteSpace nestedMarkerText) = false ∧
    ¬ NoPageMarker (preprocessContent nestedMarkerText) := by
  refine ⟨by decide, by decide, by decide, ?_⟩
  intro h
  have := h [] (preprocessContent nestedMarkerText) rfl
  exact absurd this (by decide)

/-- C24, the code at the failing input: the second line of the text is the number 42; the
collapse of white space, the first step, turns the line breaks into spaces, the pattern for
number lines then matches nowhere, and the output still holds `42`.  On the text as given
the replacement of number lines alone deletes the line. -/
theorem preprocessContent_keeps_number_line :
    preprocessContent numberLineText = js "Intro 42 More text" ∧
    collapseWhiteSpace numberLineText = js "Intro 42 More text" ∧
    removeNumberLines (collapseWhiteSpace numberLineText) = js "Intro 42 More text" ∧
    removeNumberLines numberLineText = js "Intro\n\nMore text" := by
  decide

/-! ## The two poll loops -/

/-- On every read the two loops take the same branch, and what each does there is what it
does for the kind of the read. -/
theorem steps_agree (r : ReadOutcome) :
    (pollStep r = Sum.inl (analysisOutcomeOf (kindOf r)) ∧
      resultsStep r = Sum.inl (resultsOutcomeOf (kindOf r)) ∧ r.isTerminal = true) ∨
    (∃ giveUp message, pollStep r = Sum.inr giveUp ∧ resultsStep r = Sum.inr message ∧
      PollOutcome.rejected giveUp = analysisOutcomeOf (kindOf r) ∧
      UiOutcome.error message = resultsOutcomeOf (kindOf r) ∧ r.isTerminal = false) := by
  cases r with
  | threw e => exact Or.inr ⟨_, _, rfl, rfl, rfl, rfl, rfl⟩
  | body success report =>
    cases success with
    | false => exact Or.inr ⟨_, _, rfl, rfl, rfl, rfl, rfl⟩
    | true =>
      cases report with
      | none => exact Or.inr ⟨_, _, rfl, rfl, rfl, rfl, rfl⟩
      | some report =>
        by_cases hc : report.status = "completed"
        · left
          simp [pollStep, resultsStep, kindOf, analysisOutcomeOf, resultsOutcomeOf,
            ReadOutcome.isTerminal, hc]
        · by_cases hf : report.status = "failed"
          · left
            simp [pollStep, resultsStep, kindOf, analysisOutcomeOf, resultsOutcomeOf,
              ReadOutcome.isTerminal, hc, hf]
          · right
            refine ⟨⟨"Error", "Analysis timed out"⟩, "Analysis timed out. Please try again.",
              ?_, ?_, ?_, ?_, ?_⟩ <;>
            simp [pollStep, resultsStep, kindOf, analysisOutcomeOf, resultsOutcomeOf,
              ReadOutcome.isTerminal, hc, hf]

/-- From any value of the counter below the cap of 30, the two loops make the same reads
and end in the same kind. -/
theorem polls_agree_from (reads : Nat → ReadOutcome) (k : Nat) :
    ∀ attempts fuel₁ fuel₂ : Nat, attempts + k = 30 → 1 ≤ k → k ≤ fuel₁ → k ≤ fuel₂ →
      ∃ n, attempts + 1 ≤ n ∧ n ≤ 30 ∧
        poll defaultMaxAttempts reads fuel₁ attempts
          = some ⟨n, analysisOutcomeOf (kindOf (reads (n - 1)))⟩ ∧
        pollResults reads fuel₂ attempts
          = some ⟨n, resultsOutcomeOf (kindOf (reads (n - 1)))⟩ ∧
        (∀ i, attempts ≤ i → i + 1 < n → (reads i).isTerminal = false) ∧
        (n < 30 → (reads (n - 1)).isTerminal = true) := by
  induction k with
  | zero => intro attempts fuel₁ fuel₂ _ h; omega
  | succ k ih =>
    intro attempts fuel₁ fuel₂ hsum _ h₁ h₂
    obtain ⟨f₁, rfl⟩ : ∃ f, fuel₁ = f + 1 := ⟨fuel₁ - 1, by omega⟩
    obtain ⟨f₂, rfl⟩ : ∃ f, fuel₂ = f + 1 := ⟨fuel₂ - 1, by omega⟩
    rcases steps_agree (reads attempts) with ⟨ha, hr, hterm⟩ | ⟨giveUp, message, ha, hr, hga, hgr, hterm⟩
    · refine ⟨attempts + 1, Nat.le_refl _, by omega, ?_, ?_, ?_, ?_⟩
      · rw [poll_stop _ reads f₁ attempts _ ha]
        simp
      · simp [pollResults, hr]
      · intro i h₁ h₂
        omega
      · intro _
        simpa using hterm
    · by_cases hk : k = 0
      · have hat : attempts = 29 := by omega
        refine ⟨30, by omega, Nat.le_refl _, ?_, ?_, ?_, ?_⟩
        · rw [poll_giveUp _ reads f₁ attempts giveUp ha (by
            unfold defaultMaxAttempts
            omega)]
          simp [hat, hga]
        · simp only [pollResults, hr, resultsMaxAttempts]
          rw [if_neg (by omega)]
          simp [hat, hgr]
        · intro i h₁ h₂
          have : i = attempts := by omega
          rw [this]
          exact hterm
        · intro h
          omega
      · obtain ⟨n, hlow, hhigh, hpa, hpr, hbefore, hlast⟩ :=
          ih (attempts + 1) f₁ f₂ (by omega) (by omega) (by omega) (by omega)
        refine ⟨n, by omega, hhigh, ?_, ?_, ?_, hlast⟩
        · rw [poll_again _ reads f₁ attempts giveUp ha (by
            unfold defaultMaxAttempts
            omega)]
          exact hpa
        · simp only [pollResults, hr, resultsMaxAttempts]
          rw [if_pos (by omega)]
          exact hpr
        · intro i h₁ h₂
          by_cases hi : i = attempts
          · rw [hi]
            exact hterm
          · exact hbefore i (by omega) h₂

/-- C30: for every sequence of read outcomes, `pollForResults` and `pollForAnalysis` with its
default of 30 attempts make the same number `n` of reads, between 1 and 30, and end in the
same kind, the kind of read number `n`: completed with that report, failed with that
message, timed out, or exhausted on a read error; no earlier read is terminal, and when
the loops stop before the cap the last read is. -/
theorem poll_loops_agree (reads : Nat → ReadOutcome) :
    ∃ n, 1 ≤ n ∧ n ≤ 30 ∧
      pollForAnalysis reads defaultMaxAttempts
        = some ⟨n, analysisOutcomeOf (kindOf (reads (n - 1)))⟩ ∧
      pollForResults reads = some ⟨n, resultsOutcomeOf (kindOf (reads (n - 1)))⟩ ∧
      (∀ i, i + 1 < n → (reads i).isTerminal = false) ∧
      (n < 30 → (reads (n - 1)).isTerminal = true) := by
  obtain ⟨n, hlow, hhigh, hpa, hpr, hbefore, hlast⟩ :=
    polls_agree_from reads 30 0 31 30 rfl (by decide) (by decide) (by decide)
  exact ⟨n, by omega, hhigh, hpa, hpr, fun i hi => hbefore i (Nat.zero_le i) hi, hlast⟩

/-- C30, at a sequence of reads that ends the loops before the cap: when they stop on the
fourth read, that read is terminal. -/
theorem poll_loops_agree_witness :
    ∃ n, 1 ≤ n ∧ n ≤ 30 ∧
      pollForAnalysis
          (fun i => if i < 3 then ReadOutcome.body true (some processingReport)
            else ReadOutcome.body true (some sampleReport)) defaultMaxAttempts
        = some ⟨n, analysisOutcomeOf (kindOf
            ((fun i => if i < 3 then ReadOutcome.body true (some processingReport)
              else ReadOutcome.body true (some sampleReport)) (n - 1)))⟩ ∧
      pollForResults
          (fun i => if i < 3 then ReadOutcome.body true (some processingReport)
            else ReadOutcome.body true (some sampleReport))
        = some ⟨n, resultsOutcomeOf (kindOf
            ((fun i => if i < 3 then ReadOutcome.body true (some processingReport)
              else ReadOutcome.body true (some sampleReport)) (n - 1)))⟩ :=
  match poll_loops_agree
      (fun i => if i < 3 then ReadOutcome.body true (some processingReport)
        else ReadOutcome.body true (some sampleReport)) with
  | ⟨n, h₁, h₂, h₃, h₄, _, _⟩ => ⟨n, h₁, h₂, h₃, h₄⟩

/-! ## Sequences of reads without a terminal report -/

/-- What `pollForAnalysis` gives up with after a read that did not settle the promise: the
error of the read when the request threw, the timeout error when a report came back. -/
theorem pollStep_giveUp_cases (r : ReadOutcome) (giveUp : JsError)
    (h : pollStep r = Sum.inr giveUp) :
    (∀ e, r = ReadOutcome.threw e → giveUp = e) ∧
    (∀ success report, r = ReadOutcome.body success (some report) →
      giveUp = ⟨"Error", "Analysis timed out"⟩) := by
  constructor
  · intro e hr
    subst hr
    simp only [pollStep, Sum.inr.injEq] at h
    exact h.symm
  · intro success report hr
    subst hr
    cases success with
    | false =>
      simp only [pollStep, Sum.inr.injEq] at h
      exact h.symm
    | true =>
      by_cases hc : report.status = "completed"
      · simp [pollStep, hc] at h
      · by_cases hf : report.status = "failed"
        · simp [pollStep, hc, hf] at h
        · simp only [pollStep, hc, hf, if_false, Sum.inr.injEq] at h
          exact h.symm

/-- What `pollForResults` shows after a read that did not end the loop: the fixed message
of its `catch` when the request threw, the timeout message when a report came back. -/
theorem resultsStep_giveUp_cases (r : ReadOutcome) (message : String)
    (h : resultsStep r = Sum.inr message) :
    (∀ e, r = ReadOutcome.threw e → message = "Failed to get analysis results") ∧
    (∀ success report, r = ReadOutcome.body success (some report) →
      message = "Analysis timed out. Please try again.") := by
  constructor
  · intro e hr
    subst hr
    simp only [resultsStep, Sum.inr.injEq] at h
    exact h.symm
  · intro success report hr
    subst hr
    cases success with
    | false =>
      simp only [resultsStep, Sum.inr.injEq] at h
      exact h.symm
    | true =>
      by_cases hc : report.status = "completed"
      · simp [resultsStep, hc] at h
      · by_cases hf : report.status = "failed"
        · simp [resultsStep, hc, hf] at h
        · simp only [resultsStep, hc, hf, if_false, Sum.inr.injEq] at h
          exact h.symm

/-- Without a terminal read, `pollForAnalysis` reads until its counter reaches the cap
(once when the cap is below 1) and rejects with what its last read left it. -/
theorem pollForAnalysis_without_terminal (reads : Nat → ReadOutcome) (maxAttempts : Int)
    (hno : ∀ i, (reads i).isTerminal = false) :
    ∃ giveUp, pollStep (reads (max 1 maxAttempts.toNat - 1)) = Sum.inr giveUp ∧
      pollForAnalysis reads maxAttempts
        = some ⟨max 1 maxAttempts.toNat, PollOutcome.rejected giveUp⟩ := by
  by_cases hM : 1 ≤ maxAttempts
  · obtain ⟨n, hn⟩ : ∃ n : Nat, maxAttempts = ((n + 1 : Nat) : Int) :=
      ⟨maxAttempts.toNat - 1, by omega⟩
    subst hn
    have hmax : max 1 (((n + 1 : Nat) : Int)).toNat = n + 1 := by
      simp
    rw [hmax]
    obtain ⟨giveUp, hg⟩ := pollStep_of_not_terminal (reads n) (hno n)
    refine ⟨giveUp, by simpa using hg, ?_⟩
    exact pollForAnalysis_exhausted reads n giveUp
      (fun i _ => pollStep_of_not_terminal (reads i) (hno i)) hg
  · have htoNat : maxAttempts.toNat = 0 := by omega
    obtain ⟨giveUp, hg⟩ := pollStep_of_not_terminal (reads 0) (hno 0)
    refine ⟨giveUp, by simpa [htoNat] using hg, ?_⟩
    unfold pollForAnalysis
    rw [htoNat, poll_giveUp maxAttempts reads 0 0 giveUp hg (by
      simp only [Nat.zero_add, Nat.cast_one]
      omega)]
    simp

/-- Without a terminal read, `pollForResults` makes its 30 reads and shows the message its
last read left it. -/
theorem pollForResults_without_terminal (reads : Nat → ReadOutcome)
    (hno : ∀ i, (reads i).isTerminal = false) :
    ∃ message, resultsStep (reads 29) = Sum.inr message ∧
      pollForResults reads = some ⟨30, UiOutcome.error message⟩ := by
  obtain ⟨n, _, hhigh, _, hpr, _, hlast⟩ :=
    polls_agree_from reads 30 0 31 30 rfl (by decide) (by decide) (by decide)
  have hn : n = 30 := by
    by_contra hne
    have hterm := hlast (by omega)
    rw [hno (n - 1)] at hterm
    exact Bool.noConfusion hterm
  subst hn
  rcases steps_agree (reads 29) with ⟨_, _, hterm⟩ | ⟨_, message, _, hr, _, hgr, _⟩
  · rw [hno 29] at hterm
    exact Bool.noConfusion hterm
  · refine ⟨message, hr, ?_⟩
    unfold pollForResults resultsMaxAttempts
    rw [hpr, hgr]

/-- C21, the counterexample: when every read fails with a network error no report is
terminal, and after 30 reads `pollForAnalysis` rejects with the network error, which is not
the timeout error, while `pollForResults` shows `Failed to get analysis results`, which is
not its timeout message. -/
theorem polls_end_on_read_error :
    (∀ i, (failingReads i).isTerminal = false) ∧
    pollForAnalysis failingReads defaultMaxAttempts
      = some ⟨30, PollOutcome.rejected ⟨"AxiosError", "Network Error"⟩⟩ ∧
    (⟨"AxiosError", "Network Error"⟩ : JsError) ≠ ⟨"Error", "Analysis timed out"⟩ ∧
    pollForResults failingReads = some ⟨30, UiOutcome.error "Failed to get analysis results"⟩ ∧
    "Failed to get analysis results" ≠ "Analysis timed out. Please try again." :=
  ⟨fun _ => rfl, by rfl, by decide, by rfl, by decide⟩

/-- C21 as amended: for every sequence of poll outcomes that contains no terminal report,
both pollers read again until the attempt cap is reached (`pollForAnalysis` makes
`max 1 maxAttempts` reads, `pollForResults` 30) and then end according to their last read:
with the timeout outcome when it returned a report, and with the read error when the
request threw (`pollForAnalysis` rejects with that error, `pollForResults` shows
`Failed to get analysis results`). -/
theorem polls_without_terminal_read (reads : Nat → ReadOutcome) (maxAttempts : Int)
    (hno : ∀ i, (reads i).isTerminal = false) :
    (∃ giveUp,
      pollForAnalysis reads maxAttempts
        = some ⟨max 1 maxAttempts.toNat, PollOutcome.rejected giveUp⟩ ∧
      pollStep (reads (max 1 maxAttempts.toNat - 1)) = Sum.inr giveUp ∧
      (∀ e, reads (max 1 maxAttempts.toNat - 1) = ReadOutcome.threw e → giveUp = e) ∧
      (∀ success report,
        reads (max 1 maxAttempts.toNat - 1) = ReadOutcome.body success (some report) →
        giveUp = ⟨"Error", "Analysis timed out"⟩)) ∧
    (∃ message,
      pollForResults reads = some ⟨30, UiOutcome.error message⟩ ∧
      resultsStep (reads 29) = Sum.inr message ∧
      (∀ e, reads 29 = ReadOutcome.threw e → message = "Failed to get analysis results") ∧
      (∀ success report, reads 29 = ReadOutcome.body success (some report) →
        message = "Analysis timed out. Please try again.")) := by
  obtain ⟨giveUp, hg, hpa⟩ := pollForAnalysis_without_terminal reads maxAttempts hno
  obtain ⟨message, hm, hpr⟩ := pollForResults_without_terminal reads hno
  exact ⟨⟨giveUp, hpa, hg, pollStep_giveUp_cases _ giveUp hg⟩,
    ⟨message, hpr, hm, resultsStep_giveUp_cases _ message hm⟩⟩

/-- C21 as amended, at reads that always return a report in `processing`, with the default
cap: both pollers make 30 reads and end with their timeout outcome. -/
theorem polls_without_terminal_read_witness :
    (∀ i, (pendingReads i).isTerminal = false) ∧
    pollForAnalysis pendingReads 30
      = some ⟨30, PollOutcome.rejected ⟨"Error", "Analysis timed out"⟩⟩ ∧
    pollForResults pendingReads
      = some ⟨30, UiOutcome.error "Analysis timed out. Please try again."⟩ :=
  match polls_without_terminal_read pendingReads 30 (fun _ => rfl) with
  | ⟨⟨_, hpa, _, _, hbody⟩, ⟨_, hpr, _, _, hshown⟩⟩ =>
    ⟨fun _ => rfl,
      (hbody true processingReport rfl) ▸ hpa,
      (hshown true processingReport rfl) ▸ hpr⟩

/-! ## Starting the analysis from the report component -/

/-- A call of `startAnalysis` that schedules no retry: its request, then its last event. -/
theorem startAnalysisFrom_final (posts : Nat → PostOutcome) (fuel retryCount : Nat)
    (h : ∀ err, posts retryCount = PostOutcome.threw err →
      ¬ (retryCount < maxRetries ∧ isTransient err = true)) :
    startAnalysisFrom posts (fuel + 1) retryCount
      = some ((if retryCount = 0 then [StartEvent.wait 1000] else [])
          ++ [StartEvent.post, finalEvent (posts retryCount)]) := by
  cases hp : posts retryCount with
  | threw err =>
    simp only [startAnalysisFrom, hp, finalEvent]
    rw [if_neg (h err hp)]
  | response success reportId message =>
    cases success <;> simp only [startAnalysisFrom, hp, finalEvent]

/-- A call of `startAnalysis` that schedules a retry. -/
theorem startAnalysisFrom_retry (posts : Nat → PostOutcome) (fuel retryCount : Nat)
    (err : AxiosError) (hp : posts retryCount = PostOutcome.threw err)
    (h : retryCount < maxRetries ∧ isTransient err = true) :
    startAnalysisFrom posts (fuel + 1) retryCount
      = (startAnalysisFrom posts fuel (retryCount + 1)).map
          (fun rest => (if retryCount = 0 then [StartEvent.wait 1000] else [])
            ++ [StartEvent.post, StartEvent.retryIn (2000 * (retryCount + 1))] ++ rest) := by
  simp only [startAnalysisFrom, hp]
  rw [if_pos h]

/-- The last event of a call without retry is not a request and not a retry. -/
theorem finalEvent_ne (p : PostOutcome) :
    finalEvent p ≠ StartEvent.post ∧ ∀ ms, finalEvent p ≠ StartEvent.retryIn ms := by
  cases p with
  | threw err => exact ⟨by simp [finalEvent], fun ms => by simp [finalEvent]⟩
  | response success reportId message =>
    cases success <;> exact ⟨by simp [finalEvent], fun ms => by simp [finalEvent]⟩

/-- The requests of a call and of the calls it schedules. -/
theorem attemptsOf_call (retryCount : Nat) (e : StartEvent) (he : e ≠ StartEvent.post)
    (rest : List StartEvent) :
    attemptsOf ((if retryCount = 0 then [StartEvent.wait 1000] else [])
      ++ [StartEvent.post, e] ++ rest) = 1 + attemptsOf rest := by
  unfold attemptsOf
  split_ifs <;> simp [List.countP_cons, he] <;> omega

/-- The delays of a call that schedules a retry and of the calls that follow. -/
theorem delaysOf_call_retry (retryCount ms : Nat) (rest : List StartEvent) :
    delaysOf ((if retryCount = 0 then [StartEvent.wait 1000] else [])
      ++ [StartEvent.post, StartEvent.retryIn ms] ++ rest) = ms :: delaysOf rest := by
  split_ifs <;> simp [delaysOf]

/-- A call without retry schedules no delay. -/
theorem delaysOf_call_final (retryCount : Nat) (p : PostOutcome) :
    delaysOf ((if retryCount = 0 then [StartEvent.wait 1000] else [])
      ++ [StartEvent.post, finalEvent p]) = [] := by
  cases p with
  | threw err => split_ifs <;> simp [delaysOf, finalEvent]
  | response success reportId message =>
    cases success <;> split_ifs <;> simp [delaysOf, finalEvent]

/-- The last event of a run is the last event of its last call. -/
theorem getLast_call (retryCount : Nat) (e : StartEvent) (rest : List StartEvent)
    (hrest : rest ≠ []) :
    ((if retryCount = 0 then [StartEvent.wait 1000] else [])
      ++ [StartEvent.post, e] ++ rest).getLast? = rest.getLast? := by
  rw [List.getLast?_append, List.getLast?_eq_getLast rest hrest]
  rfl

/-- The last event of a call without retry. -/
theorem getLast_call_final (retryCount : Nat) (e : StartEvent) :
    ((if retryCount = 0 then [StartEvent.wait 1000] else [])
      ++ [StartEvent.post, e]).getLast? = some e := by
  split_ifs <;> simp

/-- A trace with a request in it is not empty. -/
theorem ne_nil_of_attemptsOf (trace : List StartEvent) (h : 1 ≤ attemptsOf trace) :
    trace ≠ [] := by
  intro hnil
  subst hnil
  simp [attemptsOf] at h

/-- The run of `startAnalysis` from any value of `retryCount` up to 3: it ends, it makes
between 1 and `4 - retryCount` requests, each but the last failed transiently and was
followed by a retry after `2000 * (retryCount + 1)` ms, and it ends with the last event of
the call of its last request, which failed transiently only if it was the fourth. -/
theorem startAnalysisFrom_run (posts : Nat → PostOutcome) (k : Nat) :
    ∀ fuel retryCount : Nat, retryCount + k = 4 → 1 ≤ k → k ≤ fuel →
      ∃ trace, startAnalysisFrom posts fuel retryCount = some trace ∧
        1 ≤ attemptsOf trace ∧ retryCount + attemptsOf trace ≤ 4 ∧
        delaysOf trace
          = (List.range (attemptsOf trace - 1)).map (fun j => 2000 * (retryCount + j + 1)) ∧
        (∀ i, retryCount ≤ i → i + 1 < retryCount + attemptsOf trace →
          ∃ err, posts i = PostOutcome.threw err ∧ isTransient err = true) ∧
        trace.getLast? = some (finalEvent (posts (retryCount + attemptsOf trace - 1))) ∧
        (∀ err, posts (retryCount + attemptsOf trace - 1) = PostOutcome.threw err →
          isTransient err = true → retryCount + attemptsOf trace = 4) := by
  induction k with
  | zero => intro fuel retryCount _ h; omega
  | succ k ih =>
    intro fuel retryCount hsum _ hfuel
    obtain ⟨f, rfl⟩ : ∃ f, fuel = f + 1 := ⟨fuel - 1, by omega⟩
    by_cases hretry : ∃ err, posts retryCount = PostOutcome.threw err ∧
        retryCount < maxRetries ∧ isTransient err = true
    · obtain ⟨err, hp, hlt, htransient⟩ := hretry
      have hlt3 : retryCount < 3 := hlt
      obtain ⟨rest, hrun, hone, hfour, hdelays, hbefore, hlast, hfourth⟩ :=
        ih f (retryCount + 1) (by omega) (by omega) (by omega)
      have hcount := attemptsOf_call retryCount (StartEvent.retryIn (2000 * (retryCount + 1)))
        (by simp) rest
      have hstart : startAnalysisFrom posts (f + 1) retryCount
          = some ((if retryCount = 0 then [StartEvent.wait 1000] else [])
              ++ [StartEvent.post, StartEvent.retryIn (2000 * (retryCount + 1))] ++ rest) := by
        rw [startAnalysisFrom_retry posts f retryCount err hp ⟨hlt, htransient⟩, hrun]
        rfl
      refine ⟨_, hstart, ?_, ?_, ?_, ?_, ?_, ?_⟩
      · rw [hcount]
        omega
      · rw [hcount]
        omega
      · rw [hcount, delaysOf_call_retry, hdelays]
        obtain ⟨m, hm⟩ : ∃ m, attemptsOf rest = m + 1 := ⟨attemptsOf rest - 1, by omega⟩
        rw [hm]
        have h₁ : 1 + (m + 1) - 1 = m + 1 := by omega
        have h₂ : m + 1 - 1 = m := by omega
        rw [h₁, h₂, List.range_succ_eq_map, List.map_cons, List.map_map]
        congr 1
        apply List.map_congr_left
        intro j _
        simp only [Function.comp_apply]
        omega
      · intro i hi hlt
        rw [hcount] at hlt
        by_cases hfirst : i = retryCount
        · rw [hfirst]
          exact ⟨err, hp, htransient⟩
        · exact hbefore i (by omega) (by omega)
      · rw [hcount, getLast_call _ _ rest (ne_nil_of_attemptsOf rest hone), hlast]
        have hidx : retryCount + 1 + attemptsOf rest - 1
            = retryCount + (1 + attemptsOf rest) - 1 := by omega
        rw [hidx]
      · intro e he ht
        rw [hcount] at he ⊢
        have hidx : retryCount + (1 + attemptsOf rest) - 1
            = retryCount + 1 + attemptsOf rest - 1 := by omega
        rw [hidx] at he
        have := hfourth e he ht
        omega
    · have hfinal : ∀ err, posts retryCount = PostOutcome.threw err →
          ¬ (retryCount < maxRetries ∧ isTransient err = true) :=
        fun err hp h => hretry ⟨err, hp, h⟩
      have hcount := attemptsOf_call retryCount (finalEvent (posts retryCount))
        (finalEvent_ne _).1 []
      simp only [List.append_nil] at hcount
      have hzero : attemptsOf ([] : List StartEvent) = 0 := rfl
      rw [hzero] at hcount
      refine ⟨_, startAnalysisFrom_final posts f retryCount hfinal, ?_, ?_, ?_, ?_, ?_, ?_⟩
      · rw [hcount]
      · rw [hcount]
        omega
      · rw [hcount, delaysOf_call_final]
        rfl
      · intro i hi hlt
        rw [hcount] at hlt
        omega
      · rw [hcount, getLast_call_final]
        rfl
      · intro e he ht
        rw [hcount] at he ⊢
        have hidx : retryCount + (1 + 0) - 1 = retryCount := by omega
        rw [hidx] at he
        have hno := hfinal e he
        have hge : ¬ retryCount < 3 := fun h => hno ⟨h, ht⟩
        omega

/-- A response with a status below 500, for a request that was sent and not aborted, fails
the retry test. -/
theorem isTransient_of_client_error (err : AxiosError) (status : Nat)
    (hnetwork : err.code ≠ some "ERR_NETWORK") (haborted : err.code ≠ some "ECONNABORTED")
    (hstatus : err.status = some status) (hlt : status < 500) : isTransient err = false := by
  simp [isTransient, hnetwork, haborted, hstatus, hlt]

/-- C22: for every sequence of outcomes of the start request, `startAnalysis` ends after
between 1 and 4 requests (at most 3 retries); the delay before retry number `k` is
`2000 * k` ms; every request but the last failed transiently, and a request is made when
all the earlier ones failed transiently and there were fewer than 4; the run ends with the
last event of the call of its last request; a request that throws a non-transient error or
is answered `success: false` is the last one, and its message is shown. -/
theorem startAnalysis_retries (posts : Nat → PostOutcome) :
    ∃ trace, startAnalysis posts = some trace ∧
      1 ≤ attemptsOf trace ∧ attemptsOf trace ≤ maxRetries + 1 ∧
      delaysOf trace = (List.range (attemptsOf trace - 1)).map (fun j => 2000 * (j + 1)) ∧
      (∀ i, i + 1 < attemptsOf trace →
        ∃ err, posts i = PostOutcome.threw err ∧ isTransient err = true) ∧
      (∀ i, i < maxRetries + 1 →
        (∀ j, j < i → ∃ err, posts j = PostOutcome.threw err ∧ isTransient err = true) →
        i < attemptsOf trace) ∧
      trace.getLast? = some (finalEvent (posts (attemptsOf trace - 1))) ∧
      (∀ i err, i < attemptsOf trace → posts i = PostOutcome.threw err →
        isTransient err = false →
        i + 1 = attemptsOf trace ∧ shownError trace = some (startErrorMessage err)) ∧
      (∀ i reportId message, i < attemptsOf trace →
        posts i = PostOutcome.response false reportId message →
        i + 1 = attemptsOf trace ∧ shownError trace = some (startRefusedMessage message)) := by
  obtain ⟨trace, hrun, hone, hfour, hdelays, hbefore, hlast, hfourth⟩ :=
    startAnalysisFrom_run posts 4 4 0 rfl (by decide) (Nat.le_refl 4)
  simp only [Nat.zero_add] at hfour hdelays hbefore hlast hfourth
  have hlastOf : ∀ i, i < attemptsOf trace →
      (∀ err, posts i = PostOutcome.threw err → isTransient err = false) →
      i + 1 = attemptsOf trace := by
    intro i hi hnot
    by_contra hne
    obtain ⟨err, hp, ht⟩ := hbefore i (Nat.zero_le i) (by omega)
    rw [hnot err hp] at ht
    exact Bool.noConfusion ht
  refine ⟨trace, hrun, hone, hfour, hdelays, fun i hi => hbefore i (Nat.zero_le i) hi,
    ?_, hlast, ?_, ?_⟩
  · intro i hi hearlier
    by_contra hnot
    obtain ⟨err, hp, ht⟩ := hearlier (attemptsOf trace - 1) (by omega)
    have := hfourth err hp ht
    have hi4 : i < 4 := hi
    omega
  · intro i err hi hp hnot
    have hend := hlastOf i hi (fun e he => by
      rw [hp] at he
      cases he
      exact hnot)
    have hidx : attemptsOf trace - 1 = i := by omega
    refine ⟨hend, ?_⟩
    unfold shownError
    rw [hlast, hidx, hp]
    rfl
  · intro i reportId message hi hp
    have hend := hlastOf i hi (fun e he => by
      rw [hp] at he
      cases he)
    have hidx : attemptsOf trace - 1 = i := by omega
    refine ⟨hend, ?_⟩
    unfold shownError
    rw [hlast, hidx, hp]
    rfl

/-- C22, at two network failures followed by a 404: three requests, delays of 2000 and
4000 ms, and the message of the 404 is shown. -/
theorem startAnalysis_retries_witness :
    ∃ trace, startAnalysis flakyPosts = some trace ∧ attemptsOf trace = 3 ∧
      delaysOf trace = [2000, 4000] ∧
      shownError trace = some "The specified document could not be found" := by
  obtain ⟨trace, hrun, _, _, hdelays, _, hmade, _, hfinal, _⟩ := startAnalysis_retries flakyPosts
  have hthird : 2 < attemptsOf trace :=
    hmade 2 (by decide) (fun j hj => ⟨networkError, by simp [flakyPosts, hj], rfl⟩)
  have hend := hfinal 2 notFoundError hthird rfl rfl
  have hcount : attemptsOf trace = 3 := hend.1.symm
  refine ⟨trace, hrun, hcount, ?_, ?_⟩
  · rw [hdelays, hcount]
    rfl
  · rw [hend.2]
    rfl

/-! ## Page markers that stand apart -/

/-- The pattern of a page marker read in two parts. -/
theorem pageMarkerLength_cons (p a g e sp : Nat) (rest : JsString) :
    pageMarkerLength (p :: a :: g :: e :: sp :: rest)
      = if isLetter 80 p && isLetter 65 a && isLetter 71 g && isLetter 69 e && sp = 32 then
          markerTailLength (rest.takeWhile isDigit) (rest.dropWhile isDigit)
        else none := by
  rfl

/-- A match of the pattern starts with the four letters and a space. -/
theorem pageMarkerLength_head (s : JsString) (n : Nat) (h : pageMarkerLength s = some n) :
    ∃ p a g e rest, s = p :: a :: g :: e :: 32 :: rest ∧ isLetter 80 p = true ∧
      isLetter 65 a = true ∧ isLetter 71 g = true ∧ isLetter 69 e = true ∧
      markerTailLength (rest.takeWhile isDigit) (rest.dropWhile isDigit) = some n := by
  rcases s with _ | ⟨p, _ | ⟨a, _ | ⟨g, _ | ⟨e, _ | ⟨sp, rest⟩⟩⟩⟩⟩
  · simp [pageMarkerLength] at h
  · simp [pageMarkerLength] at h
  · simp [pageMarkerLength] at h
  · simp [pageMarkerLength] at h
  · simp [pageMarkerLength] at h
  · rw [pageMarkerLength_cons] at h
    split_ifs at h with hc
    simp only [Bool.and_eq_true, decide_eq_true_eq] at hc
    obtain ⟨⟨⟨⟨hp, ha⟩, hg⟩, he⟩, rfl⟩ := hc
    exact ⟨p, a, g, e, rest, rfl, hp, ha, hg, he, h⟩

/-- No second part of the pattern without digits before it. -/
theorem markerTailLength_nil (u : JsString) : markerTailLength [] u = none := by
  rcases u with _ | ⟨sp₁, _ | ⟨o, _ | ⟨f, _ | ⟨sp₂, tail⟩⟩⟩⟩ <;> simp [markerTailLength]

/-- A match is at least nine code units long. -/
theorem markerTailLength_ge (first u : JsString) (n : Nat)
    (h : markerTailLength first u = some n) : 9 ≤ n := by
  rcases u with _ | ⟨sp₁, _ | ⟨o, _ | ⟨f, _ | ⟨sp₂, tail⟩⟩⟩⟩
  · simp [markerTailLength] at h
  · simp [markerTailLength] at h
  · simp [markerTailLength] at h
  · simp [markerTailLength] at h
  · simp only [markerTailLength] at h
    split_ifs at h
    simp only [Option.some.injEq] at h
    omega

/-- A match is at least nine code units long. -/
theorem pageMarkerLength_ge (s : JsString) (n : Nat) (h : pageMarkerLength s = some n) :
    9 ≤ n := by
  obtain ⟨_, _, _, _, rest, _, _, _, _, _, htail⟩ := pageMarkerLength_head s n h
  exact markerTailLength_ge _ _ n htail

/-- The digits at the head of a text that a non-digit cuts do not depend on what follows
the cut. -/
theorem takeWhile_dropWhile_isDigit_stop (l z : JsString) (c : Nat) (hc : isDigit c = false) :
    (l ++ c :: z).takeWhile isDigit = l.takeWhile isDigit ∧
    (l ++ c :: z).dropWhile isDigit = l.dropWhile isDigit ++ c :: z := by
  induction l with
  | nil => simp [List.takeWhile, List.dropWhile, hc]
  | cons d rest ih =>
    by_cases hd : isDigit d = true
    · simp [List.takeWhile_cons, List.dropWhile_cons, hd, ih]
    · simp [List.takeWhile_cons, List.dropWhile_cons, hd]

/-- The second part of the pattern across a cut: where a space ends the text before the
cut and a space or nothing follows it, there is no match, or the match does not reach the
cut. -/
theorem markerTailLength_cut (first r X Y : JsString) (hX : X = [] ∨ ∃ X', X = 32 :: X') :
    markerTailLength first (r ++ 32 :: X) = none ∨
    markerTailLength first (r ++ 32 :: X) = markerTailLength first (r ++ 32 :: Y) := by
  rcases r with _ | ⟨sp₁, _ | ⟨o, _ | ⟨f, _ | ⟨sp₂, r⟩⟩⟩⟩
  · left
    rcases hX with rfl | ⟨X', rfl⟩
    · rfl
    · rcases X' with _ | ⟨f, _ | ⟨s, t⟩⟩ <;> simp [markerTailLength, isLetter]
  · left
    rcases hX with rfl | ⟨X', rfl⟩
    · rfl
    · rcases X' with _ | ⟨s, t⟩ <;> simp [markerTailLength, isLetter]
  · left
    rcases hX with rfl | ⟨X', rfl⟩
    · rfl
    · simp [markerTailLength, isLetter]
  · left
    rcases hX with rfl | ⟨X', rfl⟩
    · simp [markerTailLength]
    · simp [markerTailLength, isDigit]
  · right
    simp only [List.cons_append, markerTailLength]
    rw [(takeWhile_dropWhile_isDigit_stop r X 32 (by decide)).1,
      (takeWhile_dropWhile_isDigit_stop r Y 32 (by decide)).1]

/-- The pattern across a cut: where a space ends the text before the cut and a space or
nothing follows it, there is no match at the head, or the match does not reach the cut and
is there whatever follows the cut. -/
theorem pageMarkerLength_cut (b X Y : JsString) (hX : X = [] ∨ ∃ X', X = 32 :: X') :
    pageMarkerLength (b ++ 32 :: X) = none ∨
    pageMarkerLength (b ++ 32 :: X) = pageMarkerLength (b ++ 32 :: Y) := by
  cases hm : pageMarkerLength (b ++ 32 :: X) with
  | none => exact Or.inl rfl
  | some n =>
    obtain ⟨p', a', g', e', rest', heq, hp, ha, hg, he, htail⟩ := pageMarkerLength_head _ n hm
    rcases b with _ | ⟨p, _ | ⟨a, _ | ⟨g, _ | ⟨e, _ | ⟨sp, b⟩⟩⟩⟩⟩
    · simp only [List.nil_append, List.cons.injEq] at heq
      obtain ⟨rfl, _⟩ := heq
      exact absurd hp (by decide)
    · simp only [List.cons_append, List.nil_append, List.cons.injEq] at heq
      obtain ⟨_, rfl, _⟩ := heq
      exact absurd ha (by decide)
    · simp only [List.cons_append, List.nil_append, List.cons.injEq] at heq
      obtain ⟨_, _, rfl, _⟩ := heq
      exact absurd hg (by decide)
    · simp only [List.cons_append, List.nil_append, List.cons.injEq] at heq
      obtain ⟨_, _, _, rfl, _⟩ := heq
      exact absurd he (by decide)
    · simp only [List.cons_append, List.nil_append, List.cons.injEq, true_and] at heq
      obtain ⟨_, _, _, _, rfl⟩ := heq
      have hfirst : X.takeWhile isDigit = [] := by
        rcases hX with rfl | ⟨X', rfl⟩
        · rfl
        · simp [List.takeWhile_cons, isDigit]
      rw [hfirst, markerTailLength_nil] at htail
      exact absurd htail (by simp)
    · right
      rw [← hm]
      simp only [List.cons_append, pageMarkerLength_cons]
      rw [(takeWhile_dropWhile_isDigit_stop b X 32 (by decide)).1,
        (takeWhile_dropWhile_isDigit_stop b X 32 (by decide)).2,
        (takeWhile_dropWhile_isDigit_stop b Y 32 (by decide)).1,
        (takeWhile_dropWhile_isDigit_stop b Y 32 (by decide)).2]
      by_cases hc : (isLetter 80 p && isLetter 65 a && isLetter 71 g && isLetter 69 e &&
          decide (sp = 32)) = true
      · rw [if_pos hc, if_pos hc]
        rcases markerTailLength_cut (b.takeWhile isDigit) (b.dropWhile isDigit) X Y hX
          with hnone | hsame
        · exfalso
          simp only [List.cons_append, pageMarkerLength_cons] at hm
          rw [(takeWhile_dropWhile_isDigit_stop b X 32 (by decide)).1,
            (takeWhile_dropWhile_isDigit_stop b X 32 (by decide)).2, if_pos hc, hnone] at hm
          exact absurd hm (by simp)
        · exact hsame
      · rw [if_neg hc, if_neg hc]

/-- Dropping the rest of a match, then reading on. -/
theorem removePageMarkersFrom_skip (skip : Nat) (u : JsString) :
    removePageMarkersFrom skip u = removePageMarkers (u.drop skip) := by
  induction skip generalizing u with
  | zero => rfl
  | succ k ih =>
    cases u with
    | nil => rfl
    | cons c rest =>
      rw [removePageMarkersFrom, ih]
      rfl

/-- The removal of page markers keeps a code unit at which no marker starts. -/
theorem removePageMarkers_cons_none (c : Nat) (rest : JsString)
    (h : pageMarkerLength (c :: rest) = none) :
    removePageMarkers (c :: rest) = c :: removePageMarkers rest := by
  unfold removePageMarkers
  rw [removePageMarkersFrom, h]

/-- The removal of page markers drops a marker and reads on after it. -/
theorem removePageMarkers_cons_some (c : Nat) (rest : JsString) (n : Nat)
    (h : pageMarkerLength (c :: rest) = some n) :
    removePageMarkers (c :: rest) = removePageMarkers ((c :: rest).drop n) := by
  have hn := pageMarkerLength_ge _ n h
  obtain ⟨m, rfl⟩ : ∃ m, n = m + 1 := ⟨n - 1, by omega⟩
  unfold removePageMarkers
  rw [removePageMarkersFrom, h]
  simp only [Nat.add_sub_cancel, List.drop_succ_cons]
  exact removePageMarkersFrom_skip m rest

/-- No marker starts at a space. -/
theorem pageMarkerLength_space (u : JsString) : pageMarkerLength (32 :: u) = none := by
  cases hm : pageMarkerLength (32 :: u) with
  | none => rfl
  | some n =>
    obtain ⟨p, a, g, e, rest, heq, hp, _⟩ := pageMarkerLength_head _ n hm
    simp only [List.cons.injEq] at heq
    obtain ⟨rfl, _⟩ := heq
    exact absurd hp (by decide)

/-- Every code unit that the removal of page markers keeps is one of the text. -/
theorem mem_of_mem_removePageMarkersFrom (skip : Nat) (u : JsString) (c : Nat)
    (h : c ∈ removePageMarkersFrom skip u) : c ∈ u := by
  induction u generalizing skip with
  | nil => cases skip <;> simp [removePageMarkersFrom] at h
  | cons d rest ih =>
    cases skip with
    | succ k =>
      rw [removePageMarkersFrom] at h
      exact List.mem_cons_of_mem d (ih k h)
    | zero =>
      rw [removePageMarkersFrom] at h
      cases hm : pageMarkerLength (d :: rest) with
      | some n =>
        rw [hm] at h
        exact List.mem_cons_of_mem d (ih (n - 1) h)
      | none =>
        rw [hm] at h
        rcases List.mem_cons.mp h with rfl | hmem
        · exact List.mem_cons_self _ _
        · exact List.mem_cons_of_mem d (ih 0 hmem)

/-- Where every marker stands apart, so it does in what remains after any number of code
units. -/
theorem markersApartFrom_drop (n : Nat) : ∀ (t : JsString) (flag : Bool),
    markersApartFrom flag t = true → ∃ flag', markersApartFrom flag' (t.drop n) = true := by
  induction n with
  | zero => intro t flag h; exact ⟨flag, h⟩
  | succ n ih =>
    intro t flag h
    cases t with
    | nil => exact ⟨true, rfl⟩
    | cons c rest =>
      rw [markersApartFrom, Bool.and_eq_true] at h
      exact ih rest _ h.2

/-- The text and what the removal of page markers makes of it, up to the first marker
removed: where every marker stands apart, the two agree up to a space, after which the
output has a space or nothing. -/
theorem removePageMarkers_cut (t : JsString) : ∀ prev : Nat,
    markersApartFrom (decide (prev = 32)) t = true →
    removePageMarkers t = t ∨
    ∃ b X Y, prev :: t = b ++ 32 :: Y ∧ prev :: removePageMarkers t = b ++ 32 :: X ∧
      (X = [] ∨ ∃ X', X = 32 :: X') := by
  induction t with
  | nil => intro _ _; exact Or.inl rfl
  | cons c rest ih =>
    intro prev h
    rw [markersApartFrom, Bool.and_eq_true] at h
    obtain ⟨hhere, hrest⟩ := h
    cases hm : pageMarkerLength (c :: rest) with
    | none =>
      rw [removePageMarkers_cons_none c rest hm]
      rcases ih c hrest with hsame | ⟨b, X, Y, h₁, h₂, hX⟩
      · left
        rw [hsame]
      · right
        exact ⟨prev :: b, X, Y, by rw [h₁]; rfl, by rw [h₂]; rfl, hX⟩
    | some n =>
      rw [hm] at hhere
      simp only [Bool.and_eq_true, decide_eq_true_eq] at hhere
      obtain ⟨hprev, hafter⟩ := hhere
      right
      refine ⟨[], removePageMarkers ((c :: rest).drop n), c :: rest, by rw [hprev]; rfl,
        by rw [removePageMarkers_cons_some c rest n hm, hprev]; rfl, ?_⟩
      cases hd : (c :: rest).drop n with
      | nil => exact Or.inl rfl
      | cons d u =>
        rw [hd] at hafter
        simp only [decide_eq_true_eq] at hafter
        subst hafter
        right
        exact ⟨removePageMarkers u, removePageMarkers_cons_none 32 u (pageMarkerLength_space u)⟩

/-- No marker in a text when none starts at its head and none occurs after it. -/
theorem noPageMarker_cons (c : Nat) (u : JsString) (hhead : pageMarkerLength (c :: u) = none)
    (hrest : NoPageMarker u) : NoPageMarker (c :: u) := by
  intro before r h
  cases before with
  | nil =>
    rw [List.nil_append] at h
    rw [← h]
    exact hhead
  | cons d before =>
    rw [List.cons_append, List.cons.injEq] at h
    exact hrest before r h.2

/-- No marker in what remains of a text without marker. -/
theorem noPageMarker_drop (u : JsString) (k : Nat) (h : NoPageMarker u) :
    NoPageMarker (u.drop k) := by
  intro before r hr
  exact h (u.take k ++ before) r (by rw [List.append_assoc, ← hr, List.take_append_drop])

/-- Where every page marker stands apart, none is left by their removal. -/
theorem noPageMarker_removePageMarkers : ∀ (k : Nat) (t : JsString), t.length ≤ k →
    ∀ flag, markersApartFrom flag t = true → NoPageMarker (removePageMarkers t) := by
  intro k
  induction k with
  | zero =>
    intro t ht flag _
    have : t = [] := List.length_eq_zero.mp (Nat.le_zero.mp ht)
    subst this
    intro before r h
    have hr : r = [] := (List.append_eq_nil.mp h.symm).2
    rw [hr]
    rfl
  | succ k ih =>
    intro t ht flag h
    cases t with
    | nil =>
      intro before r h
      have hr : r = [] := (List.append_eq_nil.mp h.symm).2
      rw [hr]
      rfl
    | cons c rest =>
      have hlen : rest.length ≤ k := by
        simp only [List.length_cons] at ht
        omega
      cases hm : pageMarkerLength (c :: rest) with
      | none =>
        rw [markersApartFrom, Bool.and_eq_true] at h
        rw [removePageMarkers_cons_none c rest hm]
        refine noPageMarker_cons c _ ?_ (ih rest hlen _ h.2)
        rcases removePageMarkers_cut rest c h.2 with hsame | ⟨b, X, Y, h₁, h₂, hX⟩
        · rw [hsame]
          exact hm
        · rw [h₂]
          rcases pageMarkerLength_cut b X Y hX with hnone | hsame
          · exact hnone
          · rw [hsame, ← h₁]
            exact hm
      | some n =>
        have hn := pageMarkerLength_ge _ n hm
        rw [removePageMarkers_cons_some c rest n hm]
        obtain ⟨flag', hflag⟩ := markersApartFrom_drop n (c :: rest) flag h
        refine ih _ ?_ flag' hflag
        rw [List.length_drop]
        simp only [List.length_cons] at ht ⊢
        omega

/-- Away from a line start and with no line terminator ahead, the removal of number lines
drops what is left of the current match and nothing else. -/
theorem removeNumberLinesFrom_false_skip (s : JsString)
    (h : ∀ c ∈ s, isLineTerminator c = false) :
    ∀ skip, removeNumberLinesFrom false skip s = s.drop skip := by
  induction s with
  | nil => intro skip; cases skip <;> rfl
  | cons c rest ih =>
    intro skip
    cases skip with
    | zero => exact removeNumberLinesFrom_false (c :: rest) h
    | succ k =>
      rw [removeNumberLinesFrom, h c (List.mem_cons_self c rest),
        ih (fun d hd => h d (List.mem_cons_of_mem c hd)) k]
      rfl

/-- In a text without line terminator the removal of number lines leaves a final part of
the text. -/
theorem removeNumberLines_eq_drop (s : JsString) (h : ∀ c ∈ s, isLineTerminator c = false) :
    ∃ k, removeNumberLines s = s.drop k := by
  unfold removeNumberLines
  cases s with
  | nil => exact ⟨0, rfl⟩
  | cons c rest =>
    have hrest : ∀ d ∈ rest, isLineTerminator d = false :=
      fun d hd => h d (List.mem_cons_of_mem c hd)
    rw [removeNumberLinesFrom]
    simp only [if_true]
    cases hm : numberLineLength (c :: rest) with
    | none =>
      simp only
      rw [h c (List.mem_cons_self c rest), removeNumberLinesFrom_false rest hrest]
      exact ⟨0, rfl⟩
    | some n =>
      simp only
      rw [h c (List.mem_cons_self c rest), removeNumberLinesFrom_false_skip rest hrest]
      exact ⟨n - 1 + 1, rfl⟩

/-- C23 as amended: for every input text in which, once its white space is collapsed, every
page marker `Page N of M` follows a space or starts the text and is followed by a space or
ends the text, the output of `preprocessContent` contains no page marker. -/
theorem preprocessContent_removes_markers_apart (x : JsString)
    (h : markersApart (collapseWhiteSpace x) = true) :
    NoPageMarker (preprocessContent x) := by
  have hpre : preprocessContent x = trim (removeArtifacts (collapseWhiteSpace x)) := rfl
  have hspaced : singleSpacedFrom false (collapseWhiteSpace x) = true :=
    singleSpacedFrom_collapseFrom false x
  have hno := no_artifact_of_singleSpaced false _ hspaced
  have hremoved : NoPageMarker (removePageMarkers (collapseWhiteSpace x)) :=
    noPageMarker_removePageMarkers _ _ (Nat.le_refl _) true h
  obtain ⟨k, hk⟩ := removeNumberLines_eq_drop (removePageMarkers (collapseWhiteSpace x))
    (fun c hc => (hno c (mem_of_mem_removePageMarkersFrom 0 _ c hc)).2.2)
  rw [hpre]
  unfold removeArtifacts
  rw [replaceFormFeeds_of_none _ (fun c hc => (hno c hc).1),
    replaceCrLf_of_none _ (fun c hc => (hno c hc).2.1),
    replaceCr_of_none _ (fun c hc => (hno c hc).2.1), hk]
  exact noPageMarker_trim _ (noPageMarker_drop _ k hremoved)

/-- C23 as amended, at a text with a footer line between two lines of prose: the marker
stands apart, and the output `Our policy  continues here` holds no marker. -/
theorem preprocessContent_removes_markers_apart_witness :
    markersApart (collapseWhiteSpace footerText) = true ∧
    preprocessContent footerText = js "Our policy  continues here" ∧
    NoPageMarker (preprocessContent footerText) :=
  ⟨by decide, by decide, preprocessContent_removes_markers_apart footerText (by decide)⟩

/-! ## The poller with any number as `maxAttempts` -/

/-- A counter below another that is below the number is below the number. -/
theorem counterLess_mono (a b : Nat) (x : JsNumber) (h : counterLess a x = true)
    (hba : b ≤ a) : counterLess b x = true := by
  cases x with
  | finite m e =>
    simp only [counterLess] at h ⊢
    by_cases he : 0 ≤ e
    · rw [if_pos he] at h ⊢
      simp only [decide_eq_true_eq] at h ⊢
      omega
    · rw [if_neg he] at h ⊢
      simp only [decide_eq_true_eq] at h ⊢
      have hmul : (b : Int) * ((2 ^ (-e).toNat : Nat) : Int)
          ≤ (a : Int) * ((2 ^ (-e).toNat : Nat) : Int) :=
        Int.mul_le_mul_of_nonneg_right (by exact_mod_cast hba) (Int.ofNat_nonneg _)
      omega
  | posInfinity => rfl
  | negInfinity => exact h
  | nan => exact h

/-- The counter never passes `2 ^ 53`. -/
theorem increment_le (a : Nat) (h : a ≤ maxSafeCounter) : increment a ≤ maxSafeCounter := by
  unfold increment
  split_ifs <;> omega

/-- A run of `pollNumber` that settles on its read. -/
theorem pollNumber_stop (x : JsNumber) (reads : Nat → ReadOutcome) (fuel made a : Nat)
    (outcome : PollOutcome) (h : pollStep (reads made) = Sum.inl outcome) :
    pollNumber x reads (fuel + 1) made a = some ⟨made + 1, outcome⟩ := by
  simp [pollNumber, h]

/-- A run of `pollNumber` that schedules the next one. -/
theorem pollNumber_again (x : JsNumber) (reads : Nat → ReadOutcome) (fuel made a : Nat)
    (giveUp : JsError) (h : pollStep (reads made) = Sum.inr giveUp)
    (hcap : counterLess (increment a) x = true) :
    pollNumber x reads (fuel + 1) made a = pollNumber x reads fuel (made + 1) (increment a) := by
  simp only [pollNumber, h]
  rw [if_pos hcap]

/-- A run of `pollNumber` that gives up: the counter is not below the cap. -/
theorem pollNumber_giveUp (x : JsNumber) (reads : Nat → ReadOutcome) (fuel made a : Nat)
    (giveUp : JsError) (h : pollStep (reads made) = Sum.inr giveUp)
    (hcap : counterLess (increment a) x = false) :
    pollNumber x reads (fuel + 1) made a = some ⟨made + 1, PollOutcome.rejected giveUp⟩ := by
  simp only [pollNumber, h]
  rw [if_neg (by simp [hcap])]

/-- A run that has settled within some number of runs has settled within one more. -/
theorem pollNumber_succ (x : JsNumber) (reads : Nat → ReadOutcome) (fuel : Nat) :
    ∀ (made a : Nat) (run : PollRun), pollNumber x reads fuel made a = some run →
      pollNumber x reads (fuel + 1) made a = some run := by
  induction fuel with
  | zero => intro made a run h; simp [pollNumber] at h
  | succ f ih =>
    intro made a run h
    cases hs : pollStep (reads made) with
    | inl outcome =>
      rw [pollNumber_stop x reads f made a outcome hs] at h
      rw [pollNumber_stop x reads (f + 1) made a outcome hs]
      exact h
    | inr giveUp =>
      cases hc : counterLess (increment a) x with
      | true =>
        rw [pollNumber_again x reads f made a giveUp hs hc] at h
        rw [pollNumber_again x reads (f + 1) made a giveUp hs hc]
        exact ih _ _ run h
      | false =>
        rw [pollNumber_giveUp x reads f made a giveUp hs hc] at h
        rw [pollNumber_giveUp x reads (f + 1) made a giveUp hs hc]
        exact h

/-- A run that has settled within some number of runs has settled within any larger one. -/
theorem pollNumber_le (x : JsNumber) (reads : Nat → ReadOutcome) (fuel more made a : Nat)
    (run : PollRun) (h : pollNumber x reads fuel made a = some run) :
    pollNumber x reads (fuel + more) made a = some run := by
  induction more with
  | zero => exact h
  | succ k ih => exact pollNumber_succ x reads (fuel + k) made a run ih

/-- With a cap that is not above `2 ^ 53`, `pollNumber` settles from every value of the
counter: after at least one more read, and when after more than one, the number of reads
before the last is below the cap. -/
theorem pollNumber_settles (x : JsNumber) (reads : Nat → ReadOutcome)
    (hcap : counterLess maxSafeCounter x = false) (k : Nat) :
    ∀ a, a + k = maxSafeCounter →
      ∃ run, a + 1 ≤ run.reads ∧
        (∀ fuel, run.reads ≤ a + fuel → pollNumber x reads fuel a a = some run) ∧
        (run.reads = a + 1 ∨ counterLess (run.reads - 1) x = true) := by
  induction k with
  | zero =>
    intro a ha
    have hinc : increment a = a := by
      unfold increment
      rw [if_neg (by omega)]
    cases hs : pollStep (reads a) with
    | inl outcome =>
      refine ⟨⟨a + 1, outcome⟩, Nat.le_refl _, ?_, Or.inl rfl⟩
      intro fuel hfuel
      obtain ⟨f, rfl⟩ : ∃ f, fuel = f + 1 := ⟨fuel - 1, by simp only at hfuel; omega⟩
      exact pollNumber_stop x reads f a a outcome hs
    | inr giveUp =>
      refine ⟨⟨a + 1, PollOutcome.rejected giveUp⟩, Nat.le_refl _, ?_, Or.inl rfl⟩
      intro fuel hfuel
      obtain ⟨f, rfl⟩ : ∃ f, fuel = f + 1 := ⟨fuel - 1, by simp only at hfuel; omega⟩
      refine pollNumber_giveUp x reads f a a giveUp hs ?_
      rw [hinc]
      have : a = maxSafeCounter := by omega
      rw [this]
      exact hcap
  | succ k ih =>
    intro a ha
    have hinc : increment a = a + 1 := by
      unfold increment
      rw [if_pos (by omega)]
    cases hs : pollStep (reads a) with
    | inl outcome =>
      refine ⟨⟨a + 1, outcome⟩, Nat.le_refl _, ?_, Or.inl rfl⟩
      intro fuel hfuel
      obtain ⟨f, rfl⟩ : ∃ f, fuel = f + 1 := ⟨fuel - 1, by simp only at hfuel; omega⟩
      exact pollNumber_stop x reads f a a outcome hs
    | inr giveUp =>
      cases hc : counterLess (a + 1) x with
      | true =>
        obtain ⟨run, hlow, hrun, hbound⟩ := ih (a + 1) (by omega)
        refine ⟨run, by omega, ?_, Or.inr ?_⟩
        · intro fuel hfuel
          obtain ⟨f, rfl⟩ : ∃ f, fuel = f + 1 := ⟨fuel - 1, by omega⟩
          rw [pollNumber_again x reads f a a giveUp hs (by rw [hinc]; exact hc), hinc]
          exact hrun f (by omega)
        · rcases hbound with heq | hlt
          · have : run.reads - 1 = a + 1 := by omega
            rw [this]
            exact hc
          · exact hlt
      | false =>
        refine ⟨⟨a + 1, PollOutcome.rejected giveUp⟩, Nat.le_refl _, ?_, Or.inl rfl⟩
        intro fuel hfuel
        obtain ⟨f, rfl⟩ : ∃ f, fuel = f + 1 := ⟨fuel - 1, by simp only at hfuel; omega⟩
        exact pollNumber_giveUp x reads f a a giveUp hs (by rw [hinc]; exact hc)

/-- With a cap above `2 ^ 53` and no terminal read, `pollNumber` never settles. -/
theorem pollNumber_never (x : JsNumber) (reads : Nat → ReadOutcome)
    (hcap : counterLess maxSafeCounter x = true) (hno : ∀ i, (reads i).isTerminal = false)
    (fuel : Nat) :
    ∀ made a, a ≤ maxSafeCounter → pollNumber x reads fuel made a = none := by
  induction fuel with
  | zero => intro made a _; rfl
  | succ f ih =>
    intro made a ha
    obtain ⟨giveUp, hs⟩ := pollStep_of_not_terminal (reads made) (hno made)
    rw [pollNumber_again x reads f made a giveUp hs
      (counterLess_mono _ _ x hcap (increment_le a ha))]
    exact ih _ _ (increment_le a ha)

/-- For an integer cap up to `2 ^ 53`, `poll` is `pollNumber`. -/
theorem poll_eq_pollNumber (m : Int) (hm : m ≤ (maxSafeCounter : Int))
    (reads : Nat → ReadOutcome) (fuel : Nat) :
    ∀ a, a ≤ maxSafeCounter →
      poll m reads fuel a = pollNumber (JsNumber.finite m 0) reads fuel a a := by
  induction fuel with
  | zero => intro a _; rfl
  | succ f ih =>
    intro a ha
    cases hs : pollStep (reads a) with
    | inl outcome =>
      rw [poll_stop m reads f a outcome hs, pollNumber_stop _ reads f a a outcome hs]
    | inr giveUp =>
      have htest : ∀ n : Nat, counterLess n (JsNumber.finite m 0) = decide ((n : Int) < m) := by
        intro n
        simp [counterLess]
      by_cases hlt : a < maxSafeCounter
      · have hinc : increment a = a + 1 := by
          unfold increment
          rw [if_pos hlt]
        by_cases hc : ((a + 1 : Nat) : Int) < m
        · rw [poll_again m reads f a giveUp hs hc,
            pollNumber_again _ reads f a a giveUp hs (by rw [hinc, htest]; simpa using hc),
            hinc]
          exact ih (a + 1) (by omega)
        · rw [poll_giveUp m reads f a giveUp hs hc,
            pollNumber_giveUp _ reads f a a giveUp hs (by rw [hinc, htest]; simpa using hc)]
      · have hinc : increment a = a := by
          unfold increment
          rw [if_neg hlt]
        have hc : ¬ ((a + 1 : Nat) : Int) < m := by omega
        have hc' : ¬ (a : Int) < m := by omega
        rw [poll_giveUp m reads f a giveUp hs hc,
          pollNumber_giveUp _ reads f a a giveUp hs (by rw [hinc, htest]; simpa using hc')]

/-- For an integer cap up to `2 ^ 53`, `pollForAnalysis` is the run for any number, watched
long enough. -/
theorem pollForAnalysis_eq_within (m : Int) (hm : m ≤ (maxSafeCounter : Int))
    (reads : Nat → ReadOutcome) :
    pollForAnalysis reads m = pollForAnalysisWithin (m.toNat + 1) reads (JsNumber.finite m 0) :=
  poll_eq_pollNumber m hm reads (m.toNat + 1) 0 (Nat.zero_le _)

/-- C29 as stated fails: with `maxAttempts` 2.5 and reports that stay in `processing` the
loop makes 3 reads, more than `max(1, 2.5)`; with `maxAttempts` `Infinity` and the same
reads the promise has not settled after any number of runs. -/
theorem pollForAnalysis_fraction_and_infinity :
    pollForAnalysisWithin 3 pendingReads (JsNumber.finite 5 (-1))
      = some ⟨3, PollOutcome.rejected ⟨"Error", "Analysis timed out"⟩⟩ ∧
    ¬ (3 ≤ 1) ∧ counterAtMost 3 (JsNumber.finite 5 (-1)) = false ∧
    (∀ ticks, pollForAnalysisWithin ticks pendingReads JsNumber.posInfinity = none) :=
  ⟨by rfl, by decide, by decide,
    fun ticks => pollNumber_never JsNumber.posInfinity pendingReads rfl (fun _ => rfl) ticks 0 0
      (Nat.zero_le _)⟩

/-- C29 as amended: for every sequence of read outcomes and every number `maxAttempts` that
is not above `2 ^ 53` (`NaN` and `-Infinity` included) the loop of `pollForAnalysis` settles
its promise, in one way only: after at least one read and, when after more than one, with
fewer than `maxAttempts + 1` reads, which for an integer `maxAttempts` is at most
`max(1, maxAttempts)`; when 1 is not below `maxAttempts` it makes exactly one read.  With
`maxAttempts` above `2 ^ 53`, `Infinity` included, and no terminal read it never settles. -/
theorem pollForAnalysis_settles (reads : Nat → ReadOutcome) (maxAttempts : JsNumber) :
    (counterLess maxSafeCounter maxAttempts = false →
      ∃ run,
        (∀ ticks, run.reads ≤ ticks →
          pollForAnalysisWithin ticks reads maxAttempts = some run) ∧
        (∀ ticks other, pollForAnalysisWithin ticks reads maxAttempts = some other →
          other = run) ∧
        1 ≤ run.reads ∧
        (run.reads = 1 ∨ counterLess (run.reads - 1) maxAttempts = true) ∧
        (∀ m : Int, maxAttempts = JsNumber.finite m 0 → (run.reads : Int) ≤ max 1 m) ∧
        (counterLess 1 maxAttempts = false → run.reads = 1)) ∧
    (counterLess maxSafeCounter maxAttempts = true →
      (∀ i, (reads i).isTerminal = false) →
      ∀ ticks, pollForAnalysisWithin ticks reads maxAttempts = none) := by
  constructor
  · intro hcap
    obtain ⟨run, hlow, hrun, hbound⟩ :=
      pollNumber_settles maxAttempts reads hcap maxSafeCounter 0 (Nat.zero_add _)
    simp only [Nat.zero_add] at hlow hrun hbound
    refine ⟨run, hrun, ?_, hlow, hbound, ?_, ?_⟩
    · intro ticks other hother
      have h₁ := pollNumber_le maxAttempts reads ticks run.reads 0 0 other hother
      have h₂ := hrun (ticks + run.reads) (by omega)
      unfold pollForAnalysisWithin at h₂
      rw [h₁] at h₂
      exact Option.some.inj h₂
    · intro m hm
      rcases hbound with hone | hlt
      · rw [hone]
        exact le_max_left _ _
      · rw [hm] at hlt
        simp only [counterLess, le_refl, if_true, Int.toNat_zero, pow_zero, Nat.cast_one,
          mul_one, decide_eq_true_eq] at hlt
        have : (run.reads : Int) ≤ m := by omega
        exact le_trans this (le_max_right _ _)
    · intro hone
      rcases hbound with h | hlt
      · exact h
      · by_contra hne
        have := counterLess_mono (run.reads - 1) 1 maxAttempts hlt (by omega)
        rw [hone] at this
        exact Bool.noConfusion this
  · intro hcap hno ticks
    exact pollNumber_never maxAttempts reads hcap hno ticks 0 0 (Nat.zero_le _)

/-- C29 as amended, at `maxAttempts` 0 and reads that always return a report in
`processing`: the promise is settled after one read. -/
theorem pollForAnalysis_settles_witness :
    counterLess maxSafeCounter (JsNumber.finite 0 0) = false ∧
    ∃ run, pollForAnalysisWithin 1 pendingReads (JsNumber.finite 0 0) = some run ∧
      run.reads = 1 :=
  ⟨by decide,
    match (pollForAnalysis_settles pendingReads (JsNumber.finite 0 0)).1 (by decide) with
    | ⟨run, hrun, _, _, _, _, hone⟩ =>
      ⟨run, hrun 1 (Nat.le_of_eq (hone (by decide))), hone (by decide)⟩⟩

end ComplianceChecker
